import Mathlib

/-!
# Path-addressed access to a JSON value tree (utilities::rapidjson)

A shallow embedding of `src/rapidjson/src/rapidjson.cpp`.

* A `::rapidjson::Value` is a pure tree (`Value`).  Writes through C++ references are
  modelled by returning the updated tree.
* The preconditions the RapidJSON library checks with `RAPIDJSON_ASSERT` (for example
  `PushBack` on a value that is not an array) are modelled as the fault
  `Fault.assertion`: the call does not return a status code at all.
* A path is a `std::string`, modelled as a list of characters.  Every place where the
  source hands `s.c_str()` to a RapidJSON `const Ch*` overload sees the characters
  before the first NUL only (`cstr`).
* The recursive functions of the source recurse on the remaining path.  Each is written
  as a non-recursive step (`setStep`, `processStep`, ...) that receives the function to
  call on the rest of the path, and is iterated `length + 1` times; the theorems
  `set_unfold`, `process_unfold`, ... show that the iteration never runs short.
-/

namespace utilities

/-- A `std::string`: a finite sequence of characters. -/
abbrev Str := List Char

/-- The NUL character that terminates a C string. -/
def NUL : Char := Char.ofNat 0

/-- The C-string view of a `std::string`, as a `const Ch*` parameter reads `s.c_str()`:
the characters in front of the first NUL. -/
def cstr (s : Str) : Str := s.takeWhile (fun c => c != NUL)

/-- A double-precision number stored in the tree.  Floating-point arithmetic is not
interpreted; `inFloatRange` tells whether RapidJSON's `IsFloat()` holds for it. -/
structure Dbl where
  inFloatRange : Bool
  code : Nat
deriving DecidableEq, Repr

/-- A `::rapidjson::Value`.  An integer number is held by its mathematical value: the
flags RapidJSON keeps for a number (`kIntFlag`, `kUintFlag`, `kInt64Flag`,
`kUint64Flag`) are determined by that value alone, whichever constructor or setter
wrote it.  An object is the ordered sequence of its members. -/
inductive Value where
  | null
  | bool (b : Bool)
  | int (n : Int)
  | real (d : Dbl)
  | str (s : Str)
  | arr (xs : List Value)
  | obj (ms : List (Str × Value))
deriving Repr

mutual
/-- Decidable equality of values. -/
def Value.decEq : (a b : Value) → Decidable (a = b)
  | .null, .null => isTrue rfl
  | .bool a, .bool b =>
    if h : a = b then isTrue (by rw [h]) else isFalse (by intro e; cases e; exact h rfl)
  | .int a, .int b =>
    if h : a = b then isTrue (by rw [h]) else isFalse (by intro e; cases e; exact h rfl)
  | .real a, .real b =>
    if h : a = b then isTrue (by rw [h]) else isFalse (by intro e; cases e; exact h rfl)
  | .str a, .str b =>
    if h : a = b then isTrue (by rw [h]) else isFalse (by intro e; cases e; exact h rfl)
  | .arr a, .arr b =>
    match Value.decEqList a b with
    | isTrue h => isTrue (by rw [h])
    | isFalse h => isFalse (by intro e; cases e; exact h rfl)
  | .obj a, .obj b =>
    match Value.decEqMembers a b with
    | isTrue h => isTrue (by rw [h])
    | isFalse h => isFalse (by intro e; cases e; exact h rfl)
  | .null, .bool _ | .null, .int _ | .null, .real _ | .null, .str _ | .null, .arr _
  | .null, .obj _ => isFalse (by intro e; cases e)
  | .bool _, .null | .bool _, .int _ | .bool _, .real _ | .bool _, .str _ | .bool _, .arr _
  | .bool _, .obj _ => isFalse (by intro e; cases e)
  | .int _, .null | .int _, .bool _ | .int _, .real _ | .int _, .str _ | .int _, .arr _
  | .int _, .obj _ => isFalse (by intro e; cases e)
  | .real _, .null | .real _, .bool _ | .real _, .int _ | .real _, .str _ | .real _, .arr _
  | .real _, .obj _ => isFalse (by intro e; cases e)
  | .str _, .null | .str _, .bool _ | .str _, .int _ | .str _, .real _ | .str _, .arr _
  | .str _, .obj _ => isFalse (by intro e; cases e)
  | .arr _, .null | .arr _, .bool _ | .arr _, .int _ | .arr _, .real _ | .arr _, .str _
  | .arr _, .obj _ => isFalse (by intro e; cases e)
  | .obj _, .null | .obj _, .bool _ | .obj _, .int _ | .obj _, .real _ | .obj _, .str _
  | .obj _, .arr _ => isFalse (by intro e; cases e)
/-- Decidable equality of element sequences. -/
def Value.decEqList : (a b : List Value) → Decidable (a = b)
  | [], [] => isTrue rfl
  | [], _ :: _ => isFalse (by intro e; cases e)
  | _ :: _, [] => isFalse (by intro e; cases e)
  | x :: xs, y :: ys =>
    match Value.decEq x y, Value.decEqList xs ys with
    | isTrue h1, isTrue h2 => isTrue (by rw [h1, h2])
    | isFalse h, _ => isFalse (by intro e; cases e; exact h rfl)
    | _, isFalse h => isFalse (by intro e; cases e; exact h rfl)
/-- Decidable equality of member sequences. -/
def Value.decEqMembers : (a b : List (Str × Value)) → Decidable (a = b)
  | [], [] => isTrue rfl
  | [], _ :: _ => isFalse (by intro e; cases e)
  | _ :: _, [] => isFalse (by intro e; cases e)
  | (k, x) :: xs, (l, y) :: ys =>
    if hk : k = l then
      match Value.decEq x y, Value.decEqMembers xs ys with
      | isTrue h1, isTrue h2 => isTrue (by rw [hk, h1, h2])
      | isFalse h, _ => isFalse (by intro e; cases e; exact h rfl)
      | _, isFalse h => isFalse (by intro e; cases e; exact h rfl)
    else isFalse (by intro e; cases e; exact hk rfl)
end

instance : DecidableEq Value := Value.decEq

/-- Ways in which a call fails to return a status code. -/
inductive Fault where
  /-- A precondition checked by `RAPIDJSON_ASSERT` is violated. -/
  | assertion
  /-- The index text between the brackets of a segment is not a number (`MalformedPath`). -/
  | malformedPath
  /-- The iteration bound of the embedding was reached (shown never to happen). -/
  | outOfFuel
deriving DecidableEq, Repr

/-- The outcome of a call: a fault, or the values the call returns. -/
inductive Result (α : Type) where
  | fault (f : Fault)
  | ok (a : α)
deriving DecidableEq, Repr

/-- Sequencing of calls: a fault ends the computation. -/
def Result.bind {α β : Type} (r : Result α) (f : α → Result β) : Result β :=
  match r with
  | .fault e => .fault e
  | .ok a => f a

instance : Monad Result where
  pure := Result.ok
  bind := Result.bind

/-! ## The path syntax -/

/-- The value of the macro IS_OBJECT (UINT64_MAX): the index reported for a segment without
a subscript. -/
def IS_OBJECT : Nat := 18446744073709551615

namespace string

/-- Modelled from the spec: string::split of string.hpp, which is not under src/
(spec 4.1, splitHead).  Splits at the first occurrence of the separator; if the separator
is absent the remaining path is empty and the head is the whole path. -/
def split (strPath : Str) (cSeparator : Char) : Str × Str :=
  (strPath.takeWhile (fun c => c != cSeparator),
   (strPath.dropWhile (fun c => c != cSeparator)).drop 1)

/-- Modelled from the spec: the index text of string::array (spec 6: a non-negative
base-10 integer).  The value of a non-empty string of decimal digits. -/
def parseIndex (digits : Str) : Option Nat :=
  if digits.isEmpty || !(digits.all Char.isDigit) then none
  else some (digits.foldl (fun acc c => 10 * acc + (c.toNat - 48)) 0)

/-- Modelled from the spec: string::array of string.hpp, which is not under src/
(spec 4.1, parseSegment).  If the text has an opening bracket followed by a closing
bracket, the name is the text before the opening bracket and the index is the
non-negative base-10 integer between the brackets; text that is not such an integer, or
does not fit the 64-bit result, is a malformed path.  Otherwise the name is the whole text
and the index is IS_OBJECT, the value the source tests for. -/
def array (strName : Str) (cOpen cClose : Char) : Result (Str × Nat) :=
  match strName.dropWhile (fun c => c != cOpen) with
  | [] => .ok (strName, IS_OBJECT)
  | _ :: rest =>
    if rest.contains cClose then
      match parseIndex (rest.takeWhile (fun c => c != cClose)) with
      | some i =>
        if i ≤ IS_OBJECT then .ok (strName.takeWhile (fun c => c != cOpen), i)
        else .fault .malformedPath
      | none => .fault .malformedPath
    else .ok (strName, IS_OBJECT)

end string

/-! ## The RapidJSON operations the source calls -/

/-- The value of the first member with the given name (`FindMember`). -/
def findMember : List (Str × Value) → Str → Option Value
  | [], _ => none
  | (k, v) :: ms, name => if k = name then some v else findMember ms name

/-- The members with the value of the first member of the given name replaced: a write
through the reference `jsonObject[name]`. -/
def updMember : List (Str × Value) → Str → Value → List (Str × Value)
  | [], _, _ => []
  | (k, v) :: ms, name, x => if k = name then (k, x) :: ms else (k, v) :: updMember ms name x

/-- The position of the first member with the given name. -/
def memberIndex : List (Str × Value) → Str → Option Nat
  | [], _ => none
  | (k, _) :: ms, name => if k = name then some 0 else (memberIndex ms name).map (· + 1)

/-- The conversion of a 64-bit index to `SizeType` (unsigned 32 bit) at `operator[]`. -/
def toSizeType (ulArrayElemnt : Nat) : Nat := ulArrayElemnt % 4294967296

namespace Value

def IsNull : Value → Bool
  | null => true
  | _ => false

def IsObject : Value → Bool
  | obj _ => true
  | _ => false

def IsArray : Value → Bool
  | arr _ => true
  | _ => false

/-- The call `ObjectEmpty()`; asserts `IsObject()`. -/
def ObjectEmpty : Value → Result Bool
  | obj ms => .ok ms.isEmpty
  | _ => .fault .assertion

/-- The call `HasMember(const Ch*)`; asserts `IsObject()`. -/
def HasMember : Value → Str → Result Bool
  | obj ms, name => .ok (findMember ms name).isSome
  | _, _ => .fault .assertion

/-- The call `operator[](const Ch*)`; asserts `IsObject()` and that the member exists. -/
def member : Value → Str → Result Value
  | obj ms, name =>
    match findMember ms name with
    | some v => .ok v
    | none => .fault .assertion
  | _, _ => .fault .assertion

/-- A write through the reference returned by `operator[](const Ch*)`. -/
def setMember : Value → Str → Value → Value
  | obj ms, name, x => obj (updMember ms name x)
  | v, _, _ => v

/-- The call `Size()`; asserts `IsArray()`. -/
def Size : Value → Result Nat
  | arr xs => .ok xs.length
  | _ => .fault .assertion

/-- The call `operator[](SizeType)` with a 64-bit argument; asserts `IsArray()` and
`index < Size()`. -/
def elem : Value → Nat → Result Value
  | arr xs, ulArrayElemnt =>
    match xs.get? (toSizeType ulArrayElemnt) with
    | some v => .ok v
    | none => .fault .assertion
  | _, _ => .fault .assertion

/-- A write through the reference returned by `operator[](SizeType)`. -/
def setElem : Value → Nat → Value → Value
  | arr xs, ulArrayElemnt, x => arr (xs.set (toSizeType ulArrayElemnt) x)
  | v, _, _ => v

/-- The call `PushBack`; asserts `IsArray()`. -/
def PushBack : Value → Value → Result Value
  | arr xs, x => .ok (arr (xs ++ [x]))
  | _, _ => .fault .assertion

/-- The call `AddMember`; asserts `IsObject()`.  The member is appended; an existing
member of the same name is kept. -/
def AddMember : Value → Str → Value → Result Value
  | obj ms, name, x => .ok (obj (ms ++ [(name, x)]))
  | _, _, _ => .fault .assertion

/-- The call `RemoveMember(name)`; asserts `IsObject()`.  The first member of that name is
removed by moving the last member into its place; the result tells whether there was one. -/
def RemoveMember : Value → Str → Result (Bool × Value)
  | obj ms, name =>
    match memberIndex ms name with
    | none => .ok (false, obj ms)
    | some i =>
      if i + 1 = ms.length then .ok (true, obj ms.dropLast)
      else
        match ms.getLast? with
        | some lastMember => .ok (true, obj ((ms.set i lastMember).dropLast))
        | none => .ok (true, obj ms.dropLast)
  | _, _ => .fault .assertion

end Value

namespace rapidjson

/-! ## Types of the class -/

/-- The bit mask `rapidjson::TYPE` (an enum class over uint16_t). -/
abbrev TYPE := Nat

namespace TYPE

def UKNOWN : TYPE := 0x0000
def OBJECT : TYPE := 0x0001
def ARRAY : TYPE := 0x0002
def SINT32 : TYPE := 0x0004
def SINT64 : TYPE := 0x0008
def UINT32 : TYPE := 0x0010
def UINT64 : TYPE := 0x0020
def FLOAT : TYPE := 0x0040
def DOUBLE : TYPE := 0x0080
def BOOL : TYPE := 0x0100
def STRING : TYPE := 0x0200
def SINT : TYPE := SINT32 ||| SINT64
def UINT : TYPE := UINT32 ||| UINT64
def INT32 : TYPE := SINT32 ||| UINT32
def INT64 : TYPE := SINT64 ||| UINT64
def INT : TYPE := SINT ||| UINT

end TYPE

namespace stProcess

/-- The enumeration `stProcess::TYPE`. -/
inductive TYPE where
  | SET | GET | ADD | PUSHBACK | REMOVE | SIZE | EXIST | EMPTY
  | SETINT | SETUINT | SETINT64 | SETUINT64
deriving DecidableEq, Repr

end stProcess

/-- The integer types the public get and set overloads are instantiated with;
`int` is the 32-bit `int` (the same type as int32_t). -/
inductive IntType where
  | int8 | int16 | int | int64 | uint8 | uint16 | uint32 | uint64
deriving DecidableEq, Repr

namespace IntType

/-- The least value of the type. -/
def min : IntType → Int
  | int8 => -128
  | int16 => -32768
  | int => -2147483648
  | int64 => -9223372036854775808
  | _ => 0

/-- The greatest value of the type. -/
def max : IntType → Int
  | int8 => 127
  | int16 => 32767
  | int => 2147483647
  | int64 => 9223372036854775807
  | uint8 => 255
  | uint16 => 65535
  | uint32 => 4294967295
  | uint64 => 18446744073709551615

/-- The number of values of the type. -/
def card (t : IntType) : Int := t.max - t.min + 1

/-- The conversion of an integer to the type (reduction modulo the number of values). -/
def wrap (t : IntType) (n : Int) : Int := (n - t.min) % t.card + t.min

end IntType

/-- The template argument of get, set and process. -/
inductive CType where
  | string
  | bool
  | integer (t : IntType)
  | float
  | double
deriving DecidableEq, Repr

/-- A value of one of the template argument types.  An integer is in the range of its
type (`TValue.inRange`). -/
inductive TValue where
  | string (s : Str)
  | bool (b : Bool)
  | integer (t : IntType) (n : Int)
  | float (d : Dbl)
  | double (d : Dbl)
deriving DecidableEq, Repr

namespace TValue

/-- The C++ type of the value. -/
def ctype : TValue → CType
  | string _ => .string
  | bool _ => .bool
  | integer t _ => .integer t
  | float _ => .float
  | double _ => .double

/-- The value is a value of its C++ type. -/
def inRange : TValue → Prop
  | integer t n => t.min ≤ n ∧ n ≤ t.max
  | _ => True

instance (v : TValue) : Decidable v.inRange := by
  cases v <;> unfold inRange <;> infer_instance

end TValue

/-- What a call did to its output parameter `tValue`. -/
inductive Assigned where
  /-- The parameter was not written. -/
  | untouched
  /-- The parameter was assigned this value. -/
  | value (v : TValue)
  /-- The parameter was assigned through a floating-point conversion, which is not
  interpreted. -/
  | converted
deriving DecidableEq, Repr

/-! ## Classification of a node -/

def IsInt (n : Int) : Bool := decide (-2147483648 ≤ n ∧ n ≤ 2147483647)
def IsUint (n : Int) : Bool := decide (0 ≤ n ∧ n ≤ 4294967295)
def IsInt64 (n : Int) : Bool := decide (-9223372036854775808 ≤ n ∧ n ≤ 9223372036854775807)
def IsUint64 (n : Int) : Bool := decide (0 ≤ n ∧ n ≤ 18446744073709551615)

/-- The function `rapidjson::type`. -/
def type (jsonObject : Value) : TYPE :=
  match jsonObject with
  | .arr _ => TYPE.ARRAY
  | .obj _ => TYPE.OBJECT
  | .bool _ => TYPE.BOOL
  | .str _ => TYPE.STRING
  | .int n =>
    if IsInt n then TYPE.SINT32
    else if IsUint n then TYPE.UINT32
    else if IsInt64 n then TYPE.SINT64
    else if IsUint64 n then TYPE.UINT64
    else TYPE.UKNOWN
  | .real d => if d.inFloatRange then TYPE.FLOAT else TYPE.DOUBLE
  | .null => TYPE.UKNOWN

/-! ## Reading a node -/

/-- The assignment `tValue = x` of an unsigned 64-bit `x` in the UINT64 case of element:
an integral conversion for an integer or bool parameter, `operator=(char)` for a string. -/
def assignUint64 (T : CType) (n : Int) : Assigned :=
  match T with
  | .integer t => .value (.integer t (t.wrap n))
  | .bool => .value (.bool (decide (n ≠ 0)))
  | .string => .value (.string [Char.ofNat (n % 256).toNat])
  | .float => .converted
  | .double => .converted

/-- The range test of a narrow type in the SINT32 and UINT32 cases of element. -/
def narrow (t : IntType) (n : Int) : Int × Assigned :=
  if t.min ≤ n ∧ n ≤ t.max then (0, .value (.integer t n)) else (-2, .untouched)

/-- The case STRING of element. -/
def elementSTRING (s : Str) (T : CType) : Int × Assigned :=
  match T with
  | .string => (0, .value (.string (cstr s)))
  | _ => (-2, .untouched)

/-- The case BOOL of element. -/
def elementBOOL (b : Bool) (T : CType) : Int × Assigned :=
  match T with
  | .bool => (0, .value (.bool b))
  | _ => (-2, .untouched)

/-- The case FLOAT of element: a double within the range of float. -/
def elementFLOAT (d : Dbl) (T : CType) : Int × Assigned :=
  match T with
  | .float => (0, .converted)
  | .double => (0, .value (.double d))
  | _ => (-2, .untouched)

/-- The case DOUBLE of element: `tValue = jsonObject.GetDouble()` whatever the type. -/
def elementDOUBLE (d : Dbl) (T : CType) : Int × Assigned :=
  match T with
  | .double => (0, .value (.double d))
  | _ => (0, .converted)

/-- The case SINT32 of element. -/
def elementSINT32 (n : Int) (T : CType) : Int × Assigned :=
  match T with
  | .integer .uint32 => narrow .uint32 n
  | .integer .uint16 => narrow .uint16 n
  | .integer .uint8 => narrow .uint8 n
  | .integer .int => narrow .int n
  | .integer .int8 => narrow .int8 n
  | .integer .int16 => narrow .int16 n
  | .integer .int64 => (0, .value (.integer .int64 n))
  | .integer .uint64 => if 0 ≤ n then (0, .value (.integer .uint64 n)) else (-2, .untouched)
  | .float => (0, .converted)
  | .double => (0, .converted)
  | .string => (-2, .untouched)
  | .bool => (-2, .untouched)

/-- The case SINT64 of element. -/
def elementSINT64 (n : Int) (T : CType) : Int × Assigned :=
  match T with
  | .integer .int64 => (0, .value (.integer .int64 n))
  | .integer .uint64 => if 0 ≤ n then (0, .value (.integer .uint64 n)) else (-2, .untouched)
  | _ => (-2, .untouched)

/-- The case UINT32 of element: only the three narrow unsigned types have a branch; for
every other type the status stays 0 and tValue is not written. -/
def elementUINT32 (n : Int) (T : CType) : Int × Assigned :=
  match T with
  | .integer .uint32 => narrow .uint32 n
  | .integer .uint16 => narrow .uint16 n
  | .integer .uint8 => narrow .uint8 n
  | _ => (0, .untouched)

/-- The function `rapidjson::element<T_VALUE>`: the status code and what was assigned to
tValue.  The cases follow `type(jsonObject)`. -/
def element (jsonObject : Value) (T : CType) : Int × Assigned :=
  match jsonObject with
  | .str s => elementSTRING s T
  | .bool b => elementBOOL b T
  | .real d => if d.inFloatRange then elementFLOAT d T else elementDOUBLE d T
  | .int n =>
    if IsInt n then elementSINT32 n T
    else if IsUint n then elementUINT32 n T
    else if IsInt64 n then elementSINT64 n T
    else if IsUint64 n then (0, assignUint64 T n)
    else (-1, .untouched)
  | .arr _ => (-1, .untouched)
  | .obj _ => (-1, .untouched)
  | .null => (-1, .untouched)

/-- The function `rapidjson::getElement<T_VALUE>`. -/
def getElement (T : CType) (jsonObject : Value) (ulArrayElemnt : Nat) :
    Result (Int × Assigned) :=
  match jsonObject with
  | .arr xs =>
    if xs.length > ulArrayElemnt then do
      let e ← jsonObject.elem ulArrayElemnt
      pure (element e T)
    else pure (element jsonObject T)
  | .obj _ => pure (-1, .untouched)
  | _ => pure (element jsonObject T)

/-! ## Writing a node -/

/-- The function `rapidjson::setElement<T_VALUE>` for an integer `n`: the status code and
the value of jsonObject afterwards. -/
def setElement (memberName : Str) (n : Int) (jsonObject : Value)
    (eType eDataType : stProcess.TYPE) : Result (Int × Value) :=
  match eType with
  | .SET =>
    if eDataType = .SETINT then pure (0, .int n)
    else if eDataType = .SETUINT then pure (0, .int n)
    else if eDataType = .SETINT64 then pure (0, .int n)
    else if eDataType = .SETUINT64 then pure (0, .int n)
    else pure (-2, jsonObject)
  | .PUSHBACK => do
    let j ← jsonObject.PushBack (.int n)
    pure (0, j)
  | .ADD => do
    let j ← jsonObject.AddMember memberName (.int n)
    pure (0, j)
  | _ => pure (-1, jsonObject)

/-- The three ways castData stores an already built value. -/
def store (memberName : Str) (x : Value) (jsonObject : Value) (eType : stProcess.TYPE) :
    Result (Int × Value) :=
  match eType with
  | .SET => pure (0, x)
  | .PUSHBACK => do
    let j ← jsonObject.PushBack x
    pure (0, j)
  | .ADD => do
    let j ← jsonObject.AddMember memberName x
    pure (0, j)
  | _ => pure (-1, jsonObject)

/-- The function `rapidjson::castData<T_TYPEA>`: the status code and the value of jsonObject
afterwards.  A string is stored through `c_str()`. -/
def castData (memberName : Str) (tType : TValue) (jsonObject : Value)
    (eType : stProcess.TYPE) : Result (Int × Value) :=
  match tType with
  | .string s => store memberName (.str (cstr s)) jsonObject eType
  | .bool b => store memberName (.bool b) jsonObject eType
  | .integer .int n => setElement memberName n jsonObject eType .SETINT
  | .integer .int16 n => setElement memberName n jsonObject eType .SETINT
  | .integer .int8 n => setElement memberName n jsonObject eType .SETINT
  | .integer .uint32 n => setElement memberName n jsonObject eType .SETUINT
  | .integer .uint16 n => setElement memberName n jsonObject eType .SETUINT
  | .integer .uint8 n => setElement memberName n jsonObject eType .SETUINT
  | .integer .int64 n => setElement memberName n jsonObject eType .SETINT64
  | .integer .uint64 n => setElement memberName n jsonObject eType .SETUINT64
  | .float d => store memberName (.real d) jsonObject eType
  | .double d => store memberName (.real d) jsonObject eType

/-- The function `rapidjson::split`: the node name, the remaining path and the index of
the head segment. -/
def split (cNodePathSeparator : Char) (strPath : Str) : Result (Str × Str × Nat) :=
  let pairNode := string.split strPath cNodePathSeparator
  match string.array pairNode.1 '[' ']' with
  | .fault e => .fault e
  | .ok pairArray => .ok (pairArray.1, pairNode.2, pairArray.2)

/-! ## Writing by path -/

/-- The body of the template `rapidjson::set<T_VALUE>(jsonObject, tValue, strNode)`: the
status code and the value of jsonObject afterwards.  `self` is the function called on the
remaining path. -/
def setStep (cSep : Char) (self : Value → TValue → Str → Result (Int × Value))
    (jsonObject : Value) (tValue : TValue) (strNode : Str) : Result (Int × Value) := do
  let (strNodePath, strChildren, ulArrayElemnt) ← split cSep strNode
  if strNodePath.isEmpty then pure (-1, jsonObject)
  else if strChildren.isEmpty then
    let bEmpty ← jsonObject.ObjectEmpty
    if bEmpty || jsonObject.IsNull then
      if ulArrayElemnt = IS_OBJECT then
        castData strNodePath tValue (.obj []) .ADD
      else do
        let (iRet, pushed) ← castData strNodePath tValue jsonObject .PUSHBACK
        let added ← pushed.AddMember strNodePath (.arr [])
        pure (iRet, added)
    else
      let bHas ← jsonObject.HasMember (cstr strNodePath)
      if bHas then
        if ulArrayElemnt = IS_OBJECT then do
          let childObject ← jsonObject.member (cstr strNodePath)
          let (iRet, written) ← castData strNodePath tValue childObject .SET
          pure (iRet, jsonObject.setMember (cstr strNodePath) written)
        else do
          let arrObject ← jsonObject.member (cstr strNodePath)
          let uiSize ← arrObject.Size
          if uiSize > ulArrayElemnt then do
            let childObject ← arrObject.elem ulArrayElemnt
            let (iRet, written) ← castData strNodePath tValue childObject .SET
            pure (iRet, jsonObject.setMember (cstr strNodePath)
              (arrObject.setElem ulArrayElemnt written))
          else do
            let (iRet, pushed) ← castData strNodePath tValue arrObject .PUSHBACK
            pure (iRet, jsonObject.setMember (cstr strNodePath) pushed)
      else
        if ulArrayElemnt = IS_OBJECT then
          castData strNodePath tValue jsonObject .ADD
        else do
          let (iRet, arrchildObject) ← castData strNodePath tValue (.arr []) .PUSHBACK
          let added ← jsonObject.AddMember strNodePath arrchildObject
          pure (iRet, added)
  else
    let bEmpty ← jsonObject.ObjectEmpty
    if bEmpty || jsonObject.IsNull then
      if ulArrayElemnt = IS_OBJECT then do
        let (iRet, childObject) ← self (.obj []) tValue strChildren
        let added ← jsonObject.AddMember strNodePath childObject
        pure (iRet, added)
      else do
        let (iRet, childObject) ← self (.obj []) tValue strChildren
        let arrchildObject ← (Value.arr []).PushBack childObject
        let added ← jsonObject.AddMember strNodePath arrchildObject
        pure (iRet, added)
    else
      if ulArrayElemnt = IS_OBJECT then do
        let bHas ← jsonObject.HasMember (cstr strNodePath)
        if bHas then do
          let childObject ← jsonObject.member (cstr strNodePath)
          if childObject.IsObject then do
            let (iRet, written) ← self childObject tValue strChildren
            pure (iRet, jsonObject.setMember (cstr strNodePath) written)
          else pure (-1, jsonObject)
        else do
          let (iRet, childObject) ← self (.obj []) tValue strChildren
          let added ← jsonObject.AddMember strNodePath childObject
          pure (iRet, added)
      else do
        let bHas ← jsonObject.HasMember (cstr strNodePath)
        if bHas then do
          let arrObject ← jsonObject.member (cstr strNodePath)
          let uiSize ← arrObject.Size
          if uiSize > ulArrayElemnt then do
            let childObject ← arrObject.elem ulArrayElemnt
            if childObject.IsObject then do
              let (iRet, written) ← self childObject tValue strChildren
              pure (iRet, jsonObject.setMember (cstr strNodePath)
                (arrObject.setElem ulArrayElemnt written))
            else pure (-1, jsonObject)
          else
            if arrObject.IsArray then do
              let (iRet, childObject) ← self (.obj []) tValue strChildren
              let pushed ← arrObject.PushBack childObject
              pure (iRet, jsonObject.setMember (cstr strNodePath) pushed)
            else pure (-1, jsonObject)
        else do
          let (iRet, childObject) ← self (.obj []) tValue strChildren
          let arrchildObject ← (Value.arr []).PushBack childObject
          let added ← jsonObject.AddMember strNodePath arrchildObject
          pure (iRet, added)

/-- The template set iterated at most `fuel` times along the path. -/
def setFuel (cSep : Char) : Nat → Value → TValue → Str → Result (Int × Value)
  | 0 => fun _ _ _ => .fault .outOfFuel
  | fuel + 1 => setStep cSep (setFuel cSep fuel)

/-- The template `rapidjson::set<T_VALUE>(jsonObject, tValue, strNode)`; the public
overloads `set(value, strNode)` call it on the document. -/
def set (cSep : Char) (jsonObject : Value) (tValue : TValue) (strNode : Str) :
    Result (Int × Value) :=
  setFuel cSep (strNode.length + 1) jsonObject tValue strNode

/-! ## Reading, testing and removing by path -/

/-- The body of the template `rapidjson::process<T_VALUE>`: the status code, what was
assigned to tValue and the value of jsonObject afterwards. -/
def processStep (cSep : Char)
    (self : Value → CType → Str → stProcess.TYPE → Result (Int × Assigned × Value))
    (jsonObject : Value) (T : CType) (strNode : Str) (eType : stProcess.TYPE) :
    Result (Int × Assigned × Value) := do
  let (strNodePath, strChildren, ulArrayElemnt) ← split cSep strNode
  if strNodePath.isEmpty then pure (-1, .untouched, jsonObject)
  else if strChildren.isEmpty then
    let bEmpty ← jsonObject.ObjectEmpty
    if bEmpty || jsonObject.IsNull then pure (-1, .untouched, jsonObject)
    else
      let bHas ← jsonObject.HasMember (cstr strNodePath)
      if bHas then
        match eType with
        | .REMOVE =>
          if ulArrayElemnt = IS_OBJECT then do
            let (bRet, removed) ← jsonObject.RemoveMember strNodePath
            pure (if bRet then 0 else -1, .untouched, removed)
          else do
            let item ← jsonObject.elem ulArrayElemnt
            let (bRet, removed) ← item.RemoveMember (cstr strNodePath)
            pure (if bRet then 0 else -1, .untouched, jsonObject.setElem ulArrayElemnt removed)
        | .GET => do
          let childObject ← jsonObject.member (cstr strNodePath)
          let (iRet, out) ← getElement T childObject ulArrayElemnt
          pure (iRet, out, jsonObject)
        | .EMPTY => do
          let childObject ← jsonObject.member (cstr strNodePath)
          pure (if childObject.IsNull then -1 else 0, .untouched, jsonObject)
        | .EXIST => pure (0, .untouched, jsonObject)
        | _ => pure (-1, .untouched, jsonObject)
      else pure (-1, .untouched, jsonObject)
  else
    let bEmpty ← jsonObject.ObjectEmpty
    if bEmpty || jsonObject.IsNull then pure (-1, .untouched, jsonObject)
    else
      let bHas ← jsonObject.HasMember (cstr strNodePath)
      if bHas then
        if ulArrayElemnt = IS_OBJECT then do
          let childObject ← jsonObject.member (cstr strNodePath)
          let (iRet, out, after) ← self childObject T strChildren eType
          pure (iRet, out, jsonObject.setMember (cstr strNodePath) after)
        else do
          let arrObject ← jsonObject.member (cstr strNodePath)
          let childObject ← arrObject.elem ulArrayElemnt
          let (iRet, out, after) ← self childObject T strChildren eType
          pure (iRet, out, jsonObject.setMember (cstr strNodePath)
            (arrObject.setElem ulArrayElemnt after))
      else pure (-1, .untouched, jsonObject)

/-- The template process iterated at most `fuel` times along the path. -/
def processFuel (cSep : Char) :
    Nat → Value → CType → Str → stProcess.TYPE → Result (Int × Assigned × Value)
  | 0 => fun _ _ _ _ => .fault .outOfFuel
  | fuel + 1 => processStep cSep (processFuel cSep fuel)

/-- The template `rapidjson::process<T_VALUE>(jsonObject, tValue, strNode, eType)`. -/
def process (cSep : Char) (jsonObject : Value) (T : CType) (strNode : Str)
    (eType : stProcess.TYPE) : Result (Int × Assigned × Value) :=
  processFuel cSep (strNode.length + 1) jsonObject T strNode eType

/-- The public `get(tValue, strNode)` overloads: the status code and what was assigned to
the output parameter. -/
def get (cSep : Char) (docJsonFile : Value) (T : CType) (strNode : Str) :
    Result (Int × Assigned) := do
  let (iRet, out, _) ← process cSep docJsonFile T strNode .GET
  pure (iRet, out)

/-- The public `remove(strNode)`: the status code and the document afterwards. -/
def remove (cSep : Char) (docJsonFile : Value) (strNode : Str) : Result (Int × Value) := do
  let (iRet, _, after) ← process cSep docJsonFile (.integer .int) strNode .REMOVE
  pure (iRet, after)

/-- The public `exist(strNode)`. -/
def exist (cSep : Char) (docJsonFile : Value) (strNode : Str) : Result Bool := do
  let (iRet, _, _) ← process cSep docJsonFile (.integer .int) strNode .EXIST
  pure (decide (iRet = 0))

/-- The public `empty(strNode)`: true when process reports a nonzero status. -/
def empty (cSep : Char) (docJsonFile : Value) (strNode : Str) : Result Bool := do
  let (iRet, _, _) ← process cSep docJsonFile (.integer .int) strNode .EMPTY
  pure (decide (iRet ≠ 0))

/-- The body of `rapidjson::process(jsonObject, strNode)`, which computes the type of a
node. -/
def processTypeStep (cSep : Char) (self : Value → Str → Result TYPE)
    (jsonObject : Value) (strNode : Str) : Result TYPE := do
  let (strNodePath, strChildren, ulArrayElemnt) ← split cSep strNode
  if strChildren.isEmpty then do
    let (iExist, _, _) ← process cSep jsonObject (.integer .int) strNode .EXIST
    if iExist = 0 then
      if ulArrayElemnt = IS_OBJECT then do
        let childObject ← jsonObject.member (cstr strNodePath)
        pure (type childObject)
      else do
        let arrObject ← jsonObject.member (cstr strNodePath)
        let childObject ← arrObject.elem ulArrayElemnt
        pure (type childObject)
    else pure TYPE.UKNOWN
  else if !strNodePath.isEmpty then do
    let (iExist, _, _) ← process cSep jsonObject (.integer .int) strNode .EXIST
    if iExist = 0 then
      if ulArrayElemnt = IS_OBJECT then do
        let childObject ← jsonObject.member (cstr strNodePath)
        self childObject strChildren
      else do
        let arrObject ← jsonObject.member (cstr strNodePath)
        let childObject ← arrObject.elem ulArrayElemnt
        self childObject strChildren
    else pure TYPE.UKNOWN
  else pure TYPE.UKNOWN

/-- The type computation iterated at most `fuel` times along the path. -/
def processTypeFuel (cSep : Char) : Nat → Value → Str → Result TYPE
  | 0 => fun _ _ => .fault .outOfFuel
  | fuel + 1 => processTypeStep cSep (processTypeFuel cSep fuel)

/-- The public `getType(strNode)`, which is `process(m_docJsonFile, strNode)`. -/
def getType (cSep : Char) (docJsonFile : Value) (strNode : Str) : Result TYPE :=
  processTypeFuel cSep (strNode.length + 1) docJsonFile strNode

/-- The body of `rapidjson::size(jsonObject, strNode)`.  An empty node name sets the
result to 0 and the body still runs. -/
def sizeStep (cSep : Char) (self : Value → Str → Result Nat)
    (jsonObject : Value) (strNode : Str) : Result Nat := do
  let (strNodePath, strChildren, ulArrayElemnt) ← split cSep strNode
  if strChildren.isEmpty then
    let bEmpty ← jsonObject.ObjectEmpty
    if bEmpty || jsonObject.IsNull then pure 0
    else
      let bHas ← jsonObject.HasMember (cstr strNodePath)
      if bHas then do
        let childObject ← jsonObject.member (cstr strNodePath)
        if childObject.IsArray then childObject.Size else pure 0
      else pure 0
  else
    let bEmpty ← jsonObject.ObjectEmpty
    if bEmpty || jsonObject.IsNull then pure 0
    else
      let bHas ← jsonObject.HasMember (cstr strNodePath)
      if bHas then do
        let childObject ← jsonObject.member (cstr strNodePath)
        if childObject.IsArray then do
          let item ← childObject.elem ulArrayElemnt
          self item strChildren
        else self childObject strChildren
      else pure 0

/-- The size computation iterated at most `fuel` times along the path. -/
def sizeFuel (cSep : Char) : Nat → Value → Str → Result Nat
  | 0 => fun _ _ => .fault .outOfFuel
  | fuel + 1 => sizeStep cSep (sizeFuel cSep fuel)

/-- The function `rapidjson::size(jsonObject, strNode)`; the public `size(strNode)` calls it
on the document. -/
def size (cSep : Char) (jsonObject : Value) (strNode : Str) : Result Nat :=
  sizeFuel cSep (strNode.length + 1) jsonObject strNode

/-! ## The text of a path -/

/-- The decimal text of an index, as `std::to_string` writes it. -/
def decimal (i : Nat) : Str := Nat.toDigits 10 i

/-- The text of a segment with a subscript: `name[index]`. -/
def indexed (name : Str) (i : Nat) : Str := name ++ '[' :: (decimal i ++ [']'])

/-- A path segment of the data model: a name and an optional index. -/
abbrev Segment := Str × Option Nat

/-- The text of a segment. -/
def segText : Segment → Str
  | (name, none) => name
  | (name, some i) => indexed name i

/-- The text of a path: the segment texts joined by the separator. -/
def pathText (cSep : Char) : List Segment → Str
  | [] => []
  | [s] => segText s
  | s :: t :: rest => segText s ++ cSep :: pathText cSep (t :: rest)

/-- A name that can stand in a segment: not empty, free of the separator and of the
opening bracket. -/
def PlainName (cSep : Char) (name : Str) : Prop :=
  name ≠ [] ∧ cSep ∉ name ∧ '[' ∉ name

/-- A separator that does not interfere with subscripts: neither a bracket nor a digit. -/
def PlainSep (cSep : Char) : Prop :=
  cSep ≠ '[' ∧ cSep ≠ ']' ∧ cSep.isDigit = false

instance (cSep : Char) (name : Str) : Decidable (PlainName cSep name) := by
  unfold PlainName; infer_instance

instance (cSep : Char) : Decidable (PlainSep cSep) := by
  unfold PlainSep; infer_instance

/-! ## Notions used to state the properties -/

/-- The node castData writes for a value: a string is stored up to its first NUL. -/
def stored : TValue → Value
  | .string s => .str (cstr s)
  | .bool b => .bool b
  | .integer _ n => .int n
  | .float d => .real d
  | .double d => .real d

/-- The scalars of the round-trip properties: a string free of NUL, a bool, or an integer
in the range of its type that is not a 64-bit-typed value between 2^31 and 2^32 - 1.
Floating-point values are left out: their conversions are not interpreted. -/
def TValue.Supported : TValue → Prop
  | .string s => NUL ∉ s
  | .bool _ => True
  | .integer t n =>
    t.min ≤ n ∧ n ≤ t.max ∧
      ((t = .int64 ∨ t = .uint64) → ¬ (2147483648 ≤ n ∧ n ≤ 4294967295))
  | .float _ => False
  | .double _ => False

instance (v : TValue) : Decidable v.Supported := by
  cases v <;> unfold TValue.Supported <;> infer_instance

/-- The member named by some segment of the path is absent from the object reached so far.
The segments in front of it resolve: a plain segment names a member that is an object, a
segment with a subscript names a member that is an array whose element at the subscript is
an object.  Names are looked up as the source does, through their C-string view. -/
inductive MissingMember (cSep : Char) : Value → Str → Prop where
  | here (ms : List (Str × Value)) (strNode name children : Str) (i : Nat)
      (hsplit : split cSep strNode = .ok (name, children, i))
      (habsent : findMember ms (cstr name) = none) :
      MissingMember cSep (.obj ms) strNode
  | plain (ms inner : List (Str × Value)) (strNode name children : Str)
      (hsplit : split cSep strNode = .ok (name, children, IS_OBJECT))
      (hrest : children ≠ [])
      (hmember : findMember ms (cstr name) = some (.obj inner))
      (hnext : MissingMember cSep (.obj inner) children) :
      MissingMember cSep (.obj ms) strNode
  | item (ms inner : List (Str × Value)) (xs : List Value) (strNode name children : Str)
      (i : Nat)
      (hsplit : split cSep strNode = .ok (name, children, i))
      (hindex : i ≠ IS_OBJECT)
      (hrest : children ≠ [])
      (hmember : findMember ms (cstr name) = some (.arr xs))
      (hsize : i < 4294967296)
      (hitem : xs.get? i = some (.obj inner))
      (hnext : MissingMember cSep (.obj inner) children) :
      MissingMember cSep (.obj ms) strNode

/-- The chain of nested single-member objects k1 -> k2 -> ... that ends in x. -/
def chain : List Str → Value → Value
  | [], x => x
  | k :: ks, x => .obj [(k, chain ks x)]

/-- The text of a path of plain names: the names joined by the separator. -/
def plainPath (cSep : Char) (ks : List Str) : Str :=
  pathText cSep (ks.map fun k => (k, none))

/-- A segment of a valid path: the name is not empty and free of the separator, of the
opening bracket and of NUL; a subscript fits SizeType (32 bit). -/
def ValidSegment (cSep : Char) : Segment → Prop
  | (name, none) => PlainName cSep name ∧ NUL ∉ name
  | (name, some i) => PlainName cSep name ∧ NUL ∉ name ∧ i < 4294967296

instance (cSep : Char) (s : Segment) : Decidable (ValidSegment cSep s) := by
  obtain ⟨name, index⟩ := s
  cases index <;> unfold ValidSegment <;> infer_instance

/-- Every subscript of the path is below the size of the array it addresses in the
document. -/
def inBounds : Value → List Segment → Bool
  | _, [] => true
  | .obj ms, (name, none) :: rest =>
    match findMember ms name with
    | some c => inBounds c rest
    | none => true
  | .obj ms, (name, some i) :: rest =>
    match findMember ms name with
    | some (.arr xs) =>
      decide (i < xs.length) &&
        (match xs.get? i with
          | some item => inBounds item rest
          | none => true)
    | _ => true
  | _, _ :: _ => true

/-- The value a path addresses in a document: a plain segment steps to the named member
of an object, a segment with a subscript steps to the element at the subscript of the
named array member. -/
def resolve : Value → List Segment → Option Value
  | j, [] => some j
  | .obj ms, (name, none) :: rest =>
    match findMember ms name with
    | some c => resolve c rest
    | none => none
  | .obj ms, (name, some i) :: rest =>
    match findMember ms name with
    | some (.arr xs) =>
      match xs.get? i with
      | some item => resolve item rest
      | none => none
    | _ => none
  | _, _ :: _ => none

/-- The terminal segment of the path carries no subscript. -/
def terminalPlain : List Segment → Bool
  | [] => true
  | [(_, index)] => index.isNone
  | _ :: t :: rest => terminalPlain (t :: rest)

/-- The element count of an Array, and 0 for every other value. -/
def elementCount : Value → Nat
  | .arr xs => xs.length
  | _ => 0

/-- The document with the value at a path of plain names replaced by `x`; every node
off the path is kept. -/
def replaceAt : Value → List Str → Value → Value
  | _, [], x => x
  | .obj ms, k :: ks, x =>
    match findMember ms k with
    | some c => .obj (updMember ms k (replaceAt c ks x))
    | none => .obj ms
  | j, _ :: _, _ => j

/-! ## The schema check -/

/-- The enumeration `CHECK_ERROR`. -/
inductive CHECK_ERROR where
  | NO_ERROR | UNABLE_TO_GET | BAD_FORMAT | UNEXPECTED_NODE | MISSING_NODE | EMPTY_ARRAY
  | TOO_MANY_ITEMS | TOO_FIEW_ITEMS | BAD_VALUE | OUT_OF_RANGE
deriving DecidableEq, Repr

/-- The check result vector `std::vector<std::pair<std::string, CHECK_ERROR>>`. -/
abbrev CheckRet := List (Str × CHECK_ERROR)

/-- The type `tCallback`.  A callback receives the instance, the node path and the check
result vector, the first and the last by mutable reference: it is a function of the
document of the instance, the path and the vector that gives the status it returns, the
document and the vector afterwards. -/
abbrev tCallback := Value → Str → CheckRet → Result (Int × Value × CheckRet)

/-- The structure `stNodeConfig`; a null `callback` or `mapNodeItems` is `none`.  The
entries of a `std::map` are listed in its iteration order. -/
inductive stNodeConfig where
  | mk (bOptional bNull bEmpty : Bool) (eType : TYPE) (callback : Option tCallback)
      (mapNodeItems : Option (List (Str × stNodeConfig)))

namespace stNodeConfig

def bOptional : stNodeConfig → Bool
  | mk b _ _ _ _ _ => b

def bNull : stNodeConfig → Bool
  | mk _ b _ _ _ _ => b

def bEmpty : stNodeConfig → Bool
  | mk _ _ b _ _ _ => b

def eType : stNodeConfig → TYPE
  | mk _ _ _ t _ _ => t

def callback : stNodeConfig → Option tCallback
  | mk _ _ _ _ c _ => c

def mapNodeItems : stNodeConfig → Option (List (Str × stNodeConfig))
  | mk _ _ _ _ _ m => m

end stNodeConfig

/-- The check of the entries of a map of node items below a path: called with the
document, the path, the status so far and the vector. -/
abbrev tCheckItems := Value → Str → Int → CheckRet → Result (Int × Value × CheckRet)

/-- The loop over all items of an array node in the private `rapidjson::check`: the item
at `strNode[uiCnt]` must be an Object, and then the entries of the map of node items are
checked below it.  The state is the status, the path last formed, the document and the
vector. -/
def checkArrayItems (cSep : Char) (items : tCheckItems) (strNode : Str) (uiSize : Nat)
    (docJsonFile : Value) (vecCheckRet : CheckRet) : Result (Int × Str × Value × CheckRet) :=
  (List.range uiSize).foldlM
    (fun (st : Int × Str × Value × CheckRet) uiCnt => do
      let strPath := strNode ++ '[' :: (decimal uiCnt ++ [']'])
      let eItem ← getType cSep st.2.2.1 strPath
      if eItem ≠ TYPE.OBJECT then
        pure (-1, strPath, st.2.2.1, st.2.2.2 ++ [(strPath, .BAD_FORMAT)])
      else do
        let r ← items st.2.2.1 strPath st.1 st.2.2.2
        pure (r.1, strPath, r.2.1, r.2.2))
    (0, strNode, docJsonFile, vecCheckRet)

/-- The part of the private `rapidjson::check` that runs for a node that exists and is not
null, up to the callback: the type test and the switch on `nodeConfig.eType`.  `eNode` is
the type getType gave for the node. -/
def checkTyped (cSep : Char) (bEmpty : Bool) (eType : TYPE) (checkItems : Option tCheckItems)
    (eNode : TYPE) (docJsonFile : Value) (strNode : Str) (vecCheckRet : CheckRet) :
    Result (Int × Str × Value × CheckRet) :=
  if eNode &&& eType = 0 then
    pure (-1, strNode, docJsonFile, vecCheckRet ++ [(strNode, .BAD_FORMAT)])
  else if eType = TYPE.STRING then do
    let (iGet, out) ← get cSep docJsonFile .string strNode
    let strElement : Str :=
      match out with
      | .value (.string s) => s
      | _ => []
    if iGet = 0 && strElement.isEmpty && !bEmpty then
      pure (-1, strNode, docJsonFile, vecCheckRet ++ [(strNode, .BAD_VALUE)])
    else pure (0, strNode, docJsonFile, vecCheckRet)
  else if eType = TYPE.ARRAY then do
    let uiSize ← size cSep docJsonFile strNode
    if uiSize = 0 && !bEmpty then
      pure (-1, strNode, docJsonFile, vecCheckRet ++ [(strNode, .EMPTY_ARRAY)])
    else
      match checkItems with
      | none => pure (0, strNode, docJsonFile, vecCheckRet)
      | some items => checkArrayItems cSep items strNode uiSize docJsonFile vecCheckRet
  else if eType = TYPE.OBJECT then
    match checkItems with
    | none => pure (0, strNode, docJsonFile, vecCheckRet)
    | some items => do
      let r ← items docJsonFile strNode 0 vecCheckRet
      pure (r.1, strNode, r.2.1, r.2.2)
  else pure (0, strNode, docJsonFile, vecCheckRet)

/-- The body of the private `rapidjson::check(strNode, nodeConfig, vecCheckRet)`: the
status code, the document of the instance and the vector afterwards.  `checkItems` is the
loop over the entries of `*nodeConfig.mapNodeItems`, `none` for a null pointer. -/
def checkStep (cSep : Char) (bOptional bNull bEmpty : Bool) (eType : TYPE)
    (callback : Option tCallback) (checkItems : Option tCheckItems) (docJsonFile : Value)
    (strNode : Str) (vecCheckRet : CheckRet) : Result (Int × Value × CheckRet) := do
  let bExist ← exist cSep docJsonFile strNode
  if bExist then
    let bIsNull ← empty cSep docJsonFile strNode
    if !bIsNull then
      let eNode ← getType cSep docJsonFile strNode
      let (iRet, strPath, doc, vec) ←
        checkTyped cSep bEmpty eType checkItems eNode docJsonFile strNode vecCheckRet
      match callback with
      | some f => if iRet = 0 then f doc strPath vec else pure (iRet, doc, vec)
      | none => pure (iRet, doc, vec)
    else if !bNull then
      pure (-1, docJsonFile, vecCheckRet ++ [(strNode, .UNABLE_TO_GET)])
    else pure (0, docJsonFile, vecCheckRet)
  else if !bOptional then
    pure (-1, docJsonFile, vecCheckRet ++ [(strNode, .MISSING_NODE)])
  else pure (0, docJsonFile, vecCheckRet)

mutual
/-- The private `rapidjson::check(strNode, nodeConfig, vecCheckRet)`. -/
def checkNode (cSep : Char) (nodeConfig : stNodeConfig) (docJsonFile : Value)
    (strNode : Str) (vecCheckRet : CheckRet) : Result (Int × Value × CheckRet) :=
  match nodeConfig with
  | .mk bOptional bNull bEmpty eType callback none =>
    checkStep cSep bOptional bNull bEmpty eType callback none docJsonFile strNode
      vecCheckRet
  | .mk bOptional bNull bEmpty eType callback (some items) =>
    checkStep cSep bOptional bNull bEmpty eType callback
      (some (fun doc strPath iRet vec => checkNodeItems cSep items doc strPath iRet vec))
      docJsonFile strNode vecCheckRet
/-- The loop over the entries of `*nodeConfig.mapNodeItems`: each entry is checked at
the path `strPath + "." + strNodeItem` and its status replaces `iRet`. -/
def checkNodeItems (cSep : Char) (items : List (Str × stNodeConfig)) (docJsonFile : Value)
    (strPath : Str) (iRet : Int) (vecCheckRet : CheckRet) :
    Result (Int × Value × CheckRet) :=
  match items with
  | [] => pure (iRet, docJsonFile, vecCheckRet)
  | (strNodeItem, nodeConfigItem) :: rest => do
    let r ← checkNode cSep nodeConfigItem docJsonFile (strPath ++ '.' :: strNodeItem)
      vecCheckRet
    checkNodeItems cSep rest r.2.1 strPath r.1 r.2.2
end

/-- The public `rapidjson::check(strConfig, mapNodes, vecCheckRet)`: the status code, the
document of the instance and the vector afterwards.  `Parse` is the parser of the
RapidJSON library, which gives the document for a text that parses and `none` for a text
with a parse error (the document is then left as it was); it receives `strConfig.c_str()`.
The entries of `mapNodes` are listed in the iteration order of the map. -/
def check (Parse : Str → Option Value) (cSep : Char) (docJsonFile : Value) (strConfig : Str)
    (mapNodes : List (Str × stNodeConfig)) (_vecCheckRet : CheckRet) :
    Result (Int × Value × CheckRet) :=
  if strConfig.isEmpty then pure (-1, docJsonFile, [])
  else
    match Parse (cstr strConfig) with
    | none => pure (-1, docJsonFile, [])
    | some parsed => do
      let r ← mapNodes.foldlM
        (fun (st : Int × Value × CheckRet) pairMapNodes =>
          checkNode cSep pairMapNodes.2 st.2.1 pairMapNodes.1 st.2.2)
        (0, parsed, [])
      pure (if r.2.2.isEmpty then r.1 else -2, r.2.1, r.2.2)

mutual
/-- Neither the config nor any config below it has a callback. -/
def stNodeConfig.callbackFree : stNodeConfig → Bool
  | .mk _ _ _ _ callback none => callback.isNone
  | .mk _ _ _ _ callback (some items) => callback.isNone && callbackFreeItems items
/-- No config of the entries, nor any config below them, has a callback. -/
def callbackFreeItems : List (Str × stNodeConfig) → Bool
  | [] => true
  | (_, nodeConfig) :: rest => nodeConfig.callbackFree && callbackFreeItems rest
end

/-- A callback reports its failures: whenever it returns a nonzero status, the vector it
leaves is not empty. -/
def tCallback.Reports (f : tCallback) : Prop :=
  ∀ d p v r d' v', f d p v = .ok (r, d', v') → r ≠ 0 → v' ≠ []

mutual
/-- Every callback of the config and of the configs below it reports its failures. -/
def stNodeConfig.CallbacksReport : stNodeConfig → Prop
  | .mk _ _ _ _ callback none => ∀ f, callback = some f → f.Reports
  | .mk _ _ _ _ callback (some items) =>
    (∀ f, callback = some f → f.Reports) ∧ ItemsCallbacksReport items
/-- Every callback of the entries and of the configs below them reports its failures. -/
def ItemsCallbacksReport : List (Str × stNodeConfig) → Prop
  | [] => True
  | (_, nodeConfig) :: rest => nodeConfig.CallbacksReport ∧ ItemsCallbacksReport rest
end

/-- The error sequence the node check produces for an entry of the schema on a document,
started on an empty vector. -/
def nodeErrors (cSep : Char) (docJsonFile : Value) (entry : Str × stNodeConfig) :
    Result CheckRet := do
  let r ← checkNode cSep entry.2 docJsonFile entry.1 []
  pure r.2.2

/-- The concatenation, in the order of the entries, of the error sequences the node check
produces for each entry. -/
def concatErrors (cSep : Char) (docJsonFile : Value) :
    List (Str × stNodeConfig) → Result CheckRet
  | [] => pure []
  | entry :: rest => do
    let a ← nodeErrors cSep docJsonFile entry
    let b ← concatErrors cSep docJsonFile rest
    pure (a ++ b)

/-! ## Vectors -/

/-- The loop of `rapidjson::setVector`: item `uiCnt` is written at `strNode[uiCnt]`, and
the first nonzero status ends the loop. -/
def setVectorLoop (cSep : Char) (strNode : Str) :
    List TValue → Nat → Int → Value → Result (Int × Value)
  | [], _, iRet, docJsonFile => pure (iRet, docJsonFile)
  | tValue :: rest, uiCnt, _, docJsonFile => do
    let r ← set cSep docJsonFile tValue (strNode ++ '[' :: (decimal uiCnt ++ [']']))
    if r.1 ≠ 0 then pure r
    else setVectorLoop cSep strNode rest (uiCnt + 1) r.1 r.2

/-- The template `rapidjson::setVector<T_VALUE>(vecValue, strNode)`, which the public
`set(vecValues, strNode)` overloads call: the status code and the document afterwards.
The item count is held in a `uint32_t`. -/
def setVector (cSep : Char) (docJsonFile : Value) (vecValue : List TValue) (strNode : Str) :
    Result (Int × Value) :=
  setVectorLoop cSep strNode (vecValue.take (vecValue.length % 4294967296)) 0 0 docJsonFile

/-- The loop of `rapidjson::getVector`: item `uiCnt` is read at `strNodeFirst[uiCnt]` into
`tValue`, the first nonzero status ends the loop, and `tValue` is pushed otherwise.  The
state of `tValue` is what was last assigned to it, `untouched` while it is uninitialised. -/
def getVectorLoop (cSep : Char) (docJsonFile : Value) (T : CType) (strNodeFirst : Str) :
    List Nat → Int → Assigned → List Assigned → Result (Int × List Assigned)
  | [], iRet, _, vecValue => pure (iRet, vecValue)
  | uiCnt :: rest, _, tValue, vecValue => do
    let r ← get cSep docJsonFile T (strNodeFirst ++ '[' :: (decimal uiCnt ++ [']']))
    let tNext : Assigned :=
      match r.2 with
      | .untouched => tValue
      | assigned => assigned
    if r.1 ≠ 0 then pure (r.1, vecValue)
    else getVectorLoop cSep docJsonFile T strNodeFirst rest r.1 tNext (vecValue ++ [tNext])

/-- The template `rapidjson::getVector<T_VALUE>(vecValue, strNodeFirst)`, which the public
`get(vecValues, strNode)` overloads call: the status code and the vector afterwards. -/
def getVector (cSep : Char) (docJsonFile : Value) (T : CType) (vecValue : List Assigned)
    (strNodeFirst : Str) : Result (Int × List Assigned) := do
  let uiSize ← size cSep docJsonFile strNodeFirst
  getVectorLoop cSep docJsonFile T strNodeFirst (List.range uiSize) 0 .untouched vecValue

/-- The errors of the fields of an array element, as the schema rule words them: the
concatenation, in the order of the entries of the children map, of the node-check errors
of `strPath.field` for each entry `(field, fieldConfig)`. -/
def itemErrors (cSep : Char) (docJsonFile : Value) (strPath : Str)
    (items : List (Str × stNodeConfig)) : Result CheckRet :=
  concatErrors cSep docJsonFile (items.map fun entry => (strPath ++ '.' :: entry.1, entry.2))

/-- The errors of the elements of an array, as the schema rule words them: for the
elements in increasing index, starting at index `i`, the one error
`(strNode[i], BAD_FORMAT)` when the element is not an Object, and the errors of its fields
otherwise. -/
def arrayErrors (cSep : Char) (docJsonFile : Value) (strNode : Str)
    (items : List (Str × stNodeConfig)) : List Value → Nat → Result CheckRet
  | [], _ => pure []
  | x :: rest, i => do
    let a ←
      match x with
      | .obj _ => itemErrors cSep docJsonFile (strNode ++ '[' :: (decimal i ++ [']'])) items
      | _ => pure [(strNode ++ '[' :: (decimal i ++ [']']), CHECK_ERROR.BAD_FORMAT)]
    let b ← arrayErrors cSep docJsonFile strNode items rest (i + 1)
    pure (a ++ b)

/-! ## Basic facts -/

theorem result_bind_ok {α β : Type} (a : α) (f : α → Result β) :
    (Result.ok a >>= f) = f a := rfl

theorem result_bind_fault {α β : Type} (e : Fault) (f : α → Result β) :
    (Result.fault e >>= f) = Result.fault e := rfl

theorem result_pure {α : Type} (a : α) : (pure a : Result α) = Result.ok a := rfl

theorem takeWhile_ne_append (c : Char) (xs ys : Str) (h : c ∉ xs) :
    (xs ++ c :: ys).takeWhile (fun d => d != c) = xs := by
  induction xs with
  | nil => simp
  | cons x xs ih =>
    have hx : x ≠ c := fun e => h (by simp [e])
    have hxs : c ∉ xs := fun e => h (by simp [e])
    have hb : (x != c) = true := by simp [hx]
    simp [List.takeWhile_cons, hb, ih hxs]

theorem dropWhile_ne_append (c : Char) (xs ys : Str) (h : c ∉ xs) :
    (xs ++ c :: ys).dropWhile (fun d => d != c) = c :: ys := by
  induction xs with
  | nil => simp
  | cons x xs ih =>
    have hx : x ≠ c := fun e => h (by simp [e])
    have hxs : c ∉ xs := fun e => h (by simp [e])
    have hb : (x != c) = true := by simp [hx]
    simp [List.dropWhile_cons, hb, ih hxs]

theorem takeWhile_ne_self (c : Char) (xs : Str) (h : c ∉ xs) :
    xs.takeWhile (fun d => d != c) = xs := by
  induction xs with
  | nil => simp
  | cons x xs ih =>
    have hx : x ≠ c := fun e => h (by simp [e])
    have hxs : c ∉ xs := fun e => h (by simp [e])
    have hb : (x != c) = true := by simp [hx]
    simp [List.takeWhile_cons, hb, ih hxs]

theorem dropWhile_ne_self (c : Char) (xs : Str) (h : c ∉ xs) :
    xs.dropWhile (fun d => d != c) = [] := by
  induction xs with
  | nil => simp
  | cons x xs ih =>
    have hx : x ≠ c := fun e => h (by simp [e])
    have hxs : c ∉ xs := fun e => h (by simp [e])
    have hb : (x != c) = true := by simp [hx]
    simp [List.dropWhile_cons, hb, ih hxs]

theorem cstr_of_not_mem (s : Str) (h : NUL ∉ s) : cstr s = s :=
  takeWhile_ne_self NUL s h

theorem string_split_plain (cSep : Char) (s : Str) (h : cSep ∉ s) :
    string.split s cSep = (s, []) := by
  simp [string.split, takeWhile_ne_self cSep s h, dropWhile_ne_self cSep s h]

theorem string_split_cons (cSep : Char) (s rest : Str) (h : cSep ∉ s) :
    string.split (s ++ cSep :: rest) cSep = (s, rest) := by
  simp [string.split, takeWhile_ne_append cSep s rest h, dropWhile_ne_append cSep s rest h]

theorem string_array_plain (name : Str) (h : '[' ∉ name) :
    string.array name '[' ']' = .ok (name, IS_OBJECT) := by
  simp [string.array, dropWhile_ne_self '[' name h]

/-! ## Decimal index text -/

theorem digitChar_isDigit (k : Nat) (h : k < 10) : (Nat.digitChar k).isDigit = true := by
  interval_cases k <;> decide

theorem digitChar_toNat (k : Nat) (h : k < 10) : (Nat.digitChar k).toNat - 48 = k := by
  interval_cases k <;> decide

theorem toDigitsCore_all (fuel n : Nat) (ds : Str) (c : Char)
    (hc : c ∈ Nat.toDigitsCore 10 fuel n ds) : c.isDigit = true ∨ c ∈ ds := by
  induction fuel generalizing n ds with
  | zero => right; simpa [Nat.toDigitsCore] using hc
  | succ f ih =>
    have hd : (Nat.digitChar (n % 10)).isDigit = true :=
      digitChar_isDigit _ (Nat.mod_lt _ (by decide))
    simp only [Nat.toDigitsCore] at hc
    split at hc
    · rcases List.mem_cons.1 hc with h | h
      · left; rw [h]; exact hd
      · right; exact h
    · rcases ih _ _ hc with h | h
      · left; exact h
      · rcases List.mem_cons.1 h with h | h
        · left; rw [h]; exact hd
        · right; exact h

theorem toDigitsCore_ne_nil (fuel n : Nat) (ds : Str) (hf : 0 < fuel) :
    Nat.toDigitsCore 10 fuel n ds ≠ [] := by
  induction fuel generalizing n ds with
  | zero => omega
  | succ f ih =>
    simp only [Nat.toDigitsCore]
    split
    · simp
    · cases f with
      | zero => simp [Nat.toDigitsCore]
      | succ g => exact ih _ _ (by omega)

theorem toDigitsCore_val (fuel n : Nat) (ds : Str) (hf : n < fuel) :
    (Nat.toDigitsCore 10 fuel n ds).foldl (fun acc c => 10 * acc + (c.toNat - 48)) 0
      = ds.foldl (fun acc c => 10 * acc + (c.toNat - 48)) n := by
  induction fuel generalizing n ds with
  | zero => omega
  | succ f ih =>
    have hd : (Nat.digitChar (n % 10)).toNat - 48 = n % 10 :=
      digitChar_toNat _ (Nat.mod_lt _ (by decide))
    simp only [Nat.toDigitsCore]
    split
    · rename_i h0
      have hn : n % 10 = n := by omega
      simp only [List.foldl_cons, hd]
      simp [hn]
    · rename_i h0
      have hlt : n / 10 < f := by omega
      rw [ih _ _ hlt]
      simp only [List.foldl_cons, hd]
      have : 10 * (n / 10) + n % 10 = n := by omega
      rw [this]

theorem decimal_all_digits (i : Nat) (c : Char) (hc : c ∈ decimal i) : c.isDigit = true := by
  rcases toDigitsCore_all _ _ _ _ hc with h | h
  · exact h
  · simp at h

theorem not_mem_decimal (i : Nat) (c : Char) (hc : c.isDigit = false) : c ∉ decimal i := by
  intro h
  rw [decimal_all_digits i c h] at hc
  exact Bool.noConfusion hc

theorem parseIndex_decimal (i : Nat) : string.parseIndex (decimal i) = some i := by
  have hne : decimal i ≠ [] := toDigitsCore_ne_nil _ _ _ (by omega)
  have hall : (decimal i).all Char.isDigit = true := by
    rw [List.all_eq_true]
    exact fun c hc => decimal_all_digits i c hc
  have hval := toDigitsCore_val (i + 1) i [] (by omega)
  unfold string.parseIndex
  have h1 : (decimal i).isEmpty = false := by
    cases h : decimal i with
    | nil => exact absurd h hne
    | cons a b => rfl
  simp only [h1, hall]
  simpa [decimal, Nat.toDigits] using hval

theorem string_array_indexed (name : Str) (i : Nat) (h : '[' ∉ name) (hi : i ≤ IS_OBJECT) :
    string.array (indexed name i) '[' ']' = .ok (name, i) := by
  have hclose : ']' ∉ decimal i := not_mem_decimal i ']' (by decide)
  unfold string.array indexed
  rw [dropWhile_ne_append '[' name _ h]
  simp only []
  have hc : (decimal i ++ [']']).contains ']' = true := by simp
  rw [if_pos hc, takeWhile_ne_append ']' (decimal i) [] hclose, parseIndex_decimal]
  simp only [hi, if_true, takeWhile_ne_append '[' name _ h]

/-! ## The head segment of a path text -/

theorem not_mem_indexed (cSep : Char) (name : Str) (i : Nat) (hs : PlainSep cSep)
    (hn : cSep ∉ name) : cSep ∉ indexed name i := by
  intro h
  simp only [indexed, List.mem_append, List.mem_cons, List.mem_singleton] at h
  rcases h with h | h | h | h
  · exact hn h
  · exact hs.1 h
  · exact not_mem_decimal i cSep hs.2.2 h
  · rcases h with h | h
    · exact hs.2.1 h
    · simp at h

theorem split_plain (cSep : Char) (name : Str) (hn : PlainName cSep name) :
    split cSep name = .ok (name, [], IS_OBJECT) := by
  simp [split, string_split_plain cSep name hn.2.1, string_array_plain name hn.2.2]

theorem split_plain_cons (cSep : Char) (name rest : Str) (hn : PlainName cSep name) :
    split cSep (name ++ cSep :: rest) = .ok (name, rest, IS_OBJECT) := by
  simp [split, string_split_cons cSep name rest hn.2.1, string_array_plain name hn.2.2]

theorem split_indexed (cSep : Char) (name : Str) (i : Nat) (hs : PlainSep cSep)
    (hn : PlainName cSep name) (hi : i ≤ IS_OBJECT) :
    split cSep (indexed name i) = .ok (name, [], i) := by
  simp [split, string_split_plain cSep _ (not_mem_indexed cSep name i hs hn.2.1),
    string_array_indexed name i hn.2.2 hi]

theorem split_indexed_cons (cSep : Char) (name rest : Str) (i : Nat) (hs : PlainSep cSep)
    (hn : PlainName cSep name) (hi : i ≤ IS_OBJECT) :
    split cSep (indexed name i ++ cSep :: rest) = .ok (name, rest, i) := by
  simp [split, string_split_cons cSep _ rest (not_mem_indexed cSep name i hs hn.2.1),
    string_array_indexed name i hn.2.2 hi]

/-! ## The iteration along the path never runs short -/

theorem length_dropWhile_le (p : Char → Bool) (xs : Str) :
    (xs.dropWhile p).length ≤ xs.length := by
  induction xs with
  | nil => simp
  | cons x xs ih =>
    rw [List.dropWhile_cons]
    split
    · simp only [List.length_cons]; omega
    · simp

theorem split_children_length (cSep : Char) (strNode name children : Str) (i : Nat)
    (h : split cSep strNode = .ok (name, children, i)) (hc : children ≠ []) :
    children.length < strNode.length := by
  simp only [split] at h
  cases ha : string.array (string.split strNode cSep).1 '[' ']' with
  | fault e => rw [ha] at h; cases h
  | ok r =>
    rw [ha] at h
    simp only [Result.ok.injEq, Prod.mk.injEq] at h
    have h2 : children = (strNode.dropWhile (fun c => c != cSep)).drop 1 := h.2.1.symm
    have hle := length_dropWhile_le (fun c => c != cSep) strNode
    cases hd : strNode.dropWhile (fun c => c != cSep) with
    | nil => rw [hd] at h2; simp at h2; exact absurd h2 hc
    | cons a b =>
      rw [hd] at h2 hle
      simp only [List.drop_succ_cons, List.drop_zero] at h2
      simp only [List.length_cons] at hle
      rw [h2]; omega

theorem setStep_congr (cSep : Char) (f g : Value → TValue → Str → Result (Int × Value))
    (jsonObject : Value) (tValue : TValue) (strNode : Str)
    (hfg : ∀ j v q, q.length < strNode.length → f j v q = g j v q) :
    setStep cSep f jsonObject tValue strNode = setStep cSep g jsonObject tValue strNode := by
  unfold setStep
  cases hs : split cSep strNode with
  | fault e => rfl
  | ok r =>
    obtain ⟨name, children, i⟩ := r
    by_cases hc : children = []
    · subst hc
      simp only [result_bind_ok, List.isEmpty_nil, if_true]
    · have hlt := split_children_length cSep strNode name children i hs hc
      have hfg2 : ∀ j v, f j v children = g j v children := fun j v => hfg j v children hlt
      simp only [result_bind_ok, hfg2]

theorem setFuel_eq (cSep : Char) (m n : Nat) (jsonObject : Value) (tValue : TValue)
    (strNode : Str) (hm : strNode.length < m) (hn : strNode.length < n) :
    setFuel cSep m jsonObject tValue strNode = setFuel cSep n jsonObject tValue strNode := by
  induction m generalizing n jsonObject tValue strNode with
  | zero => omega
  | succ m ih =>
    cases n with
    | zero => omega
    | succ n =>
      simp only [setFuel]
      exact setStep_congr cSep _ _ _ _ _ (fun j v q hq => ih n j v q (by omega) (by omega))

/-- One step of the template set: the source's recursive definition. -/
theorem set_unfold (cSep : Char) (jsonObject : Value) (tValue : TValue) (strNode : Str) :
    set cSep jsonObject tValue strNode = setStep cSep (set cSep) jsonObject tValue strNode := by
  show setStep cSep (setFuel cSep strNode.length) jsonObject tValue strNode = _
  exact setStep_congr cSep _ _ _ _ _
    (fun j v q hq => setFuel_eq cSep _ (q.length + 1) j v q hq (by omega))

theorem processStep_congr (cSep : Char)
    (f g : Value → CType → Str → stProcess.TYPE → Result (Int × Assigned × Value))
    (jsonObject : Value) (T : CType) (strNode : Str) (eType : stProcess.TYPE)
    (hfg : ∀ j t q e, q.length < strNode.length → f j t q e = g j t q e) :
    processStep cSep f jsonObject T strNode eType
      = processStep cSep g jsonObject T strNode eType := by
  unfold processStep
  cases hs : split cSep strNode with
  | fault e => rfl
  | ok r =>
    obtain ⟨name, children, i⟩ := r
    by_cases hc : children = []
    · subst hc
      simp only [result_bind_ok, List.isEmpty_nil, if_true]
    · have hlt := split_children_length cSep strNode name children i hs hc
      have hfg2 : ∀ j t e, f j t children e = g j t children e :=
        fun j t e => hfg j t children e hlt
      simp only [result_bind_ok, hfg2]

theorem processFuel_eq (cSep : Char) (m n : Nat) (jsonObject : Value) (T : CType)
    (strNode : Str) (eType : stProcess.TYPE) (hm : strNode.length < m)
    (hn : strNode.length < n) :
    processFuel cSep m jsonObject T strNode eType
      = processFuel cSep n jsonObject T strNode eType := by
  induction m generalizing n jsonObject T strNode eType with
  | zero => omega
  | succ m ih =>
    cases n with
    | zero => omega
    | succ n =>
      simp only [processFuel]
      exact processStep_congr cSep _ _ _ _ _ _
        (fun j t q e hq => ih n j t q e (by omega) (by omega))

/-- One step of the template process: the source's recursive definition. -/
theorem process_unfold (cSep : Char) (jsonObject : Value) (T : CType) (strNode : Str)
    (eType : stProcess.TYPE) :
    process cSep jsonObject T strNode eType
      = processStep cSep (process cSep) jsonObject T strNode eType := by
  show processStep cSep (processFuel cSep strNode.length) jsonObject T strNode eType = _
  exact processStep_congr cSep _ _ _ _ _ _
    (fun j t q e hq => processFuel_eq cSep _ (q.length + 1) j t q e hq (by omega))

theorem processTypeStep_congr (cSep : Char) (f g : Value → Str → Result TYPE)
    (jsonObject : Value) (strNode : Str)
    (hfg : ∀ j q, q.length < strNode.length → f j q = g j q) :
    processTypeStep cSep f jsonObject strNode = processTypeStep cSep g jsonObject strNode := by
  unfold processTypeStep
  cases hs : split cSep strNode with
  | fault e => rfl
  | ok r =>
    obtain ⟨name, children, i⟩ := r
    by_cases hc : children = []
    · subst hc
      simp only [result_bind_ok, List.isEmpty_nil, if_true]
    · have hlt := split_children_length cSep strNode name children i hs hc
      have hfg2 : ∀ j, f j children = g j children := fun j => hfg j children hlt
      simp only [result_bind_ok, hfg2]

theorem processTypeFuel_eq (cSep : Char) (m n : Nat) (jsonObject : Value) (strNode : Str)
    (hm : strNode.length < m) (hn : strNode.length < n) :
    processTypeFuel cSep m jsonObject strNode = processTypeFuel cSep n jsonObject strNode := by
  induction m generalizing n jsonObject strNode with
  | zero => omega
  | succ m ih =>
    cases n with
    | zero => omega
    | succ n =>
      simp only [processTypeFuel]
      exact processTypeStep_congr cSep _ _ _ _
        (fun j q hq => ih n j q (by omega) (by omega))

/-- One step of getType: the source's recursive definition. -/
theorem getType_unfold (cSep : Char) (jsonObject : Value) (strNode : Str) :
    getType cSep jsonObject strNode
      = processTypeStep cSep (getType cSep) jsonObject strNode := by
  show processTypeStep cSep (processTypeFuel cSep strNode.length) jsonObject strNode = _
  exact processTypeStep_congr cSep _ _ _ _
    (fun j q hq => processTypeFuel_eq cSep _ (q.length + 1) j q hq (by omega))

theorem sizeStep_congr (cSep : Char) (f g : Value → Str → Result Nat)
    (jsonObject : Value) (strNode : Str)
    (hfg : ∀ j q, q.length < strNode.length → f j q = g j q) :
    sizeStep cSep f jsonObject strNode = sizeStep cSep g jsonObject strNode := by
  unfold sizeStep
  cases hs : split cSep strNode with
  | fault e => rfl
  | ok r =>
    obtain ⟨name, children, i⟩ := r
    by_cases hc : children = []
    · subst hc
      simp only [result_bind_ok, List.isEmpty_nil, if_true]
    · have hlt := split_children_length cSep strNode name children i hs hc
      have hfg2 : ∀ j, f j children = g j children := fun j => hfg j children hlt
      simp only [result_bind_ok, hfg2]

theorem sizeFuel_eq (cSep : Char) (m n : Nat) (jsonObject : Value) (strNode : Str)
    (hm : strNode.length < m) (hn : strNode.length < n) :
    sizeFuel cSep m jsonObject strNode = sizeFuel cSep n jsonObject strNode := by
  induction m generalizing n jsonObject strNode with
  | zero => omega
  | succ m ih =>
    cases n with
    | zero => omega
    | succ n =>
      simp only [sizeFuel]
      exact sizeStep_congr cSep _ _ _ _ (fun j q hq => ih n j q (by omega) (by omega))

/-- One step of size: the source's recursive definition. -/
theorem size_unfold (cSep : Char) (jsonObject : Value) (strNode : Str) :
    size cSep jsonObject strNode = sizeStep cSep (size cSep) jsonObject strNode := by
  show sizeStep cSep (sizeFuel cSep strNode.length) jsonObject strNode = _
  exact sizeStep_congr cSep _ _ _ _
    (fun j q hq => sizeFuel_eq cSep _ (q.length + 1) j q hq (by omega))

/-! ## What castData writes -/

theorem castData_SET (name : Str) (v : TValue) (j : Value) :
    castData name v j .SET = .ok (0, stored v) := by
  cases v with
  | integer t n => cases t <;> rfl
  | _ => rfl

theorem castData_PUSHBACK_arr (name : Str) (v : TValue) (xs : List Value) :
    castData name v (.arr xs) .PUSHBACK = .ok (0, .arr (xs ++ [stored v])) := by
  cases v with
  | integer t n => cases t <;> rfl
  | _ => rfl

theorem castData_PUSHBACK_obj (name : Str) (v : TValue) (ms : List (Str × Value)) :
    castData name v (.obj ms) .PUSHBACK = .fault .assertion := by
  cases v with
  | integer t n => cases t <;> rfl
  | _ => rfl

theorem castData_ADD_obj (name : Str) (v : TValue) (ms : List (Str × Value)) :
    castData name v (.obj ms) .ADD = .ok (0, .obj (ms ++ [(name, stored v)])) := by
  cases v with
  | integer t n => cases t <;> rfl
  | _ => rfl

theorem element_stored (v : TValue) (h : v.Supported) :
    element (stored v) v.ctype = (0, .value v) := by
  cases v with
  | string s =>
    simp [stored, element, elementSTRING, TValue.ctype, cstr_of_not_mem s h]
  | bool b => rfl
  | float d => exact absurd h (by simp [TValue.Supported])
  | double d => exact absurd h (by simp [TValue.Supported])
  | integer t n =>
    obtain ⟨h1, h2, h3⟩ := h
    cases t <;>
      simp only [IntType.min, IntType.max, reduceCtorEq, or_false, false_or, or_true,
        true_or, forall_const, false_implies, not_and, not_le] at h1 h2 h3 <;>
      simp only [stored, element, elementSINT32, elementSINT64, elementUINT32,
        TValue.ctype, IsInt, IsUint, IsInt64, IsUint64, narrow,
        assignUint64, IntType.min, IntType.max, IntType.wrap, IntType.card,
        decide_eq_true_eq] <;>
      split_ifs <;> first | rfl | (exfalso; omega) | (simp; omega)

/-! ## Members of an object -/

theorem findMember_updMember (ms : List (Str × Value)) (k : Str) (x c : Value)
    (h : findMember ms k = some c) : findMember (updMember ms k x) k = some x := by
  induction ms with
  | nil => simp [findMember] at h
  | cons m ms ih =>
    obtain ⟨k', v'⟩ := m
    by_cases hk : k' = k
    · simp [updMember, findMember, hk]
    · simp only [findMember, hk, if_false] at h
      simp [updMember, findMember, hk, ih h]

theorem findMember_append_new (ms : List (Str × Value)) (k : Str) (x : Value)
    (h : findMember ms k = none) : findMember (ms ++ [(k, x)]) k = some x := by
  induction ms with
  | nil => simp [findMember]
  | cons m ms ih =>
    obtain ⟨k', v'⟩ := m
    by_cases hk : k' = k
    · simp [findMember, hk] at h
    · simp only [findMember, hk, if_false] at h
      simp [findMember, hk, ih h]

theorem updMember_same (ms : List (Str × Value)) (k : Str) (c : Value)
    (h : findMember ms k = some c) : updMember ms k c = ms := by
  induction ms with
  | nil => rfl
  | cons m ms ih =>
    obtain ⟨k', v'⟩ := m
    by_cases hk : k' = k
    · simp only [findMember, hk, if_true, Option.some.injEq] at h
      simp [updMember, hk, h]
    · simp only [findMember, hk, if_false] at h
      simp [updMember, hk, ih h]

theorem ne_nil_of_findMember (ms : List (Str × Value)) (k : Str) (c : Value)
    (h : findMember ms k = some c) : ms.isEmpty = false := by
  cases ms with
  | nil => simp [findMember] at h
  | cons m ms => rfl

theorem toSizeType_of_lt (i : Nat) (h : i < 4294967296) : toSizeType i = i :=
  Nat.mod_eq_of_lt h

/-! ## The terminal segment of a write -/

theorem set_plain_terminal (cSep : Char) (ms : List (Str × Value)) (name : Str) (v : TValue)
    (hn : PlainName cSep name) :
    set cSep (.obj ms) v name = .ok (0, .obj
      (match findMember ms (cstr name) with
        | some _ => updMember ms (cstr name) (stored v)
        | none => ms ++ [(name, stored v)])) := by
  have hne : name.isEmpty = false := by
    cases name with
    | nil => exact absurd rfl hn.1
    | cons a b => rfl
  rw [set_unfold]
  simp only [setStep, split_plain cSep name hn, result_bind_ok, hne, List.isEmpty_nil,
    Value.ObjectEmpty, Value.IsNull, Bool.or_false, Value.HasMember, Value.member,
    castData_SET, castData_ADD_obj, Value.setMember, if_true]
  cases ms with
  | nil => simp [findMember]
  | cons m ms =>
    cases hf : findMember (m :: ms) (cstr name) with
    | none => simp [result_bind_ok, result_pure]
    | some c => simp [result_bind_ok, result_pure]

theorem set_indexed_absent (cSep : Char) (ms : List (Str × Value)) (name : Str) (i : Nat)
    (v : TValue) (hs : PlainSep cSep) (hn : PlainName cSep name) (hi : i < IS_OBJECT)
    (hms : ms ≠ []) (habs : findMember ms (cstr name) = none) :
    set cSep (.obj ms) v (indexed name i)
      = .ok (0, .obj (ms ++ [(name, .arr [stored v])])) := by
  have hne : name.isEmpty = false := by
    cases name with
    | nil => exact absurd rfl hn.1
    | cons a b => rfl
  have hms2 : ms.isEmpty = false := by
    cases ms with
    | nil => exact absurd rfl hms
    | cons a b => rfl
  have hi2 : i ≠ IS_OBJECT := Nat.ne_of_lt hi
  rw [set_unfold]
  simp only [setStep, split_indexed cSep name i hs hn (Nat.le_of_lt hi), result_bind_ok, hne,
    hms2, Value.ObjectEmpty, Value.IsNull, Value.HasMember, habs, hi2,
    castData_PUSHBACK_arr, Value.AddMember, result_pure, List.isEmpty_nil, if_true, if_false,
    Bool.or_false, Option.isSome_none, List.nil_append]
  rfl

theorem set_indexed_append (cSep : Char) (ms : List (Str × Value)) (name : Str) (i : Nat)
    (v : TValue) (xs : List Value) (hs : PlainSep cSep) (hn : PlainName cSep name)
    (hi : i < IS_OBJECT) (hf : findMember ms (cstr name) = some (.arr xs))
    (hle : xs.length ≤ i) :
    set cSep (.obj ms) v (indexed name i)
      = .ok (0, .obj (updMember ms (cstr name) (.arr (xs ++ [stored v])))) := by
  have hne : name.isEmpty = false := by
    cases name with
    | nil => exact absurd rfl hn.1
    | cons a b => rfl
  have hms2 := ne_nil_of_findMember ms _ _ hf
  have hi2 : i ≠ IS_OBJECT := Nat.ne_of_lt hi
  have hgt : ¬ (xs.length > i) := by omega
  rw [set_unfold]
  simp only [setStep, split_indexed cSep name i hs hn (Nat.le_of_lt hi), result_bind_ok, hne,
    hms2, Value.ObjectEmpty, Value.IsNull, Value.HasMember, Value.member, hf, hi2,
    Value.Size, hgt, castData_PUSHBACK_arr, Value.setMember, result_pure, List.isEmpty_nil,
    if_true, if_false, Bool.or_false, Option.isSome_some]
  rfl

theorem set_indexed_overwrite (cSep : Char) (ms : List (Str × Value)) (name : Str) (i : Nat)
    (v : TValue) (xs : List Value) (hs : PlainSep cSep) (hn : PlainName cSep name)
    (hf : findMember ms (cstr name) = some (.arr xs))
    (hlt : i < xs.length) (h32 : i < 4294967296) :
    set cSep (.obj ms) v (indexed name i)
      = .ok (0, .obj (updMember ms (cstr name) (.arr (xs.set i (stored v))))) := by
  have hne : name.isEmpty = false := by
    cases name with
    | nil => exact absurd rfl hn.1
    | cons a b => rfl
  have hms2 := ne_nil_of_findMember ms _ _ hf
  have hio : i < IS_OBJECT := Nat.lt_trans h32 (by decide)
  have hi2 : i ≠ IS_OBJECT := Nat.ne_of_lt hio
  have hget : xs.get? i = some (xs.get ⟨i, hlt⟩) := List.get?_eq_get hlt
  have hgt : xs.length > i := hlt
  rw [set_unfold]
  simp only [setStep, split_indexed cSep name i hs hn (Nat.le_of_lt hio), result_bind_ok,
    hne, hms2, Value.ObjectEmpty, Value.IsNull, Value.HasMember, Value.member, hf, hi2,
    Value.Size, hgt, Value.elem, toSizeType_of_lt i h32, hget, castData_SET,
    Value.setMember, Value.setElem, result_pure, List.isEmpty_nil,
    if_true, if_false, Bool.or_false, Option.isSome_some]
  rfl

/-! ## The terminal segment of a read -/

theorem isEmpty_false_of_ne_nil (s : Str) (h : s ≠ []) : s.isEmpty = false := by
  cases s with
  | nil => exact absurd rfl h
  | cons a b => rfl

theorem process_terminal_GET (cSep : Char) (ms : List (Str × Value)) (T : CType)
    (strNode name : Str) (i : Nat) (c : Value)
    (hsp : split cSep strNode = .ok (name, [], i)) (hne : name ≠ [])
    (hf : findMember ms (cstr name) = some c) :
    process cSep (.obj ms) T strNode .GET
      = (getElement T c i >>= fun r => Result.ok (r.1, r.2, Value.obj ms)) := by
  rw [process_unfold]
  simp only [processStep, hsp, result_bind_ok, isEmpty_false_of_ne_nil name hne,
    ne_nil_of_findMember ms _ _ hf, Value.ObjectEmpty, Value.IsNull, Value.HasMember,
    Value.member, hf, result_pure, List.isEmpty_nil, if_true, if_false, Bool.or_false,
    Option.isSome_some]
  rfl

theorem get_terminal (cSep : Char) (ms : List (Str × Value)) (T : CType)
    (strNode name : Str) (i : Nat) (c : Value)
    (hsp : split cSep strNode = .ok (name, [], i)) (hne : name ≠ [])
    (hf : findMember ms (cstr name) = some c) :
    get cSep (.obj ms) T strNode = getElement T c i := by
  unfold get
  rw [process_terminal_GET cSep ms T strNode name i c hsp hne hf]
  cases getElement T c i with
  | fault e => rfl
  | ok r => rfl

theorem process_terminal_absent (cSep : Char) (ms : List (Str × Value)) (T : CType)
    (strNode name children : Str) (i : Nat) (eType : stProcess.TYPE)
    (hsp : split cSep strNode = .ok (name, children, i))
    (hf : findMember ms (cstr name) = none) :
    process cSep (.obj ms) T strNode eType = .ok (-1, .untouched, .obj ms) := by
  rw [process_unfold]
  simp only [processStep, hsp, result_bind_ok, Value.ObjectEmpty, Value.IsNull,
    Value.HasMember, hf, result_pure, Bool.or_false, Option.isSome_none, Bool.false_eq_true,
    if_false]
  split_ifs <;> rfl

theorem size_terminal (cSep : Char) (ms : List (Str × Value)) (strNode name : Str) (i : Nat)
    (xs : List Value) (hsp : split cSep strNode = .ok (name, [], i))
    (hf : findMember ms (cstr name) = some (.arr xs)) :
    size cSep (.obj ms) strNode = .ok xs.length := by
  rw [size_unfold]
  simp only [sizeStep, hsp, result_bind_ok, ne_nil_of_findMember ms _ _ hf,
    Value.ObjectEmpty, Value.IsNull, Value.HasMember, Value.member, hf, Value.IsArray,
    Value.Size, result_pure, List.isEmpty_nil, if_true, if_false, Bool.or_false,
    Option.isSome_some]
  rfl

theorem getElement_arr_lt (T : CType) (xs : List Value) (i : Nat) (e : Value)
    (h32 : i < 4294967296) (he : xs.get? i = some e) :
    getElement T (.arr xs) i = .ok (element e T) := by
  have hlt : i < xs.length := by
    rcases Nat.lt_or_ge i xs.length with h | h
    · exact h
    · rw [List.get?_eq_none.2 h] at he; cases he
  have hgt : xs.length > i := hlt
  simp only [getElement, hgt, if_true, Value.elem, toSizeType_of_lt i h32, he, result_bind_ok,
    result_pure]

theorem getElement_stored (v : TValue) (i : Nat) (h : v.Supported) :
    getElement v.ctype (stored v) i = .ok (0, .value v) := by
  have he := element_stored v h
  cases v with
  | string s => simpa [getElement, stored, result_pure] using he
  | bool b => simpa [getElement, stored, result_pure] using he
  | integer t n => simpa [getElement, stored, result_pure] using he
  | float d => exact absurd h (by simp [TValue.Supported])
  | double d => exact absurd h (by simp [TValue.Supported])

/-! ## Indexed and plain writes at the terminal segment (C3 to C8) -/

/-- C3 (defect of the code): on the empty root object the write of a scalar at "arr[0]"
does not return: the terminal branch for an empty object hands the enclosing object, not
the new array, to castData with PUSHBACK, which violates the precondition of PushBack.
On a root that is not empty the sibling branch pushes into the new array and the two
writes of the claim leave arr = [2]. -/
theorem C3_indexed_write_on_empty_root :
    (∀ v : TValue, set '.' (.obj []) v "arr[0]".toList = .fault .assertion) ∧
    set '.' (.obj [("x".toList, .int 0)]) (.integer .int 1) "arr[0]".toList
      = .ok (0, .obj [("x".toList, .int 0), ("arr".toList, .arr [.int 1])]) ∧
    set '.' (.obj [("x".toList, .int 0), ("arr".toList, .arr [.int 1])]) (.integer .int 2)
        "arr[0]".toList
      = .ok (0, .obj [("x".toList, .int 0), ("arr".toList, .arr [.int 2])]) := by
  refine ⟨?_, by decide, by decide⟩
  intro v
  have hsp : split '.' "arr[0]".toList = .ok ("arr".toList, [], 0) := by decide
  rw [set_unfold]
  simp only [setStep, hsp, result_bind_ok, Value.ObjectEmpty, castData_PUSHBACK_obj]
  rfl

/-- C4 (counterexample): with the index 18446744073709551615, the value of IS_OBJECT, the
write to an absent member creates a scalar member, not an array, and size reports 0. -/
theorem C4_counterexample :
    set '.' (.obj [("x".toList, .int 1)]) (.integer .int 5)
        (indexed "name".toList 18446744073709551615)
      = .ok (0, .obj [("x".toList, .int 1), ("name".toList, .int 5)]) ∧
    size '.' (.obj [("x".toList, .int 1), ("name".toList, .int 5)]) "name".toList = .ok 0 := by
  decide

/-- C4 (amended): for every root object that is not empty and has no member under `name`
(a name free of NUL), every index i other than 2^64 - 1 and every scalar v, the write at
"name[i]" returns 0 and appends the member `name` holding the one-element array [v] (a
string v stored up to its first NUL); then size("name") is 1 and, for a supported scalar,
get at "name[0]" returns 0 and yields v. -/
theorem C4_indexed_write_absent_member (cSep : Char) (ms : List (Str × Value)) (name : Str)
    (i : Nat) (v : TValue) (hs : PlainSep cSep) (hn : PlainName cSep name)
    (hnul : NUL ∉ name) (hi : i < IS_OBJECT) (hms : ms ≠ [])
    (habs : findMember ms name = none) :
    set cSep (.obj ms) v (indexed name i) = .ok (0, .obj (ms ++ [(name, .arr [stored v])])) ∧
    size cSep (.obj (ms ++ [(name, .arr [stored v])])) name = .ok 1 ∧
    (v.Supported →
      get cSep (.obj (ms ++ [(name, .arr [stored v])])) v.ctype (indexed name 0)
        = .ok (0, .value v)) := by
  have hc : cstr name = name := cstr_of_not_mem name hnul
  have hfound : findMember (ms ++ [(name, .arr [stored v])]) (cstr name)
      = some (.arr [stored v]) := by
    rw [hc]; exact findMember_append_new ms name _ habs
  refine ⟨set_indexed_absent cSep ms name i v hs hn hi hms (by rw [hc]; exact habs), ?_, ?_⟩
  · exact size_terminal cSep _ name name IS_OBJECT [stored v] (split_plain cSep name hn) hfound
  · intro hv
    rw [get_terminal cSep _ v.ctype (indexed name 0) name 0 _
      (split_indexed cSep name 0 hs hn (by decide)) hn.1 hfound,
      getElement_arr_lt v.ctype [stored v] 0 (stored v) (by decide) rfl, element_stored v hv]

/-- C4 at the path "name[7]" on a root that holds the member x only. -/
theorem C4_indexed_write_absent_member_witness :
    set '.' (.obj [("x".toList, .int 1)]) (.integer .int 5) (indexed "name".toList 7)
      = .ok (0, .obj ([("x".toList, .int 1)] ++ [("name".toList, .arr [.int 5])])) :=
  (C4_indexed_write_absent_member '.' [("x".toList, .int 1)] "name".toList 7
    (.integer .int 5) (by decide) (by decide) (by decide) (by decide) (by decide)
    (by decide)).1

/-- C5 (counterexample): with the index 18446744073709551615, the value of IS_OBJECT, the
write replaces the whole array member by the scalar instead of appending to it. -/
theorem C5_counterexample :
    set '.' (.obj [("arr".toList, .arr [.int 1])]) (.integer .int 2)
        (indexed "arr".toList 18446744073709551615)
      = .ok (0, .obj [("arr".toList, .int 2)]) := by
  decide

/-- C5 (amended): for every root object in which the member found under `name` is an Array
of size n, every index i with n <= i other than 2^64 - 1 and every scalar v, the write at
"name[i]" returns 0 and the array becomes the old elements, unchanged and in order,
followed by v (a string v stored up to its first NUL); its new size is n + 1 whatever i. -/
theorem C5_append_never_pad (cSep : Char) (ms : List (Str × Value)) (name : Str) (i : Nat)
    (v : TValue) (xs : List Value) (hs : PlainSep cSep) (hn : PlainName cSep name)
    (hi : i < IS_OBJECT) (hf : findMember ms (cstr name) = some (.arr xs))
    (hle : xs.length ≤ i) :
    set cSep (.obj ms) v (indexed name i)
      = .ok (0, .obj (updMember ms (cstr name) (.arr (xs ++ [stored v])))) ∧
    findMember (updMember ms (cstr name) (.arr (xs ++ [stored v]))) (cstr name)
      = some (.arr (xs ++ [stored v])) ∧
    size cSep (.obj (updMember ms (cstr name) (.arr (xs ++ [stored v])))) name
      = .ok (xs.length + 1) := by
  have hfound := findMember_updMember ms (cstr name) (.arr (xs ++ [stored v])) _ hf
  refine ⟨set_indexed_append cSep ms name i v xs hs hn hi hf hle, hfound, ?_⟩
  rw [size_terminal cSep _ name name IS_OBJECT _ (split_plain cSep name hn) hfound]
  simp

/-- C5 at the path "arr[5]" on an array of size 1. -/
theorem C5_append_never_pad_witness :
    set '.' (.obj [("arr".toList, .arr [.int 1])]) (.integer .int 2) (indexed "arr".toList 5)
      = .ok (0, .obj (updMember [("arr".toList, .arr [.int 1])] (cstr "arr".toList)
          (.arr ([.int 1] ++ [stored (.integer .int 2)])))) :=
  (C5_append_never_pad '.' [("arr".toList, .arr [.int 1])] "arr".toList 5 (.integer .int 2)
    [.int 1] (by decide) (by decide) (by decide) (by decide) (by decide)).1

/-- C6 (counterexample): a string with an embedded NUL written at "arr[0]" is stored up to
the NUL only, so element 0 is not the value written. -/
theorem C6_counterexample :
    set '.' (.obj [("arr".toList, .arr [.int 1])]) (.string ['x', NUL, 'y']) "arr[0]".toList
      = .ok (0, .obj [("arr".toList, .arr [.str ['x']])]) ∧
    Value.str ['x'] ≠ Value.str ['x', NUL, 'y'] := by
  decide

/-- C6 (amended): for every root object in which the member found under `name` is an Array
of size n (at most 2^32, the range of SizeType), every index i < n and every scalar v, the
write at "name[i]" returns 0, the array still has size n, element i is v (a string v stored
up to its first NUL) and every element j other than i is unchanged. -/
theorem C6_indexed_overwrite (cSep : Char) (ms : List (Str × Value)) (name : Str) (i : Nat)
    (v : TValue) (xs : List Value) (hs : PlainSep cSep) (hn : PlainName cSep name)
    (hf : findMember ms (cstr name) = some (.arr xs)) (hlt : i < xs.length)
    (h32 : xs.length ≤ 4294967296) :
    set cSep (.obj ms) v (indexed name i)
      = .ok (0, .obj (updMember ms (cstr name) (.arr (xs.set i (stored v))))) ∧
    (xs.set i (stored v)).length = xs.length ∧
    (xs.set i (stored v)).get? i = some (stored v) ∧
    ∀ j, j ≠ i → (xs.set i (stored v)).get? j = xs.get? j := by
  refine ⟨set_indexed_overwrite cSep ms name i v xs hs hn hf hlt (by omega), ?_, ?_, ?_⟩
  · simp
  · simp [List.get?_eq_getElem?, List.getElem?_set, hlt]
  · intro j hj
    simp [List.get?_eq_getElem?, List.getElem?_set, Ne.symm hj]

/-- C6 at the path "arr[1]" on an array of size 2. -/
theorem C6_indexed_overwrite_witness :
    set '.' (.obj [("arr".toList, .arr [.int 1, .int 2])]) (.integer .int 9)
        (indexed "arr".toList 1)
      = .ok (0, .obj (updMember [("arr".toList, .arr [.int 1, .int 2])] (cstr "arr".toList)
          (.arr ([Value.int 1, Value.int 2].set 1 (stored (.integer .int 9)))))) :=
  (C6_indexed_overwrite '.' [("arr".toList, .arr [.int 1, .int 2])] "arr".toList 1
    (.integer .int 9) [.int 1, .int 2] (by decide) (by decide) (by decide) (by decide)
    (by decide)).1

/-- C7 (counterexample): writing the int 5 over the string member a returns 0 and leaves a
number: the variant the member had before the write (STRING) is not preserved.  And the
string "x\0y", which has an embedded NUL, is stored up to the NUL: the new member a, and
likewise the overwritten member b, holds "x", not the value written. -/
theorem C7_counterexample :
    set '.' (.obj [("a".toList, .str "x".toList)]) (.integer .int 5) "a".toList
      = .ok (0, .obj [("a".toList, .int 5)]) ∧
    type (.str "x".toList) = TYPE.STRING ∧ type (.int 5) = TYPE.SINT32 ∧
    TYPE.SINT32 ≠ TYPE.STRING ∧
    set '.' (.obj [("b".toList, .int 1)]) (.string ['x', NUL, 'y']) "a".toList
      = .ok (0, .obj [("b".toList, .int 1), ("a".toList, .str ['x'])]) ∧
    set '.' (.obj [("b".toList, .int 1)]) (.string ['x', NUL, 'y']) "b".toList
      = .ok (0, .obj [("b".toList, .str ['x'])]) ∧
    Value.str ['x'] ≠ Value.str ['x', NUL, 'y'] := by
  refine ⟨by decide, by decide, by decide, by decide, by decide, by decide, by decide⟩

/-- C7 (amended): for every root object, plain single-segment path `name` and scalar v, the
write returns 0; if a member is found under `name` (read as a C string) its value is
replaced in place by the node stored for v, which has the kind of v and not the kind the
member had; if none is found a new member `name` holding the node stored for v is appended.
The node stored for v is v itself, except that a string is stored up to its first NUL
character. -/
theorem C7_plain_member_write (cSep : Char) (ms : List (Str × Value)) (name : Str)
    (v : TValue) (hn : PlainName cSep name) :
    set cSep (.obj ms) v name = .ok (0, .obj
      (match findMember ms (cstr name) with
        | some _ => updMember ms (cstr name) (stored v)
        | none => ms ++ [(name, stored v)])) :=
  set_plain_terminal cSep ms name v hn

/-- C7 at the path "a" on a root whose member a is a string. -/
theorem C7_plain_member_write_witness :
    set '.' (.obj [("a".toList, .str "x".toList)]) (.integer .int 5) "a".toList
      = .ok (0, .obj
        (match findMember [("a".toList, Value.str "x".toList)] (cstr "a".toList) with
          | some _ => updMember [("a".toList, .str "x".toList)] (cstr "a".toList)
              (stored (.integer .int 5))
          | none => [("a".toList, .str "x".toList)] ++ [("a".toList, stored (.integer .int 5))])) :=
  C7_plain_member_write '.' [("a".toList, .str "x".toList)] "a".toList (.integer .int 5)
    (by decide)

/-! ## Descent through a segment that is not the last -/

theorem process_empty_name (cSep : Char) (j : Value) (T : CType) (strNode children : Str)
    (i : Nat) (eType : stProcess.TYPE) (hsp : split cSep strNode = .ok ([], children, i)) :
    process cSep j T strNode eType = .ok (-1, .untouched, j) := by
  rw [process_unfold]
  simp only [processStep, hsp, result_bind_ok, List.isEmpty_nil, if_true, result_pure]

theorem process_descend_plain (cSep : Char) (ms : List (Str × Value)) (T : CType)
    (strNode name children : Str) (eType : stProcess.TYPE) (c : Value)
    (hsp : split cSep strNode = .ok (name, children, IS_OBJECT)) (hne : name ≠ [])
    (hc : children ≠ []) (hf : findMember ms (cstr name) = some c) :
    process cSep (.obj ms) T strNode eType
      = (process cSep c T children eType >>= fun r =>
          Result.ok (r.1, r.2.1, Value.obj (updMember ms (cstr name) r.2.2))) := by
  rw [process_unfold]
  simp only [processStep, hsp, result_bind_ok, isEmpty_false_of_ne_nil name hne,
    isEmpty_false_of_ne_nil children hc, ne_nil_of_findMember ms _ _ hf, Value.ObjectEmpty,
    Value.IsNull, Value.HasMember, Value.member, hf, result_pure, if_true, if_false,
    Bool.or_false, Option.isSome_some, Bool.false_eq_true, Value.setMember]

theorem process_descend_item (cSep : Char) (ms : List (Str × Value)) (T : CType)
    (strNode name children : Str) (i : Nat) (eType : stProcess.TYPE) (xs : List Value)
    (e0 : Value)
    (hsp : split cSep strNode = .ok (name, children, i)) (hi : i ≠ IS_OBJECT)
    (hne : name ≠ []) (hc : children ≠ [])
    (hf : findMember ms (cstr name) = some (.arr xs)) (h32 : i < 4294967296)
    (he : xs.get? i = some e0) :
    process cSep (.obj ms) T strNode eType
      = (process cSep e0 T children eType >>= fun r =>
          Result.ok (r.1, r.2.1,
            Value.obj (updMember ms (cstr name) (.arr (xs.set i r.2.2))))) := by
  rw [process_unfold]
  simp only [processStep, hsp, result_bind_ok, isEmpty_false_of_ne_nil name hne,
    isEmpty_false_of_ne_nil children hc, ne_nil_of_findMember ms _ _ hf, Value.ObjectEmpty,
    Value.IsNull, Value.HasMember, Value.member, hf, result_pure, if_true, if_false,
    Bool.or_false, Option.isSome_some, Bool.false_eq_true, Value.setMember, hi, Value.elem,
    toSizeType_of_lt i h32, he, Value.setElem]

/-! ## Type conflict, missing members and indexed reads (C8 to C10) -/

/-- C8: for every root object in which the member named by the plain head segment `name`
exists and is not an Object (a scalar, a string or an array), the write at "name.rest"
with a non-empty rest returns the nonzero status -1 and leaves the whole document
unchanged.  The member a segment names is the one the source looks up, through
`c_str()`. -/
theorem C8_type_conflict_on_write (cSep : Char) (ms : List (Str × Value)) (name rest : Str)
    (v : TValue) (c : Value) (hn : PlainName cSep name) (hr : rest ≠ [])
    (hf : findMember ms (cstr name) = some c) (hc : c.IsObject = false) :
    set cSep (.obj ms) v (name ++ cSep :: rest) = .ok (-1, .obj ms) := by
  rw [set_unfold]
  simp only [setStep, split_plain_cons cSep name rest hn, result_bind_ok,
    isEmpty_false_of_ne_nil name hn.1, isEmpty_false_of_ne_nil rest hr,
    ne_nil_of_findMember ms _ _ hf, Value.ObjectEmpty, Value.IsNull, Value.HasMember,
    Value.member, hf, hc, result_pure, if_true, if_false, Bool.or_false, Option.isSome_some,
    Bool.false_eq_true]

/-- C8 at the document with the scalar member a and the path "a.b.c". -/
theorem C8_type_conflict_on_write_witness :
    set '.' (.obj [("a".toList, .int 5)]) (.integer .int 1) ("a".toList ++ '.' :: "b.c".toList)
      = .ok (-1, .obj [("a".toList, .int 5)]) :=
  C8_type_conflict_on_write '.' [("a".toList, .int 5)] "a".toList "b.c".toList
    (.integer .int 1) (.int 5) (by decide) (by decide) (by decide) (by decide)

theorem process_missing (cSep : Char) (root : Value) (strNode : Str)
    (h : MissingMember cSep root strNode) (T : CType) (eType : stProcess.TYPE) :
    ∃ after, process cSep root T strNode eType = .ok (-1, .untouched, after) := by
  induction h with
  | here ms strNode name children i hsplit habsent =>
    exact ⟨_, process_terminal_absent cSep ms T strNode name children i eType hsplit habsent⟩
  | plain ms inner strNode name children hsplit hrest hmember _ ih =>
    by_cases hne : name = []
    · subst hne
      exact ⟨_, process_empty_name cSep _ T strNode children _ eType hsplit⟩
    · obtain ⟨after, ha⟩ := ih
      rw [process_descend_plain cSep ms T strNode name children eType _ hsplit hne hrest
        hmember, ha]
      exact ⟨_, rfl⟩
  | item ms inner xs strNode name children i hsplit hindex hrest hmember hsize hitem _ ih =>
    by_cases hne : name = []
    · subst hne
      exact ⟨_, process_empty_name cSep _ T strNode children _ eType hsplit⟩
    · obtain ⟨after, ha⟩ := ih
      rw [process_descend_item cSep ms T strNode name children i eType xs _ hsplit hindex
        hne hrest hmember hsize hitem, ha]
      exact ⟨_, rfl⟩

/-- C9: for every document and every path in which the member named by some segment
(intermediate or terminal) is absent from the object reached so far, get returns the
nonzero status -1 for every requested type, leaving the output unwritten, and exist
returns false. -/
theorem C9_missing_node (cSep : Char) (root : Value) (strNode : Str)
    (h : MissingMember cSep root strNode) :
    (∀ T : CType, get cSep root T strNode = .ok (-1, .untouched)) ∧
    exist cSep root strNode = .ok false := by
  constructor
  · intro T
    obtain ⟨after, ha⟩ := process_missing cSep root strNode h T .GET
    simp only [get, ha, result_bind_ok, result_pure]
  · obtain ⟨after, ha⟩ := process_missing cSep root strNode h (.integer .int) .EXIST
    simp only [exist, ha, result_bind_ok, result_pure]
    rfl

/-- C9 at the path "missing.node" against an object without the member missing. -/
theorem C9_missing_node_witness :
    (∀ T : CType, get '.' (.obj [("present".toList, .int 1)]) T "missing.node".toList
      = .ok (-1, .untouched)) ∧
    exist '.' (.obj [("present".toList, .int 1)]) "missing.node".toList = .ok false :=
  C9_missing_node '.' (.obj [("present".toList, .int 1)]) "missing.node".toList
    (MissingMember.here _ _ "missing".toList "node".toList IS_OBJECT (by decide) (by decide))

/-- C10 (defect of the code): get at "a[3]" on a document whose member a is the number 5
returns 0 and yields 5, and likewise for a string and a bool member: getElement tests
IsArray and the size for the subscript and otherwise falls through to reading the member
itself, whatever the index. -/
theorem C10_indexed_read_of_scalar :
    get '.' (.obj [("a".toList, .int 5)]) (.integer .int) "a[3]".toList
      = .ok (0, .value (.integer .int 5)) ∧
    get '.' (.obj [("s".toList, .str "x".toList)]) .string "s[0]".toList
      = .ok (0, .value (.string "x".toList)) ∧
    get '.' (.obj [("b".toList, .bool true)]) .bool "b[7]".toList
      = .ok (0, .value (.bool true)) := by
  decide

/-! ## Descent of a write through a segment that is not the last -/

theorem set_descend_empty (cSep : Char) (v : TValue) (strNode name children : Str) (i : Nat)
    (hsp : split cSep strNode = .ok (name, children, i)) (hne : name ≠ [])
    (hc : children ≠ []) :
    set cSep (.obj []) v strNode
      = (set cSep (.obj []) v children >>= fun r =>
          Result.ok (r.1, Value.obj [(name, if i = IS_OBJECT then r.2 else .arr [r.2])])) := by
  rw [set_unfold]
  simp only [setStep, hsp, result_bind_ok, isEmpty_false_of_ne_nil name hne,
    isEmpty_false_of_ne_nil children hc, Value.ObjectEmpty, Value.IsNull, result_pure,
    List.isEmpty_nil, if_true, if_false, Bool.or_false, Bool.false_eq_true]
  by_cases hi : i = IS_OBJECT
  · simp only [hi, if_true]
    cases set cSep (.obj []) v children with
    | fault e => rfl
    | ok r => rfl
  · simp only [hi, if_false]
    cases set cSep (.obj []) v children with
    | fault e => rfl
    | ok r => rfl

theorem set_descend_absent (cSep : Char) (ms : List (Str × Value)) (v : TValue)
    (strNode name children : Str) (i : Nat)
    (hsp : split cSep strNode = .ok (name, children, i)) (hne : name ≠ [])
    (hc : children ≠ []) (hms : ms ≠ []) (hf : findMember ms (cstr name) = none) :
    set cSep (.obj ms) v strNode
      = (set cSep (.obj []) v children >>= fun r =>
          Result.ok (r.1,
            Value.obj (ms ++ [(name, if i = IS_OBJECT then r.2 else .arr [r.2])]))) := by
  have hms2 : ms.isEmpty = false := by
    cases ms with
    | nil => exact absurd rfl hms
    | cons a b => rfl
  rw [set_unfold]
  simp only [setStep, hsp, result_bind_ok, isEmpty_false_of_ne_nil name hne,
    isEmpty_false_of_ne_nil children hc, hms2, Value.ObjectEmpty, Value.IsNull, result_pure,
    Value.HasMember, hf, Option.isSome_none, if_true, if_false, Bool.or_false,
    Bool.false_eq_true]
  by_cases hi : i = IS_OBJECT
  · simp only [hi, if_true]
    cases set cSep (.obj []) v children with
    | fault e => rfl
    | ok r => rfl
  · simp only [hi, if_false]
    cases set cSep (.obj []) v children with
    | fault e => rfl
    | ok r => rfl

theorem set_descend_plain (cSep : Char) (ms : List (Str × Value)) (v : TValue)
    (strNode name children : Str) (c : Value)
    (hsp : split cSep strNode = .ok (name, children, IS_OBJECT)) (hne : name ≠ [])
    (hc : children ≠ []) (hf : findMember ms (cstr name) = some c) :
    set cSep (.obj ms) v strNode
      = if c.IsObject then
          (set cSep c v children >>= fun r =>
            Result.ok (r.1, Value.obj (updMember ms (cstr name) r.2)))
        else .ok (-1, .obj ms) := by
  rw [set_unfold]
  simp only [setStep, hsp, result_bind_ok, isEmpty_false_of_ne_nil name hne,
    isEmpty_false_of_ne_nil children hc, ne_nil_of_findMember ms _ _ hf, Value.ObjectEmpty,
    Value.IsNull, result_pure, Value.HasMember, Value.member, hf, Option.isSome_some, if_true,
    if_false, Bool.or_false, Bool.false_eq_true, Value.setMember]

theorem set_descend_item_lt (cSep : Char) (ms : List (Str × Value)) (v : TValue)
    (strNode name children : Str) (i : Nat) (xs : List Value) (e0 : Value)
    (hsp : split cSep strNode = .ok (name, children, i)) (hi : i ≠ IS_OBJECT)
    (hne : name ≠ []) (hc : children ≠ [])
    (hf : findMember ms (cstr name) = some (.arr xs)) (h32 : i < 4294967296)
    (he : xs.get? i = some e0) :
    set cSep (.obj ms) v strNode
      = if e0.IsObject then
          (set cSep e0 v children >>= fun r =>
            Result.ok (r.1, Value.obj (updMember ms (cstr name) (.arr (xs.set i r.2)))))
        else .ok (-1, .obj ms) := by
  have hlt : xs.length > i := by
    rcases Nat.lt_or_ge i xs.length with h | h
    · exact h
    · rw [List.get?_eq_none.2 h] at he; cases he
  rw [set_unfold]
  simp only [setStep, hsp, result_bind_ok, isEmpty_false_of_ne_nil name hne,
    isEmpty_false_of_ne_nil children hc, ne_nil_of_findMember ms _ _ hf, Value.ObjectEmpty,
    Value.IsNull, result_pure, Value.HasMember, Value.member, hf, Option.isSome_some, if_true,
    if_false, Bool.or_false, Bool.false_eq_true, Value.setMember, hi, Value.Size, hlt,
    Value.elem, toSizeType_of_lt i h32, he, Value.setElem]

theorem set_descend_item_ge (cSep : Char) (ms : List (Str × Value)) (v : TValue)
    (strNode name children : Str) (i : Nat) (xs : List Value)
    (hsp : split cSep strNode = .ok (name, children, i)) (hi : i ≠ IS_OBJECT)
    (hne : name ≠ []) (hc : children ≠ [])
    (hf : findMember ms (cstr name) = some (.arr xs)) (hge : xs.length ≤ i) :
    set cSep (.obj ms) v strNode
      = (set cSep (.obj []) v children >>= fun r =>
          Result.ok (r.1, Value.obj (updMember ms (cstr name) (.arr (xs ++ [r.2]))))) := by
  have hlt : ¬ (xs.length > i) := by omega
  rw [set_unfold]
  simp only [setStep, hsp, result_bind_ok, isEmpty_false_of_ne_nil name hne,
    isEmpty_false_of_ne_nil children hc, ne_nil_of_findMember ms _ _ hf, Value.ObjectEmpty,
    Value.IsNull, result_pure, Value.HasMember, Value.member, hf, Option.isSome_some, if_true,
    if_false, Bool.or_false, Bool.false_eq_true, Value.setMember, hi, Value.Size, hlt,
    Value.IsArray, Value.PushBack]

theorem set_item_not_array (cSep : Char) (ms : List (Str × Value)) (v : TValue)
    (strNode name children : Str) (i : Nat) (c : Value)
    (hsp : split cSep strNode = .ok (name, children, i)) (hi : i ≠ IS_OBJECT)
    (hne : name ≠ []) (hf : findMember ms (cstr name) = some c) (hc : c.IsArray = false) :
    set cSep (.obj ms) v strNode = .fault .assertion := by
  have hsz : c.Size = .fault .assertion := by
    cases c with
    | arr xs => simp [Value.IsArray] at hc
    | _ => rfl
  rw [set_unfold]
  simp only [setStep, hsp, result_bind_ok, isEmpty_false_of_ne_nil name hne,
    ne_nil_of_findMember ms _ _ hf, Value.ObjectEmpty,
    Value.IsNull, result_pure, Value.HasMember, Value.member, hf, Option.isSome_some, if_true,
    if_false, Bool.or_false, Bool.false_eq_true, hi, hsz, result_bind_fault]
  split_ifs <;> rfl

theorem set_item_empty_terminal (cSep : Char) (v : TValue) (strNode name : Str) (i : Nat)
    (hsp : split cSep strNode = .ok (name, [], i)) (hi : i ≠ IS_OBJECT) (hne : name ≠ []) :
    set cSep (.obj []) v strNode = .fault .assertion := by
  rw [set_unfold]
  simp only [setStep, hsp, result_bind_ok, isEmpty_false_of_ne_nil name hne,
    Value.ObjectEmpty, Value.IsNull, result_pure, List.isEmpty_nil, if_true, if_false,
    Bool.or_false, hi, castData_PUSHBACK_obj, result_bind_fault, Bool.true_or,
    Bool.false_eq_true]

theorem set_not_object (cSep : Char) (j : Value) (v : TValue) (strNode : Str)
    (hj : j.IsObject = false) (code : Int) (after : Value)
    (h : set cSep j v strNode = .ok (code, after)) : code = -1 ∧ after = j := by
  have hoe : j.ObjectEmpty = .fault .assertion := by
    cases j with
    | obj ms => simp [Value.IsObject] at hj
    | _ => rfl
  rw [set_unfold] at h
  cases hsp : split cSep strNode with
  | fault e => simp only [setStep, hsp, result_bind_fault] at h; cases h
  | ok r =>
    obtain ⟨name, children, i⟩ := r
    simp only [setStep, hsp, result_bind_ok, hoe, result_bind_fault, result_pure] at h
    split_ifs at h
    · simp only [Result.ok.injEq, Prod.mk.injEq] at h
      exact ⟨h.1.symm, h.2.symm⟩

/-! ## Plain paths and auto-vivification (C2) -/

theorem plainPath_cons_cons (cSep : Char) (k k2 : Str) (ks : List Str) :
    plainPath cSep (k :: k2 :: ks) = k ++ cSep :: plainPath cSep (k2 :: ks) := rfl

theorem plainPath_single (cSep : Char) (k : Str) : plainPath cSep [k] = k := rfl

theorem plainPath_ne_nil (cSep : Char) (k : Str) (ks : List Str) (hk : k ≠ []) :
    plainPath cSep (k :: ks) ≠ [] := by
  cases ks with
  | nil => exact hk
  | cons k2 ks => rw [plainPath_cons_cons]; simp [hk]

theorem get_eq_process (cSep : Char) (j : Value) (T : CType) (strNode : Str) :
    get cSep j T strNode
      = (process cSep j T strNode .GET >>= fun r => Result.ok (r.1, r.2.1)) := by
  unfold get
  cases process cSep j T strNode .GET with
  | fault e => rfl
  | ok r => rfl

theorem get_descend_plain (cSep : Char) (ms : List (Str × Value)) (T : CType)
    (strNode name children : Str) (c : Value)
    (hsp : split cSep strNode = .ok (name, children, IS_OBJECT)) (hne : name ≠ [])
    (hc : children ≠ []) (hf : findMember ms (cstr name) = some c) :
    get cSep (.obj ms) T strNode = get cSep c T children := by
  rw [get_eq_process, get_eq_process,
    process_descend_plain cSep ms T strNode name children .GET c hsp hne hc hf]
  cases process cSep c T children .GET with
  | fault e => rfl
  | ok r => rfl

theorem get_descend_item (cSep : Char) (ms : List (Str × Value)) (T : CType)
    (strNode name children : Str) (i : Nat) (xs : List Value) (e0 : Value)
    (hsp : split cSep strNode = .ok (name, children, i)) (hi : i ≠ IS_OBJECT)
    (hne : name ≠ []) (hc : children ≠ [])
    (hf : findMember ms (cstr name) = some (.arr xs)) (h32 : i < 4294967296)
    (he : xs.get? i = some e0) :
    get cSep (.obj ms) T strNode = get cSep e0 T children := by
  rw [get_eq_process, get_eq_process,
    process_descend_item cSep ms T strNode name children i .GET xs e0 hsp hi hne hc hf h32 he]
  cases process cSep e0 T children .GET with
  | fault e => rfl
  | ok r => rfl

theorem process_terminal_EXIST (cSep : Char) (ms : List (Str × Value)) (T : CType)
    (strNode name : Str) (i : Nat) (c : Value)
    (hsp : split cSep strNode = .ok (name, [], i)) (hne : name ≠ [])
    (hf : findMember ms (cstr name) = some c) :
    process cSep (.obj ms) T strNode .EXIST = .ok (0, .untouched, .obj ms) := by
  rw [process_unfold]
  simp only [processStep, hsp, result_bind_ok, isEmpty_false_of_ne_nil name hne,
    ne_nil_of_findMember ms _ _ hf, Value.ObjectEmpty, Value.IsNull, Value.HasMember,
    hf, result_pure, List.isEmpty_nil, if_true, if_false, Bool.or_false,
    Option.isSome_some, Bool.false_eq_true]

theorem getType_terminal_plain (cSep : Char) (ms : List (Str × Value))
    (strNode name : Str) (c : Value)
    (hsp : split cSep strNode = .ok (name, [], IS_OBJECT)) (hne : name ≠ [])
    (hf : findMember ms (cstr name) = some c) :
    getType cSep (.obj ms) strNode = .ok (type c) := by
  rw [getType_unfold]
  unfold processTypeStep
  rw [hsp]
  simp only [result_bind_ok, List.isEmpty_nil, if_true]
  rw [process_terminal_EXIST cSep ms (.integer .int) strNode name IS_OBJECT c hsp hne hf]
  simp only [result_bind_ok]
  simp only [Value.member, hf, result_pure, result_bind_ok, if_true]

theorem getType_descend_plain (cSep : Char) (ms : List (Str × Value))
    (strNode name children : Str) (c after : Value)
    (hsp : split cSep strNode = .ok (name, children, IS_OBJECT)) (hne : name ≠ [])
    (hc : children ≠ []) (hf : findMember ms (cstr name) = some c)
    (hex : process cSep (.obj ms) (.integer .int) strNode .EXIST = .ok (0, .untouched, after)) :
    getType cSep (.obj ms) strNode = getType cSep c children := by
  rw [getType_unfold]
  unfold processTypeStep
  rw [hsp]
  simp only [result_bind_ok, isEmpty_false_of_ne_nil name hne,
    isEmpty_false_of_ne_nil children hc, if_false, Bool.false_eq_true, Bool.not_false,
    if_true]
  rw [hex]
  simp only [result_bind_ok]
  simp only [Value.member, hf, result_pure, result_bind_ok, if_true]

theorem set_chain (cSep : Char) (v : TValue) (ks : List Str) (hks : ks ≠ [])
    (hn : ∀ k ∈ ks, PlainName cSep k) :
    set cSep (.obj []) v (plainPath cSep ks) = .ok (0, chain ks (stored v)) := by
  induction ks with
  | nil => exact absurd rfl hks
  | cons k ks ih =>
    have hk := hn k (List.mem_cons_self _ _)
    cases ks with
    | nil =>
      rw [plainPath_single, set_plain_terminal cSep [] k v hk]
      simp [findMember, chain]
    | cons k2 ks =>
      have hk2 := hn k2 (by simp)
      rw [plainPath_cons_cons,
        set_descend_empty cSep v _ k (plainPath cSep (k2 :: ks)) IS_OBJECT
          (split_plain_cons cSep k _ hk) hk.1 (plainPath_ne_nil cSep k2 ks hk2.1),
        ih (by simp) (fun x hx => hn x (List.mem_cons_of_mem _ hx))]
      simp [result_bind_ok, chain]

theorem chain_cons (k : Str) (ks : List Str) (x : Value) :
    chain (k :: ks) x = Value.obj [(k, chain ks x)] := rfl

theorem findMember_single (k : Str) (c : Value) (hk : NUL ∉ k) :
    findMember [(k, c)] (cstr k) = some c := by
  simp [findMember, cstr_of_not_mem k hk]

theorem get_chain (cSep : Char) (T : CType) (x : Value) (ks : List Str) (hks : ks ≠ [])
    (hn : ∀ k ∈ ks, PlainName cSep k ∧ NUL ∉ k) :
    get cSep (chain ks x) T (plainPath cSep ks) = getElement T x IS_OBJECT := by
  induction ks with
  | nil => exact absurd rfl hks
  | cons k ks ih =>
    have hk := hn k (List.mem_cons_self _ _)
    have hfk := findMember_single k (chain ks x) hk.2
    rw [chain_cons]
    cases ks with
    | nil =>
      rw [plainPath_single]
      exact get_terminal cSep _ T k k IS_OBJECT x (split_plain cSep k hk.1) hk.1.1 hfk
    | cons k2 ks =>
      have hk2 := hn k2 (by simp)
      rw [plainPath_cons_cons,
        get_descend_plain cSep _ T _ k (plainPath cSep (k2 :: ks)) _
          (split_plain_cons cSep k _ hk.1) hk.1.1 (plainPath_ne_nil cSep k2 ks hk2.1.1) hfk]
      exact ih (by simp) (fun y hy => hn y (List.mem_cons_of_mem _ hy))

theorem exist_chain_prefix (cSep : Char) (x : Value) (pre suf : List Str) (hpre : pre ≠ [])
    (hn : ∀ k ∈ pre, PlainName cSep k ∧ NUL ∉ k) :
    ∃ after, process cSep (chain (pre ++ suf) x) (.integer .int) (plainPath cSep pre) .EXIST
      = .ok (0, .untouched, after) := by
  induction pre with
  | nil => exact absurd rfl hpre
  | cons k pre ih =>
    have hk := hn k (List.mem_cons_self _ _)
    have hfk := findMember_single k (chain (pre ++ suf) x) hk.2
    rw [List.cons_append, chain_cons]
    cases pre with
    | nil =>
      exact ⟨_, process_terminal_EXIST cSep _ _ k k IS_OBJECT _ (split_plain cSep k hk.1)
        hk.1.1 hfk⟩
    | cons k2 pre =>
      have hk2 := hn k2 (by simp)
      obtain ⟨after, ha⟩ := ih (by simp) (fun y hy => hn y (List.mem_cons_of_mem _ hy))
      rw [plainPath_cons_cons,
        process_descend_plain cSep _ _ _ k (plainPath cSep (k2 :: pre)) .EXIST _
          (split_plain_cons cSep k _ hk.1) hk.1.1 (plainPath_ne_nil cSep k2 pre hk2.1.1) hfk, ha]
      exact ⟨_, rfl⟩

theorem type_chain_of_ne_nil (suf : List Str) (x : Value) (hsuf : suf ≠ []) :
    type (chain suf x) = TYPE.OBJECT := by
  cases suf with
  | nil => exact absurd rfl hsuf
  | cons s suf => rfl

theorem getType_chain_prefix (cSep : Char) (x : Value) (pre suf : List Str) (hpre : pre ≠ [])
    (hsuf : suf ≠ []) (hn : ∀ k ∈ pre, PlainName cSep k ∧ NUL ∉ k) :
    getType cSep (chain (pre ++ suf) x) (plainPath cSep pre) = .ok TYPE.OBJECT := by
  induction pre with
  | nil => exact absurd rfl hpre
  | cons k pre ih =>
    have hk := hn k (List.mem_cons_self _ _)
    have hfk := findMember_single k (chain (pre ++ suf) x) hk.2
    cases pre with
    | nil =>
      rw [List.cons_append, chain_cons, plainPath_single,
        getType_terminal_plain cSep _ k k _ (split_plain cSep k hk.1) hk.1.1 hfk,
        List.nil_append, type_chain_of_ne_nil suf x hsuf]
    | cons k2 pre =>
      have hk2 := hn k2 (by simp)
      obtain ⟨after, ha⟩ := exist_chain_prefix cSep x (k :: k2 :: pre) suf (by simp) hn
      rw [List.cons_append, chain_cons, plainPath_cons_cons] at ha
      rw [List.cons_append, chain_cons, plainPath_cons_cons,
        getType_descend_plain cSep _ _ k (plainPath cSep (k2 :: pre)) _ after
          (split_plain_cons cSep k _ hk.1) hk.1.1 (plainPath_ne_nil cSep k2 pre hk2.1.1) hfk ha]
      exact ih (by simp) (fun y hy => hn y (List.mem_cons_of_mem _ hy))

/-- C2 (counterexample): for the single segment name a-NUL-b the write on the empty root
returns 0 and creates the member, but get at the same path returns -1: the member is looked
up by the C string "a". -/
theorem C2_counterexample :
    set '.' (.obj []) (.integer .int 5) ['a', NUL, 'b']
      = .ok (0, .obj [(['a', NUL, 'b'], .int 5)]) ∧
    get '.' (.obj [(['a', NUL, 'b'], .int 5)]) (.integer .int) ['a', NUL, 'b']
      = .ok (-1, .untouched) := by
  decide

/-- C2 (amended): for every non-empty sequence of segment names k1..kn, each non-empty and
free of the separator, of '[' and of NUL, and every int value n, the write of n at
"k1.k2...kn" on the empty root object returns 0 and produces exactly the chain of nested
single-member objects k1 -> k2 -> ... ending in member kn = n; every proper prefix path
then has type OBJECT and get at "k1...kn" returns 0 and yields n. -/
theorem C2_auto_vivification (cSep : Char) (ks : List Str) (n : Int) (hks : ks ≠ [])
    (hn : ∀ k ∈ ks, PlainName cSep k ∧ NUL ∉ k)
    (hr : -2147483648 ≤ n ∧ n ≤ 2147483647) :
    set cSep (.obj []) (.integer .int n) (plainPath cSep ks) = .ok (0, chain ks (.int n)) ∧
    (∀ pre suf, pre ≠ [] → suf ≠ [] → ks = pre ++ suf →
      getType cSep (chain ks (.int n)) (plainPath cSep pre) = .ok TYPE.OBJECT) ∧
    get cSep (chain ks (.int n)) (.integer .int) (plainPath cSep ks)
      = .ok (0, .value (.integer .int n)) := by
  refine ⟨set_chain cSep (.integer .int n) ks hks (fun k hk => (hn k hk).1), ?_, ?_⟩
  · intro pre suf hpre hsuf hsplit
    subst hsplit
    exact getType_chain_prefix cSep _ pre suf hpre hsuf
      (fun k hk => hn k (List.mem_append_left _ hk))
  · rw [get_chain cSep _ _ ks hks hn]
    exact getElement_stored (.integer .int n) IS_OBJECT
      ⟨hr.1, hr.2, fun h => by rcases h with h | h <;> cases h⟩

/-- C2 at the path "a.b.c" with the value 5. -/
theorem C2_auto_vivification_witness :
    set '.' (.obj []) (.integer .int 5) (plainPath '.' ["a".toList, "b".toList, "c".toList])
      = .ok (0, chain ["a".toList, "b".toList, "c".toList] (.int 5)) ∧
    (∀ pre suf, pre ≠ [] → suf ≠ [] → ["a".toList, "b".toList, "c".toList] = pre ++ suf →
      getType '.' (chain ["a".toList, "b".toList, "c".toList] (.int 5)) (plainPath '.' pre)
        = .ok TYPE.OBJECT) ∧
    get '.' (chain ["a".toList, "b".toList, "c".toList] (.int 5)) (.integer .int)
        (plainPath '.' ["a".toList, "b".toList, "c".toList])
      = .ok (0, .value (.integer .int 5)) :=
  C2_auto_vivification '.' ["a".toList, "b".toList, "c".toList] 5 (by decide) (by decide)
    (by decide)

/-! ## Round trip of a write and a read (C1) -/

theorem inBounds_plain (ms : List (Str × Value)) (name : Str) (rest : List Segment)
    (c : Value) (h : inBounds (.obj ms) ((name, none) :: rest) = true)
    (hf : findMember ms name = some c) : inBounds c rest = true := by
  simpa [inBounds, hf] using h

theorem inBounds_item (ms : List (Str × Value)) (name : Str) (i : Nat) (rest : List Segment)
    (xs : List Value) (h : inBounds (.obj ms) ((name, some i) :: rest) = true)
    (hf : findMember ms name = some (.arr xs)) :
    i < xs.length ∧ ∀ item, xs.get? i = some item → inBounds item rest = true := by
  simp only [inBounds, hf, Bool.and_eq_true, decide_eq_true_eq] at h
  refine ⟨h.1, fun item hitem => ?_⟩
  have h2 := h.2
  rw [hitem] at h2
  exact h2

theorem bind_ok_inv {α : Type} (x : Result (Int × α)) (F : α → Value) (j : Value)
    (h : (x >>= fun r => Result.ok (r.1, F r.2)) = .ok (0, j)) :
    ∃ c, x = .ok (0, c) ∧ j = F c := by
  cases x with
  | fault e => cases h
  | ok r =>
    obtain ⟨code, c⟩ := r
    simp only [result_bind_ok, Result.ok.injEq, Prod.mk.injEq] at h
    exact ⟨c, by rw [h.1], h.2.symm⟩

theorem segText_ne_nil (cSep : Char) (s : Segment) (h : ValidSegment cSep s) :
    segText s ≠ [] := by
  obtain ⟨name, index⟩ := s
  cases index with
  | none => exact h.1.1
  | some i => simp [segText, indexed]

theorem pathText_ne_nil (cSep : Char) (s : Segment) (rest : List Segment)
    (h : ValidSegment cSep s) : pathText cSep (s :: rest) ≠ [] := by
  cases rest with
  | nil => exact segText_ne_nil cSep s h
  | cons t rest => simp [pathText, segText_ne_nil cSep s h]

theorem validSegment_name (cSep : Char) (name : Str) (index : Option Nat)
    (h : ValidSegment cSep (name, index)) : PlainName cSep name ∧ NUL ∉ name := by
  cases index with
  | none => exact h
  | some i => exact ⟨h.1, h.2.1⟩

theorem split_pathText (cSep : Char) (hs : PlainSep cSep) (name : Str) (index : Option Nat)
    (rest : List Segment) (h : ValidSegment cSep (name, index)) :
    split cSep (pathText cSep ((name, index) :: rest))
      = .ok (name, pathText cSep rest, index.getD IS_OBJECT) := by
  cases index with
  | none =>
    cases rest with
    | nil => exact split_plain cSep name h.1
    | cons t rest => exact split_plain_cons cSep name _ h.1
  | some i =>
    have hi : i ≤ IS_OBJECT := Nat.le_of_lt (Nat.lt_trans h.2.2 (by decide))
    cases rest with
    | nil => exact split_indexed cSep name i hs h.1 hi
    | cons t rest => exact split_indexed_cons cSep name _ i hs h.1 hi

theorem get?_set_self (xs : List Value) (i : Nat) (x : Value) (h : i < xs.length) :
    (xs.set i x).get? i = some x := by
  simp [List.get?_eq_getElem?, List.getElem?_set, h]

theorem get?_append_new (xs : List Value) (x : Value) :
    (xs ++ [x]).get? xs.length = some x := by
  simp [List.get?_eq_getElem?]

theorem ok_zero_inj (a b : Value) (h : (Result.ok ((0 : Int), a)) = Result.ok ((0 : Int), b)) :
    a = b := by
  simp only [Result.ok.injEq, Prod.mk.injEq, true_and] at h
  exact h

theorem exists_arr_of_IsArray (c : Value) (h : c.IsArray = true) : ∃ xs, c = .arr xs := by
  cases c with
  | arr xs => exact ⟨xs, rfl⟩
  | _ => cases h

theorem exists_obj_of_IsObject (c : Value) (h : c.IsObject = true) : ∃ ms, c = .obj ms := by
  cases c with
  | obj ms => exact ⟨ms, rfl⟩
  | _ => cases h

theorem set_ok_zero_object (cSep : Char) (j : Value) (v : TValue) (strNode : Str)
    (after : Value) (h : set cSep j v strNode = .ok (0, after)) : ∃ ms, j = .obj ms := by
  cases hjo : j.IsObject with
  | true => exact exists_obj_of_IsObject j hjo
  | false =>
    have h1 := (set_not_object cSep j v strNode hjo 0 after h).1
    exact absurd h1 (by decide)

theorem round_trip_terminal (cSep : Char) (hs : PlainSep cSep) (name : Str)
    (index : Option Nat) (hval : ValidSegment cSep (name, index)) (v : TValue)
    (hv : v.Supported) (j after : Value)
    (hset : set cSep j v (pathText cSep [(name, index)]) = .ok (0, after))
    (hin : inBounds after [(name, index)] = true) :
    get cSep after v.ctype (pathText cSep [(name, index)]) = .ok (0, .value v) := by
  have hsp := split_pathText cSep hs name index [] hval
  obtain ⟨hpn, hnul⟩ := validSegment_name cSep name index hval
  have hc : cstr name = name := cstr_of_not_mem name hnul
  have hpe : pathText cSep ([] : List Segment) = [] := rfl
  rw [hpe] at hsp
  obtain ⟨ms, hj⟩ := set_ok_zero_object cSep j v _ after hset
  subst hj
  cases index with
  | none =>
    have hp : pathText cSep [(name, (none : Option Nat))] = name := rfl
    rw [hp] at hset hsp ⊢
    rw [set_plain_terminal cSep ms name v hpn, hc] at hset
    have hja := ok_zero_inj _ _ hset
    subst hja
    cases hf : findMember ms name with
    | none =>
      simp only [hf]
      rw [get_terminal cSep _ v.ctype name name _ (stored v) hsp hpn.1
        (by rw [hc]; exact findMember_append_new ms name _ hf)]
      exact getElement_stored v _ hv
    | some c =>
      simp only [hf]
      rw [get_terminal cSep _ v.ctype name name _ (stored v) hsp hpn.1
        (by rw [hc]; exact findMember_updMember ms name _ c hf)]
      exact getElement_stored v _ hv
  | some i =>
    have h32 : i < 4294967296 := hval.2.2
    have hio : i < IS_OBJECT := Nat.lt_trans h32 (by decide)
    have hi : i ≠ IS_OBJECT := Nat.ne_of_lt hio
    have hp : pathText cSep [(name, some i)] = indexed name i := rfl
    simp only [Option.getD_some] at hsp
    rw [hp] at hset hsp ⊢
    cases ms with
    | nil =>
      rw [set_item_empty_terminal cSep v _ name i hsp hi hpn.1] at hset
      cases hset
    | cons m ms =>
      cases hf : findMember (m :: ms) name with
      | none =>
        rw [set_indexed_absent cSep (m :: ms) name i v hs hpn hio (by simp)
          (by rw [hc]; exact hf)] at hset
        have hja := ok_zero_inj _ _ hset
        subst hja
        have hfa := findMember_append_new (m :: ms) name (.arr [stored v]) hf
        have hb := (inBounds_item _ name i [] [stored v] hin hfa).1
        have hi0 : i = 0 := by simpa using hb
        subst hi0
        rw [get_terminal cSep _ v.ctype _ name 0 _ hsp hpn.1 (by rw [hc]; exact hfa),
          getElement_arr_lt v.ctype [stored v] 0 (stored v) (by decide) rfl,
          element_stored v hv]
      | some c =>
        cases hca : c.IsArray with
        | false =>
          rw [set_item_not_array cSep (m :: ms) v _ name [] i c hsp hi hpn.1
            (by rw [hc]; exact hf) hca] at hset
          cases hset
        | true =>
          obtain ⟨xs, hcx⟩ := exists_arr_of_IsArray c hca
          subst hcx
          rcases Nat.lt_or_ge i xs.length with hlt | hge
          · rw [set_indexed_overwrite cSep (m :: ms) name i v xs hs hpn
              (by rw [hc]; exact hf) hlt h32, hc] at hset
            have hja := ok_zero_inj _ _ hset
            subst hja
            have hfa := findMember_updMember (m :: ms) name (.arr (xs.set i (stored v))) _ hf
            rw [get_terminal cSep _ v.ctype _ name i _ hsp hpn.1 (by rw [hc]; exact hfa),
              getElement_arr_lt v.ctype _ i (stored v) h32 (get?_set_self xs i _ hlt),
              element_stored v hv]
          · rw [set_indexed_append cSep (m :: ms) name i v xs hs hpn hio
              (by rw [hc]; exact hf) hge, hc] at hset
            have hja := ok_zero_inj _ _ hset
            subst hja
            have hfa := findMember_updMember (m :: ms) name (.arr (xs ++ [stored v])) _ hf
            have hb := (inBounds_item _ name i [] _ hin hfa).1
            have hil : i = xs.length := by
              simp only [List.length_append, List.length_singleton] at hb
              omega
            subst hil
            rw [get_terminal cSep _ v.ctype _ name _ _ hsp hpn.1 (by rw [hc]; exact hfa),
              getElement_arr_lt v.ctype _ _ (stored v) h32 (get?_append_new xs _),
              element_stored v hv]

theorem round_trip_descend (cSep : Char) (hs : PlainSep cSep) (name : Str)
    (index : Option Nat) (t : Segment) (rest : List Segment)
    (hval : ValidSegment cSep (name, index)) (hvt : ValidSegment cSep t) (v : TValue)
    (ih : ∀ j after, set cSep j v (pathText cSep (t :: rest)) = .ok (0, after) →
      inBounds after (t :: rest) = true →
      get cSep after v.ctype (pathText cSep (t :: rest)) = .ok (0, .value v))
    (j after : Value)
    (hset : set cSep j v (pathText cSep ((name, index) :: t :: rest)) = .ok (0, after))
    (hin : inBounds after ((name, index) :: t :: rest) = true) :
    get cSep after v.ctype (pathText cSep ((name, index) :: t :: rest))
      = .ok (0, .value v) := by
  have hsp := split_pathText cSep hs name index (t :: rest) hval
  obtain ⟨hpn, hnul⟩ := validSegment_name cSep name index hval
  have hc : cstr name = name := cstr_of_not_mem name hnul
  have hch : pathText cSep (t :: rest) ≠ [] := pathText_ne_nil cSep t rest hvt
  obtain ⟨ms, hj⟩ := set_ok_zero_object cSep j v _ after hset
  subst hj
  cases index with
  | none =>
    simp only [Option.getD_none] at hsp
    cases hf : findMember ms name with
    | none =>
      have hstep : ∃ c, set cSep (.obj []) v (pathText cSep (t :: rest)) = .ok (0, c) ∧
          after = .obj (ms ++ [(name, c)]) := by
        cases ms with
        | nil =>
          rw [set_descend_empty cSep v _ name _ IS_OBJECT hsp hpn.1 hch] at hset
          obtain ⟨c, h1, h2⟩ := bind_ok_inv _
            (fun c => Value.obj [(name, if IS_OBJECT = IS_OBJECT then c else .arr [c])]) _ hset
          rw [if_pos rfl] at h2
          exact ⟨c, h1, h2⟩
        | cons m ms =>
          rw [set_descend_absent cSep (m :: ms) v _ name _ IS_OBJECT hsp hpn.1 hch (by simp)
            (by rw [hc]; exact hf)] at hset
          obtain ⟨c, h1, h2⟩ := bind_ok_inv _
            (fun c => Value.obj
              (m :: ms ++ [(name, if IS_OBJECT = IS_OBJECT then c else .arr [c])])) _ hset
          rw [if_pos rfl] at h2
          exact ⟨c, h1, h2⟩
      obtain ⟨c, h1, h2⟩ := hstep
      subst h2
      have hfa := findMember_append_new ms name c hf
      rw [get_descend_plain cSep _ v.ctype _ name _ c hsp hpn.1 hch (by rw [hc]; exact hfa)]
      exact ih _ c h1 (inBounds_plain _ name _ c hin hfa)
    | some c0 =>
      rw [set_descend_plain cSep ms v _ name _ c0 hsp hpn.1 hch (by rw [hc]; exact hf)] at hset
      cases hco : c0.IsObject with
      | false =>
        rw [hco] at hset
        simp only [Bool.false_eq_true, if_false, Result.ok.injEq, Prod.mk.injEq] at hset
        exact absurd hset.1 (by decide)
      | true =>
        rw [hco, if_pos rfl] at hset
        obtain ⟨c, h1, h2⟩ := bind_ok_inv _
          (fun c => Value.obj (updMember ms (cstr name) c)) _ hset
        rw [hc] at h2
        subst h2
        have hfa := findMember_updMember ms name c c0 hf
        rw [get_descend_plain cSep _ v.ctype _ name _ c hsp hpn.1 hch (by rw [hc]; exact hfa)]
        exact ih _ c h1 (inBounds_plain _ name _ c hin hfa)
  | some i =>
    have h32 : i < 4294967296 := hval.2.2
    have hio : i < IS_OBJECT := Nat.lt_trans h32 (by decide)
    have hi : i ≠ IS_OBJECT := Nat.ne_of_lt hio
    simp only [Option.getD_some] at hsp
    cases hf : findMember ms name with
    | none =>
      have hstep : ∃ c, set cSep (.obj []) v (pathText cSep (t :: rest)) = .ok (0, c) ∧
          after = .obj (ms ++ [(name, .arr [c])]) := by
        cases ms with
        | nil =>
          rw [set_descend_empty cSep v _ name _ i hsp hpn.1 hch] at hset
          obtain ⟨c, h1, h2⟩ := bind_ok_inv _
            (fun c => Value.obj [(name, if i = IS_OBJECT then c else .arr [c])]) _ hset
          rw [if_neg hi] at h2
          exact ⟨c, h1, h2⟩
        | cons m ms =>
          rw [set_descend_absent cSep (m :: ms) v _ name _ i hsp hpn.1 hch (by simp)
            (by rw [hc]; exact hf)] at hset
          obtain ⟨c, h1, h2⟩ := bind_ok_inv _
            (fun c => Value.obj
              (m :: ms ++ [(name, if i = IS_OBJECT then c else .arr [c])])) _ hset
          rw [if_neg hi] at h2
          exact ⟨c, h1, h2⟩
      obtain ⟨c, h1, h2⟩ := hstep
      subst h2
      have hfa := findMember_append_new ms name (.arr [c]) hf
      obtain ⟨hb, hnext⟩ := inBounds_item _ name i _ [c] hin hfa
      have hi0 : i = 0 := by simpa using hb
      subst hi0
      rw [get_descend_item cSep _ v.ctype _ name _ 0 [c] c hsp hi hpn.1 hch
        (by rw [hc]; exact hfa) h32 rfl]
      exact ih _ c h1 (hnext c rfl)
    | some c0 =>
      cases hca : c0.IsArray with
      | false =>
        rw [set_item_not_array cSep ms v _ name _ i c0 hsp hi hpn.1
          (by rw [hc]; exact hf) hca] at hset
        cases hset
      | true =>
        obtain ⟨xs, hcx⟩ := exists_arr_of_IsArray c0 hca
        subst hcx
        rcases Nat.lt_or_ge i xs.length with hlt | hge
        · have hget : xs.get? i = some (xs.get ⟨i, hlt⟩) := List.get?_eq_get hlt
          rw [set_descend_item_lt cSep ms v _ name _ i xs _ hsp hi hpn.1 hch
            (by rw [hc]; exact hf) h32 hget] at hset
          cases heo : (xs.get ⟨i, hlt⟩).IsObject with
          | false =>
            rw [heo] at hset
            simp only [Bool.false_eq_true, if_false, Result.ok.injEq, Prod.mk.injEq] at hset
            exact absurd hset.1 (by decide)
          | true =>
            rw [heo, if_pos rfl] at hset
            obtain ⟨c, h1, h2⟩ := bind_ok_inv _
              (fun c => Value.obj (updMember ms (cstr name) (.arr (xs.set i c)))) _ hset
            rw [hc] at h2
            subst h2
            have hfa := findMember_updMember ms name (.arr (xs.set i c)) _ hf
            obtain ⟨_, hnext⟩ := inBounds_item _ name i _ _ hin hfa
            have hgs := get?_set_self xs i c hlt
            rw [get_descend_item cSep _ v.ctype _ name _ i _ c hsp hi hpn.1 hch
              (by rw [hc]; exact hfa) h32 hgs]
            exact ih _ c h1 (hnext c hgs)
        · rw [set_descend_item_ge cSep ms v _ name _ i xs hsp hi hpn.1 hch
            (by rw [hc]; exact hf) hge] at hset
          obtain ⟨c, h1, h2⟩ := bind_ok_inv _
            (fun c => Value.obj (updMember ms (cstr name) (.arr (xs ++ [c])))) _ hset
          rw [hc] at h2
          subst h2
          have hfa := findMember_updMember ms name (.arr (xs ++ [c])) _ hf
          obtain ⟨hb, hnext⟩ := inBounds_item _ name i _ _ hin hfa
          have hil : i = xs.length := by
            simp only [List.length_append, List.length_singleton] at hb
            omega
          subst hil
          have hgs := get?_append_new xs c
          rw [get_descend_item cSep _ v.ctype _ name _ _ _ c hsp hi hpn.1 hch
            (by rw [hc]; exact hfa) h32 hgs]
          exact ih _ c h1 (hnext c hgs)

theorem round_trip_path (cSep : Char) (hs : PlainSep cSep) (v : TValue) (hv : v.Supported)
    (segs : List Segment) (hne : segs ≠ []) (hval : ∀ s ∈ segs, ValidSegment cSep s)
    (j after : Value) (hset : set cSep j v (pathText cSep segs) = .ok (0, after))
    (hin : inBounds after segs = true) :
    get cSep after v.ctype (pathText cSep segs) = .ok (0, .value v) := by
  induction segs generalizing j after with
  | nil => exact absurd rfl hne
  | cons s rest ih =>
    obtain ⟨name, index⟩ := s
    have hs0 := hval (name, index) (List.mem_cons_self _ _)
    cases rest with
    | nil => exact round_trip_terminal cSep hs name index hs0 v hv j after hset hin
    | cons t rest =>
      have ht := hval t (by simp)
      exact round_trip_descend cSep hs name index t rest hs0 ht v
        (fun j2 a2 h1 h2 =>
          ih (by simp) (fun x hx => hval x (List.mem_cons_of_mem _ hx)) j2 a2 h1 h2)
        j after hset hin

/-- C1 (counterexample): on a document whose member arr has one element, the write of 7 at
"arr[5]" returns 0 and appends (arr becomes [1, 7]), and get at the same path "arr[5]" then
returns -1: the index of a write decides between overwrite and append only. -/
theorem C1_counterexample :
    set '.' (.obj [("arr".toList, .arr [.int 1])]) (.integer .int 7) "arr[5]".toList
      = .ok (0, .obj [("arr".toList, .arr [.int 1, .int 7])]) ∧
    get '.' (.obj [("arr".toList, .arr [.int 1, .int 7])]) (.integer .int) "arr[5]".toList
      = .ok (-1, .untouched) := by
  decide

/-- C1 (amended): for every document root, every valid path p (segment names non-empty and
free of the separator, of '[' and of NUL, each optionally carrying a subscript below 2^32)
and every scalar v that is a NUL-free string, a bool, or an integer in the range of its
type T other than a value from 2^31 to 2^32 - 1 held in a 64-bit type: if set(v, p)
returns 0 and every subscript of p is below the size of the array it addresses in the
resulting document, then get<T>(p) on the resulting document returns 0 and yields exactly
v. -/
theorem C1_round_trip (cSep : Char) (root after : Value) (segs : List Segment) (v : TValue)
    (hs : PlainSep cSep) (hne : segs ≠ []) (hval : ∀ s ∈ segs, ValidSegment cSep s)
    (hv : v.Supported) (hset : set cSep root v (pathText cSep segs) = .ok (0, after))
    (hin : inBounds after segs = true) :
    get cSep after v.ctype (pathText cSep segs) = .ok (0, .value v) :=
  round_trip_path cSep hs v hv segs hne hval root after hset hin

/-- C1 at the path "cfg.list[1].id": the write appends a second element to list. -/
theorem C1_round_trip_witness :
    get '.' (.obj [("cfg".toList, .obj [("list".toList,
          .arr [.obj [("id".toList, .int 1)], .obj [("id".toList, .int 42)]])])])
        (TValue.integer .uint16 42).ctype
        (pathText '.' [("cfg".toList, none), ("list".toList, some 1), ("id".toList, none)])
      = .ok (0, .value (.integer .uint16 42)) :=
  C1_round_trip '.'
    (.obj [("cfg".toList, .obj [("list".toList, .arr [.obj [("id".toList, .int 1)]])])])
    (.obj [("cfg".toList, .obj [("list".toList,
      .arr [.obj [("id".toList, .int 1)], .obj [("id".toList, .int 42)]])])])
    [("cfg".toList, none), ("list".toList, some 1), ("id".toList, none)]
    (.integer .uint16 42) (by decide) (by decide) (by decide) (by decide) (by decide)
    (by decide)

/-! ## Reads beyond an array and integer coercion (C11 to C14) -/

/-- C11 (defect of the code): on the document whose member arr is an array of size 1, get at
the terminal path "arr[1]" returns -1 as claimed, but get at "arr[1].b", which descends
through the same segment, does not return: process indexes the array without comparing
the index with Size(), so operator[] fails its precondition; and at "arr[4294967296].b"
the index is cut to 32 bits, element 0 is read and get returns 0. -/
theorem C11_read_through_index_out_of_range :
    get '.' (.obj [("arr".toList, .arr [.obj [("b".toList, .int 1)]])]) (.integer .int)
        "arr[1]".toList
      = .ok (-1, .untouched) ∧
    get '.' (.obj [("arr".toList, .arr [.obj [("b".toList, .int 1)]])]) (.integer .int)
        "arr[1].b".toList
      = .fault .assertion ∧
    get '.' (.obj [("arr".toList, .arr [.obj [("b".toList, .int 1)]])]) (.integer .int)
        "arr[4294967296].b".toList
      = .ok (0, .value (.integer .int 1)) := by
  decide

/-- C12 (defect of the code): the node 3000000000 lies outside the range of int, yet
get<int> returns 0 and writes nothing (the UINT32 case of element has a branch for the
three narrow unsigned types only); the node 2^63 lies outside the range of int8_t, yet
get<int8_t> returns 0 and yields the converted value 0 (the UINT64 case assigns whatever
the type).  Where element does test, as for int8_t on the node 300, the status is -2. -/
theorem C12_out_of_range_accepted :
    get '.' (.obj [("n".toList, .int 3000000000)]) (.integer .int) "n".toList
      = .ok (0, .untouched) ∧
    get '.' (.obj [("n".toList, .int 9223372036854775808)]) (.integer .int8) "n".toList
      = .ok (0, .value (.integer .int8 0)) ∧
    get '.' (.obj [("n".toList, .int 300)]) (.integer .int8) "n".toList
      = .ok (-2, .untouched) := by
  decide

/-- C13 (defect of the code): the node 3000000000 fits int64_t and uint64_t, and get
returns 0 for both, but the output is not written: the UINT32 case of element has no
branch for the 64-bit types.  The same value stored in the node 5000000000, or read as
uint32_t, is yielded. -/
theorem C13_fitting_value_not_yielded :
    get '.' (.obj [("n".toList, .int 3000000000)]) (.integer .int64) "n".toList
      = .ok (0, .untouched) ∧
    get '.' (.obj [("n".toList, .int 3000000000)]) (.integer .uint64) "n".toList
      = .ok (0, .untouched) ∧
    get '.' (.obj [("n".toList, .int 3000000000)]) (.integer .uint32) "n".toList
      = .ok (0, .value (.integer .uint32 3000000000)) ∧
    get '.' (.obj [("n".toList, .int 5000000000)]) (.integer .int64) "n".toList
      = .ok (0, .value (.integer .int64 5000000000)) := by
  decide

/-- C14 (defect of the code): a string request returns 0 on the numeric node 3000000000
(nothing written) and on the node 2^63 (a one-character string assigned), a bool request
returns 0 on the node 2^63 and on a double outside the range of float; an integer request
on a String or Bool node returns -2 as claimed. -/
theorem C14_string_and_bool_requests_on_numbers :
    get '.' (.obj [("n".toList, .int 3000000000)]) .string "n".toList
      = .ok (0, .untouched) ∧
    get '.' (.obj [("n".toList, .int 9223372036854775808)]) .string "n".toList
      = .ok (0, .value (.string [NUL])) ∧
    get '.' (.obj [("n".toList, .int 9223372036854775808)]) .bool "n".toList
      = .ok (0, .value (.bool true)) ∧
    get '.' (.obj [("n".toList, .real ⟨false, 0⟩)]) .bool "n".toList
      = .ok (0, .converted) ∧
    get '.' (.obj [("n".toList, .str "x".toList)]) (.integer .int) "n".toList
      = .ok (-2, .untouched) ∧
    get '.' (.obj [("n".toList, .bool true)]) (.integer .uint8) "n".toList
      = .ok (-2, .untouched) := by
  decide

/-! ## exist and getType at a subscript (C15, C18) -/

/-- C15 (defect of the code): exist returns true at "a[5]" although the member a is a
number, and at "arr[5]" although arr has one element: the EXIST case of process does not
look at the index of the terminal segment, which the GET case does through getElement.
getType, which indexes the member after the same test, then fails at "arr[5]". -/
theorem C15_exist_ignores_terminal_index :
    exist '.' (.obj [("a".toList, .int 1)]) "a[5]".toList = .ok true ∧
    exist '.' (.obj [("arr".toList, .arr [.int 1])]) "arr[5]".toList = .ok true ∧
    get '.' (.obj [("arr".toList, .arr [.int 1])]) (.integer .int) "arr[5]".toList
      = .ok (-1, .untouched) ∧
    getType '.' (.obj [("arr".toList, .arr [.int 1])]) "arr[5]".toList
      = .fault .assertion := by
  decide

/-- C18 (defect of the code): for an absent member getType returns UKNOWN as claimed, but
for an index that is not below the size of the array it does not: at "arr[5]" on an array
of size 1 the test through EXIST succeeds and operator[] fails its precondition, and at
"arr[4294967296]" the index is cut to 32 bits and the type of element 0 is returned. -/
theorem C18_getType_index_not_below_size :
    getType '.' (.obj [("arr".toList, .arr [.int 1])]) "missing".toList = .ok TYPE.UKNOWN ∧
    getType '.' (.obj [("arr".toList, .arr [.int 1])]) "arr[5]".toList = .fault .assertion ∧
    getType '.' (.obj [("arr".toList, .arr [.int 1])]) "arr[4294967296]".toList
      = .ok TYPE.SINT32 ∧
    getType '.' (.obj [("arr".toList, .arr [.obj [("b".toList, .int 1)]])]) "arr[1].b".toList
      = .fault .assertion := by
  decide

/-! ## Removal of an absent node (C20) -/

theorem set_get?_same (xs : List Value) (i : Nat) (e0 : Value) (h : xs.get? i = some e0) :
    xs.set i e0 = xs := by
  induction xs generalizing i with
  | nil => rfl
  | cons x xs ih =>
    cases i with
    | zero =>
      simp only [List.get?_cons_zero, Option.some.injEq] at h
      simp [h]
    | succ i =>
      simp only [List.get?_cons_succ] at h
      simp [ih i h]

theorem process_missing_same (cSep : Char) (root : Value) (strNode : Str)
    (h : MissingMember cSep root strNode) (T : CType) (eType : stProcess.TYPE) :
    process cSep root T strNode eType = .ok (-1, .untouched, root) := by
  induction h with
  | here ms strNode name children i hsplit habsent =>
    exact process_terminal_absent cSep ms T strNode name children i eType hsplit habsent
  | plain ms inner strNode name children hsplit hrest hmember _ ih =>
    by_cases hne : name = []
    · subst hne
      exact process_empty_name cSep _ T strNode children _ eType hsplit
    · rw [process_descend_plain cSep ms T strNode name children eType _ hsplit hne hrest
        hmember, ih]
      simp only [result_bind_ok, updMember_same ms (cstr name) _ hmember]
  | item ms inner xs strNode name children i hsplit hindex hrest hmember hsize hitem _ ih =>
    by_cases hne : name = []
    · subst hne
      exact process_empty_name cSep _ T strNode children _ eType hsplit
    · rw [process_descend_item cSep ms T strNode name children i eType xs _ hsplit hindex
        hne hrest hmember hsize hitem, ih]
      simp only [result_bind_ok, set_get?_same xs i _ hitem,
        updMember_same ms (cstr name) _ hmember]

/-- C20: for every document and every path whose terminal member, or any intermediate
member, is absent from the object reached so far, remove returns the nonzero status -1 and
the document is unchanged. -/
theorem C20_remove_absent_node (cSep : Char) (root : Value) (strNode : Str)
    (h : MissingMember cSep root strNode) :
    remove cSep root strNode = .ok (-1, root) := by
  simp only [remove, process_missing_same cSep root strNode h, result_bind_ok, result_pure]

/-- C20 at the paths "a.y" (terminal member absent) and "missing.node" (intermediate member
absent) on a document that holds a = (x = 1). -/
theorem C20_remove_absent_node_witness :
    remove '.' (.obj [("a".toList, .obj [("x".toList, .int 1)])]) "a.y".toList
      = .ok (-1, .obj [("a".toList, .obj [("x".toList, .int 1)])]) ∧
    remove '.' (.obj [("a".toList, .obj [("x".toList, .int 1)])]) "missing.node".toList
      = .ok (-1, .obj [("a".toList, .obj [("x".toList, .int 1)])]) :=
  ⟨C20_remove_absent_node '.' _ "a.y".toList
      (MissingMember.plain _ [("x".toList, .int 1)] _ "a".toList "y".toList (by decide)
        (by decide) (by decide)
        (MissingMember.here _ _ "y".toList [] IS_OBJECT (by decide) (by decide))),
    C20_remove_absent_node '.' _ "missing.node".toList
      (MissingMember.here _ _ "missing".toList "node".toList IS_OBJECT (by decide)
        (by decide))⟩

/-! ## empty and size along a path that resolves (C16, C17) -/

theorem resolve_obj (j : Value) (s : Segment) (rest : List Segment) (c : Value)
    (h : resolve j (s :: rest) = some c) : ∃ ms, j = .obj ms := by
  obtain ⟨name, index⟩ := s
  cases j with
  | obj ms => exact ⟨ms, rfl⟩
  | _ => cases index <;> simp [resolve] at h

theorem resolve_plain (ms : List (Str × Value)) (name : Str) (rest : List Segment)
    (c : Value) (h : resolve (.obj ms) ((name, none) :: rest) = some c) :
    ∃ child, findMember ms name = some child ∧ resolve child rest = some c := by
  cases hf : findMember ms name with
  | none => simp [resolve, hf] at h
  | some child => exact ⟨child, rfl, by simpa [resolve, hf] using h⟩

theorem resolve_item (ms : List (Str × Value)) (name : Str) (i : Nat) (rest : List Segment)
    (c : Value) (h : resolve (.obj ms) ((name, some i) :: rest) = some c) :
    ∃ xs item, findMember ms name = some (.arr xs) ∧ xs.get? i = some item ∧
      resolve item rest = some c := by
  cases hf : findMember ms name with
  | none => simp [resolve, hf] at h
  | some child =>
    cases child with
    | arr xs =>
      simp only [resolve, hf] at h
      cases hg : xs.get? i with
      | none =>
        rw [hg] at h
        cases h
      | some item =>
        rw [hg] at h
        exact ⟨xs, item, rfl, hg, h⟩
    | _ => simp [resolve, hf] at h

theorem process_terminal_EMPTY (cSep : Char) (ms : List (Str × Value)) (T : CType)
    (strNode name : Str) (i : Nat) (c : Value)
    (hsp : split cSep strNode = .ok (name, [], i)) (hne : name ≠ [])
    (hf : findMember ms (cstr name) = some c) :
    process cSep (.obj ms) T strNode .EMPTY
      = .ok (if c.IsNull then -1 else 0, .untouched, .obj ms) := by
  rw [process_unfold]
  simp only [processStep, hsp, result_bind_ok, isEmpty_false_of_ne_nil name hne,
    ne_nil_of_findMember ms _ _ hf, Value.ObjectEmpty, Value.IsNull, Value.HasMember,
    Value.member, hf, result_pure, List.isEmpty_nil, if_true, if_false, Bool.or_false,
    Option.isSome_some, Bool.false_eq_true]

theorem process_EMPTY_resolve (cSep : Char) (hs : PlainSep cSep) (T : CType)
    (segs : List Segment) (hne : segs ≠ []) (hval : ∀ s ∈ segs, ValidSegment cSep s)
    (hplain : terminalPlain segs = true) (root c : Value)
    (hres : resolve root segs = some c) :
    ∃ after, process cSep root T (pathText cSep segs) .EMPTY
      = .ok (if c.IsNull then -1 else 0, .untouched, after) := by
  induction segs generalizing root with
  | nil => exact absurd rfl hne
  | cons s rest ih =>
    obtain ⟨name, index⟩ := s
    have hs0 := hval (name, index) (List.mem_cons_self _ _)
    obtain ⟨hpn, hnul⟩ := validSegment_name cSep name index hs0
    have hc : cstr name = name := cstr_of_not_mem name hnul
    have hsp := split_pathText cSep hs name index rest hs0
    obtain ⟨ms, hj⟩ := resolve_obj root _ _ c hres
    subst hj
    cases rest with
    | nil =>
      cases index with
      | some i => simp [terminalPlain] at hplain
      | none =>
        obtain ⟨child, hf, hr⟩ := resolve_plain ms name [] c hres
        have hcc : child = c := by simpa [resolve] using hr
        subst hcc
        have hpe : pathText cSep ([] : List Segment) = [] := rfl
        rw [hpe] at hsp
        exact ⟨_, process_terminal_EMPTY cSep ms T _ name _ child hsp hpn.1
          (by rw [hc]; exact hf)⟩
    | cons t rest =>
      have ht := hval t (by simp)
      have hch : pathText cSep (t :: rest) ≠ [] := pathText_ne_nil cSep t rest ht
      have hp2 : terminalPlain (t :: rest) = true := hplain
      have hv2 : ∀ s ∈ t :: rest, ValidSegment cSep s :=
        fun x hx => hval x (List.mem_cons_of_mem _ hx)
      cases index with
      | none =>
        obtain ⟨child, hf, hr⟩ := resolve_plain ms name _ c hres
        obtain ⟨after, ha⟩ := ih (by simp) hv2 hp2 child hr
        simp only [Option.getD_none] at hsp
        rw [process_descend_plain cSep ms T _ name _ .EMPTY child hsp hpn.1 hch
          (by rw [hc]; exact hf), ha]
        exact ⟨_, rfl⟩
      | some i =>
        have h32 : i < 4294967296 := hs0.2.2
        have hi : i ≠ IS_OBJECT := Nat.ne_of_lt (Nat.lt_trans h32 (by decide))
        obtain ⟨xs, item, hf, hg, hr⟩ := resolve_item ms name i _ c hres
        obtain ⟨after, ha⟩ := ih (by simp) hv2 hp2 item hr
        simp only [Option.getD_some] at hsp
        rw [process_descend_item cSep ms T _ name _ i .EMPTY xs item hsp hi hpn.1 hch
          (by rw [hc]; exact hf) h32 hg, ha]
        exact ⟨_, rfl⟩

/-- C16 (counterexample): the document has no member named missing, so the path does not
resolve, and empty returns true, not false. -/
theorem C16_counterexample :
    resolve (.obj [("a".toList, .int 1)]) [("missing".toList, none)] = none ∧
    empty '.' (.obj [("a".toList, .int 1)]) "missing".toList = .ok true := by
  decide

/-- C16 (amended): empty returns true for every path in which a named member is absent
from the object reached so far; and for every valid path whose terminal segment carries no
subscript and that resolves, empty returns true if and only if the value the path
addresses is Null. -/
theorem C16_empty_of_missing_or_null (cSep : Char) (hs : PlainSep cSep) :
    (∀ root strNode, MissingMember cSep root strNode →
      empty cSep root strNode = .ok true) ∧
    (∀ root segs c, segs ≠ [] → (∀ s ∈ segs, ValidSegment cSep s) →
      terminalPlain segs = true → resolve root segs = some c →
      empty cSep root (pathText cSep segs) = .ok c.IsNull) := by
  constructor
  · intro root strNode h
    simp only [empty, process_missing_same cSep root strNode h, result_bind_ok, result_pure]
    rfl
  · intro root segs c hne hval hplain hres
    obtain ⟨after, ha⟩ :=
      process_EMPTY_resolve cSep hs (.integer .int) segs hne hval hplain root c hres
    simp only [empty, ha, result_bind_ok, result_pure]
    cases c.IsNull <;> rfl

/-- C16 at the path "missing.node", whose first member is absent, and at the path
"cfg.list[0].v", whose value is Null. -/
theorem C16_empty_of_missing_or_null_witness :
    empty '.' (.obj [("present".toList, .int 1)]) "missing.node".toList = .ok true ∧
    empty '.' (.obj [("cfg".toList, .obj [("list".toList,
        .arr [.obj [("v".toList, .null)]])])])
      (pathText '.' [("cfg".toList, none), ("list".toList, some 0), ("v".toList, none)])
      = .ok true :=
  ⟨(C16_empty_of_missing_or_null '.' (by decide)).1 _ "missing.node".toList
      (MissingMember.here _ _ "missing".toList "node".toList IS_OBJECT (by decide)
        (by decide)),
    (C16_empty_of_missing_or_null '.' (by decide)).2 _
      [("cfg".toList, none), ("list".toList, some 0), ("v".toList, none)] .null
      (by decide) (by decide) (by decide) (by decide)⟩

/-! ## size along a path (C17) -/

theorem size_absent (cSep : Char) (ms : List (Str × Value)) (strNode name children : Str)
    (i : Nat) (hsp : split cSep strNode = .ok (name, children, i))
    (hf : findMember ms (cstr name) = none) :
    size cSep (.obj ms) strNode = .ok 0 := by
  rw [size_unfold]
  unfold sizeStep
  rw [hsp]
  cases hms : ms.isEmpty <;> cases hch : children.isEmpty <;>
    simp only [result_bind_ok, Value.ObjectEmpty, Value.IsNull, Value.HasMember, hf, hms, hch,
      result_pure, if_true, if_false, Bool.or_false, Option.isSome_none, Bool.false_eq_true,
      Bool.true_or]

theorem size_terminal_other (cSep : Char) (ms : List (Str × Value)) (strNode name : Str)
    (i : Nat) (c : Value) (hsp : split cSep strNode = .ok (name, [], i))
    (hf : findMember ms (cstr name) = some c) (hc : c.IsArray = false) :
    size cSep (.obj ms) strNode = .ok 0 := by
  rw [size_unfold]
  simp only [sizeStep, hsp, result_bind_ok, ne_nil_of_findMember ms _ _ hf,
    Value.ObjectEmpty, Value.IsNull, Value.HasMember, Value.member, hf, hc,
    result_pure, List.isEmpty_nil, if_true, if_false, Bool.or_false,
    Option.isSome_some, Bool.false_eq_true]

theorem size_descend_plain (cSep : Char) (ms : List (Str × Value))
    (strNode name children : Str) (i : Nat) (c : Value)
    (hsp : split cSep strNode = .ok (name, children, i)) (hch : children ≠ [])
    (hf : findMember ms (cstr name) = some c) (hc : c.IsArray = false) :
    size cSep (.obj ms) strNode = size cSep c children := by
  rw [size_unfold]
  simp only [sizeStep, hsp, result_bind_ok, ne_nil_of_findMember ms _ _ hf,
    isEmpty_false_of_ne_nil children hch, Value.ObjectEmpty, Value.IsNull, Value.HasMember,
    Value.member, hf, hc, result_pure, if_true, if_false, Bool.or_false,
    Option.isSome_some, Bool.false_eq_true]

theorem size_descend_item (cSep : Char) (ms : List (Str × Value))
    (strNode name children : Str) (i : Nat) (xs : List Value) (e0 : Value)
    (hsp : split cSep strNode = .ok (name, children, i)) (hch : children ≠ [])
    (hf : findMember ms (cstr name) = some (.arr xs)) (h32 : i < 4294967296)
    (he : xs.get? i = some e0) :
    size cSep (.obj ms) strNode = size cSep e0 children := by
  rw [size_unfold]
  simp only [sizeStep, hsp, result_bind_ok, ne_nil_of_findMember ms _ _ hf,
    isEmpty_false_of_ne_nil children hch, Value.ObjectEmpty, Value.IsNull, Value.HasMember,
    Value.member, hf, Value.IsArray, result_pure, if_true, if_false, Bool.or_false,
    Option.isSome_some, Bool.false_eq_true, Value.elem, toSizeType_of_lt i h32, he]

theorem size_missing (cSep : Char) (root : Value) (strNode : Str)
    (h : MissingMember cSep root strNode) : size cSep root strNode = .ok 0 := by
  induction h with
  | here ms strNode name children i hsplit habsent =>
    exact size_absent cSep ms strNode name children i hsplit habsent
  | plain ms inner strNode name children hsplit hrest hmember _ ih =>
    rw [size_descend_plain cSep ms strNode name children _ _ hsplit hrest hmember rfl, ih]
  | item ms inner xs strNode name children i hsplit hindex hrest hmember hsize hitem _ ih =>
    rw [size_descend_item cSep ms strNode name children i xs _ hsplit hrest hmember hsize
      hitem, ih]

theorem size_resolve (cSep : Char) (hs : PlainSep cSep)
    (segs : List Segment) (hne : segs ≠ []) (hval : ∀ s ∈ segs, ValidSegment cSep s)
    (hplain : terminalPlain segs = true) (root c : Value)
    (hres : resolve root segs = some c) :
    size cSep root (pathText cSep segs) = .ok (elementCount c) := by
  induction segs generalizing root with
  | nil => exact absurd rfl hne
  | cons s rest ih =>
    obtain ⟨name, index⟩ := s
    have hs0 := hval (name, index) (List.mem_cons_self _ _)
    obtain ⟨_, hnul⟩ := validSegment_name cSep name index hs0
    have hc : cstr name = name := cstr_of_not_mem name hnul
    have hsp := split_pathText cSep hs name index rest hs0
    obtain ⟨ms, hj⟩ := resolve_obj root _ _ c hres
    subst hj
    cases rest with
    | nil =>
      cases index with
      | some i => simp [terminalPlain] at hplain
      | none =>
        obtain ⟨child, hf, hr⟩ := resolve_plain ms name [] c hres
        have hcc : child = c := by simpa [resolve] using hr
        subst hcc
        have hpe : pathText cSep ([] : List Segment) = [] := rfl
        rw [hpe] at hsp
        rw [← hc] at hf
        cases hca : child.IsArray with
        | true =>
          obtain ⟨xs, hxs⟩ := exists_arr_of_IsArray child hca
          subst hxs
          exact size_terminal cSep ms _ name _ xs hsp hf
        | false =>
          rw [size_terminal_other cSep ms _ name _ child hsp hf hca]
          cases child <;> first | rfl | cases hca
    | cons t rest =>
      have ht := hval t (by simp)
      have hch : pathText cSep (t :: rest) ≠ [] := pathText_ne_nil cSep t rest ht
      have hp2 : terminalPlain (t :: rest) = true := hplain
      have hv2 : ∀ s ∈ t :: rest, ValidSegment cSep s :=
        fun x hx => hval x (List.mem_cons_of_mem _ hx)
      cases index with
      | none =>
        obtain ⟨child, hf, hr⟩ := resolve_plain ms name _ c hres
        obtain ⟨inner, hin⟩ := resolve_obj child _ _ c hr
        subst hin
        rw [← hc] at hf
        rw [size_descend_plain cSep ms _ name _ _ _ hsp hch hf rfl]
        exact ih (by simp) hv2 hp2 _ hr
      | some i =>
        have h32 : i < 4294967296 := hs0.2.2
        obtain ⟨xs, item, hf, hg, hr⟩ := resolve_item ms name i _ c hres
        rw [← hc] at hf
        rw [size_descend_item cSep ms _ name _ _ xs item hsp hch hf h32 hg]
        exact ih (by simp) hv2 hp2 _ hr

/-- C17 (defect of the code): the path "arr[0]" addresses the scalar 1, and the path
"o[3].arr" does not resolve because the member o is an Object, not an Array; size returns 2
for both, not 0: it never reads the subscript of the terminal segment, and it skips a
subscript on a member that is not an Array.  The path "m[1]" addresses the Array [7] of one
element, and size returns 2, the element count of m.  The sibling operations honour the
subscript: getType at "arr[0]" gives SINT32 and get at "arr[0]" yields 1. -/
theorem C17_size_ignores_subscript :
    resolve (.obj [("arr".toList, .arr [.int 1, .int 2])]) [("arr".toList, some 0)]
      = some (.int 1) ∧
    size '.' (.obj [("arr".toList, .arr [.int 1, .int 2])]) "arr[0]".toList = .ok 2 ∧
    resolve (.obj [("o".toList, .obj [("arr".toList, .arr [.int 1, .int 2])])])
      [("o".toList, some 3), ("arr".toList, none)] = none ∧
    size '.' (.obj [("o".toList, .obj [("arr".toList, .arr [.int 1, .int 2])])])
      "o[3].arr".toList = .ok 2 ∧
    resolve (.obj [("m".toList, .arr [.arr [], .arr [.int 7]])]) [("m".toList, some 1)]
      = some (.arr [.int 7]) ∧
    size '.' (.obj [("m".toList, .arr [.arr [], .arr [.int 7]])]) "m[1]".toList = .ok 2 ∧
    getType '.' (.obj [("arr".toList, .arr [.int 1, .int 2])]) "arr[0]".toList
      = .ok TYPE.SINT32 ∧
    get '.' (.obj [("arr".toList, .arr [.int 1, .int 2])]) (.integer .int) "arr[0]".toList
      = .ok (0, .value (.integer .int 1)) := by
  refine ⟨by decide, by decide, by decide, by decide, by decide, by decide, by decide,
    by decide⟩

/-- The paths on which size does what C17 says: size returns 0 for every path in which a
named member is absent from the object reached so far; and for every valid path whose
terminal segment carries no subscript and that resolves, size returns the element count
when the addressed value is an Array and 0 when it is not. -/
theorem C17_size_of_missing_or_resolved (cSep : Char) (hs : PlainSep cSep) :
    (∀ root strNode, MissingMember cSep root strNode → size cSep root strNode = .ok 0) ∧
    (∀ root segs c, segs ≠ [] → (∀ s ∈ segs, ValidSegment cSep s) →
      terminalPlain segs = true → resolve root segs = some c →
      size cSep root (pathText cSep segs) = .ok (elementCount c)) :=
  ⟨fun root strNode h => size_missing cSep root strNode h,
   fun root segs c hne hval hplain hres =>
     size_resolve cSep hs segs hne hval hplain root c hres⟩

/-- The size of the path "missing.node", whose first member is absent, and of the path
"cfg.list[0].v", whose value is an Array of two elements. -/
theorem C17_size_of_missing_or_resolved_witness :
    size '.' (.obj [("present".toList, .int 1)]) "missing.node".toList = .ok 0 ∧
    size '.' (.obj [("cfg".toList, .obj [("list".toList,
        .arr [.obj [("v".toList, .arr [.int 1, .int 2])]])])])
      (pathText '.' [("cfg".toList, none), ("list".toList, some 0), ("v".toList, none)])
      = .ok 2 :=
  ⟨(C17_size_of_missing_or_resolved '.' (by decide)).1 _ "missing.node".toList
      (MissingMember.here _ _ "missing".toList "node".toList IS_OBJECT (by decide)
        (by decide)),
    (C17_size_of_missing_or_resolved '.' (by decide)).2 _
      [("cfg".toList, none), ("list".toList, some 0), ("v".toList, none)]
      (.arr [.int 1, .int 2]) (by decide) (by decide) (by decide) (by decide)⟩

/-! ## Removal of a member (C19) -/

theorem findMember_append (a b : List (Str × Value)) (k : Str) :
    findMember (a ++ b) k
      = match findMember a k with
        | some v => some v
        | none => findMember b k := by
  induction a with
  | nil => rfl
  | cons m a ih =>
    obtain ⟨k', v'⟩ := m
    by_cases hk : k' = k
    · simp [findMember, hk]
    · simp [findMember, hk, ih]

theorem findMember_none_of_not_mem (a : List (Str × Value)) (k : Str)
    (h : k ∉ a.map Prod.fst) : findMember a k = none := by
  induction a with
  | nil => rfl
  | cons m a ih =>
    obtain ⟨k', v'⟩ := m
    simp only [List.map_cons, List.mem_cons, not_or] at h
    simp [findMember, Ne.symm h.1, ih h.2]

theorem memberIndex_spec (ms : List (Str × Value)) (name : Str) (c : Value)
    (h : findMember ms name = some c) :
    ∃ front back, ms = front ++ (name, c) :: back ∧ findMember front name = none ∧
      memberIndex ms name = some front.length := by
  induction ms with
  | nil => simp [findMember] at h
  | cons m ms ih =>
    obtain ⟨k', v'⟩ := m
    by_cases hk : k' = name
    · subst hk
      simp only [findMember, if_true, Option.some.injEq] at h
      subst h
      exact ⟨[], ms, rfl, rfl, by simp [memberIndex]⟩
    · simp only [findMember, hk, if_false] at h
      obtain ⟨front, back, hms, hfr, hidx⟩ := ih h
      refine ⟨(k', v') :: front, back, by simp [hms], by simp [findMember, hk, hfr], ?_⟩
      simp [memberIndex, hk, hidx]

theorem set_length_append (front back : List (Str × Value)) (x y : Str × Value) :
    (front ++ x :: back).set front.length y = front ++ y :: back := by
  induction front with
  | nil => rfl
  | cons m front ih => simp [ih]

theorem removeMember_last (front : List (Str × Value)) (name : Str) (c : Value)
    (hidx : memberIndex (front ++ [(name, c)]) name = some front.length) :
    Value.RemoveMember (.obj (front ++ [(name, c)])) name = .ok (true, .obj front) := by
  simp [Value.RemoveMember, hidx]

theorem removeMember_inner (front back : List (Str × Value)) (name : Str) (c : Value)
    (l : Str × Value)
    (hidx : memberIndex (front ++ (name, c) :: (back ++ [l])) name = some front.length) :
    Value.RemoveMember (.obj (front ++ (name, c) :: (back ++ [l]))) name
      = .ok (true, .obj (front ++ l :: back)) := by
  have hlen : ¬ (front.length + 1 = (front ++ (name, c) :: (back ++ [l])).length) := by
    simp
  have hlast : (front ++ (name, c) :: (back ++ [l])).getLast? = some l := by
    rw [show front ++ (name, c) :: (back ++ [l]) = (front ++ (name, c) :: back) ++ [l] by simp]
    exact List.getLast?_concat _
  have hdrop : (front ++ l :: (back ++ [l])).dropLast = front ++ l :: back := by
    rw [show front ++ l :: (back ++ [l]) = (front ++ l :: back) ++ [l] by simp]
    exact List.dropLast_concat
  simp only [Value.RemoveMember, hidx, hlen, if_false, hlast, set_length_append, hdrop]

theorem removeMember_spec (ms : List (Str × Value)) (name : Str) (c : Value)
    (hnodup : (ms.map Prod.fst).Nodup) (h : findMember ms name = some c) :
    ∃ rest, Value.RemoveMember (.obj ms) name = .ok (true, .obj rest) ∧
      (∀ k, findMember rest k = if k = name then none else findMember ms k) ∧
      rest.length + 1 = ms.length := by
  obtain ⟨front, back, hms, hfr, hidx⟩ := memberIndex_spec ms name c h
  subst hms
  rcases List.eq_nil_or_concat back with hb | ⟨back', l, hb⟩
  · subst hb
    refine ⟨front, removeMember_last front name c hidx, ?_, by simp⟩
    intro k
    by_cases hk : k = name
    · subst hk
      simp [hfr]
    · rw [findMember_append]
      cases hfk : findMember front k <;> simp [hk, findMember, Ne.symm hk]
  · rw [List.concat_eq_append] at hb
    subst hb
    obtain ⟨lk, lv⟩ := l
    refine ⟨front ++ (lk, lv) :: back', removeMember_inner front back' name c (lk, lv) hidx,
      ?_, by simp only [List.length_append, List.length_cons, List.length_nil]; omega⟩
    simp only [List.map_append, List.map_cons, List.map_nil, List.nodup_append,
      List.nodup_cons, List.mem_append, List.mem_cons, List.mem_singleton, not_or,
      List.disjoint_cons_right, List.disjoint_append_right] at hnodup
    obtain ⟨_, ⟨⟨hnb, hnl, _⟩, _, _, hlb, _⟩, _⟩ := hnodup
    have hbn : findMember back' name = none := findMember_none_of_not_mem back' name hnb
    intro k
    rw [findMember_append, findMember_append]
    by_cases hk : k = name
    · subst hk
      simp [hfr, findMember, Ne.symm hnl, hbn]
    · cases hfk : findMember front k with
      | some v => simp [hk]
      | none =>
        simp only [hk, if_false, findMember, Ne.symm hk]
        rw [findMember_append]
        by_cases hlk : lk = k
        · subst hlk
          simp [findMember_none_of_not_mem back' lk hlb, findMember]
        · cases hbk : findMember back' k <;> simp [hlk, findMember]

theorem process_terminal_REMOVE (cSep : Char) (ms : List (Str × Value)) (T : CType)
    (strNode name : Str) (c : Value) (b : Bool) (removed : Value)
    (hsp : split cSep strNode = .ok (name, [], IS_OBJECT)) (hne : name ≠ [])
    (hf : findMember ms (cstr name) = some c)
    (hr : Value.RemoveMember (.obj ms) name = .ok (b, removed)) :
    process cSep (.obj ms) T strNode .REMOVE
      = .ok (if b then 0 else -1, .untouched, removed) := by
  rw [process_unfold]
  simp only [processStep, hsp, result_bind_ok, isEmpty_false_of_ne_nil name hne,
    ne_nil_of_findMember ms _ _ hf, Value.ObjectEmpty, Value.IsNull, Value.HasMember,
    hf, hr, result_pure, List.isEmpty_nil, if_true, if_false, Bool.or_false,
    Option.isSome_some, Bool.false_eq_true]

theorem append_singleton_shape (ks : List Str) (name : Str) :
    ∃ t r, ks ++ [name] = t :: r := by
  cases ks with
  | nil => exact ⟨_, _, rfl⟩
  | cons k ks => exact ⟨_, _, rfl⟩

theorem process_REMOVE_path (cSep : Char) (T : CType) (name : Str)
    (ms rest : List (Str × Value)) (c : Value)
    (hmember : findMember ms name = some c)
    (hrem : Value.RemoveMember (.obj ms) name = .ok (true, .obj rest))
    (pre : List Str) (root : Value)
    (hn : ∀ k ∈ pre ++ [name], PlainName cSep k ∧ NUL ∉ k)
    (hres : resolve root (pre.map fun k => (k, none)) = some (.obj ms)) :
    process cSep root T (plainPath cSep (pre ++ [name])) .REMOVE
      = .ok (0, .untouched, replaceAt root pre (.obj rest)) := by
  induction pre generalizing root with
  | nil =>
    have hname := hn name (by simp)
    have hroot : root = .obj ms := by simpa [resolve] using hres
    subst hroot
    have hc : cstr name = name := cstr_of_not_mem name hname.2
    rw [List.nil_append, plainPath_single,
      process_terminal_REMOVE cSep ms T name name c true (.obj rest)
        (split_plain cSep name hname.1) hname.1.1 (by rw [hc]; exact hmember) hrem]
    rfl
  | cons k ks ih =>
    have hk := hn k (by simp)
    have hc : cstr k = k := cstr_of_not_mem k hk.2
    have hn2 : ∀ x ∈ ks ++ [name], PlainName cSep x ∧ NUL ∉ x :=
      fun x hx => hn x (by rw [List.cons_append]; exact List.mem_cons_of_mem _ hx)
    simp only [List.map_cons] at hres
    obtain ⟨ms0, hj⟩ := resolve_obj root _ _ _ hres
    subst hj
    obtain ⟨child, hf, hr⟩ := resolve_plain ms0 k _ _ hres
    obtain ⟨t, r, hshape⟩ := append_singleton_shape ks name
    have ht : t ≠ [] := (hn2 t (by rw [hshape]; exact List.mem_cons_self _ _)).1.1
    have hch : plainPath cSep (ks ++ [name]) ≠ [] := by
      rw [hshape]
      exact plainPath_ne_nil cSep t r ht
    have hsp : split cSep (plainPath cSep (k :: ks ++ [name]))
        = .ok (k, plainPath cSep (ks ++ [name]), IS_OBJECT) := by
      rw [List.cons_append, hshape, plainPath_cons_cons]
      exact split_plain_cons cSep k _ hk.1
    rw [process_descend_plain cSep ms0 T _ k _ .REMOVE child hsp hk.1.1 hch
      (by rw [hc]; exact hf), ih child hn2 hr]
    simp only [result_bind_ok, hc, replaceAt, hf]

theorem replaceAt_nil (root x : Value) : replaceAt root [] x = x := by
  cases root <;> simp [replaceAt]

theorem missing_obj (cSep : Char) (j : Value) (strNode : Str)
    (h : MissingMember cSep j strNode) : ∃ ms, j = .obj ms := by
  cases h with
  | here ms => exact ⟨ms, rfl⟩
  | plain ms => exact ⟨ms, rfl⟩
  | item ms => exact ⟨ms, rfl⟩

theorem missing_after_replace (cSep : Char) (name : Str) (ms rest : List (Str × Value))
    (habsent : findMember rest name = none)
    (pre : List Str) (root : Value)
    (hn : ∀ k ∈ pre ++ [name], PlainName cSep k ∧ NUL ∉ k)
    (hres : resolve root (pre.map fun k => (k, none)) = some (.obj ms)) :
    MissingMember cSep (replaceAt root pre (.obj rest)) (plainPath cSep (pre ++ [name])) := by
  induction pre generalizing root with
  | nil =>
    have hname := hn name (by simp)
    have hc : cstr name = name := cstr_of_not_mem name hname.2
    rw [List.nil_append, plainPath_single, replaceAt_nil]
    exact MissingMember.here rest name name [] IS_OBJECT (split_plain cSep name hname.1)
      (by rw [hc]; exact habsent)
  | cons k ks ih =>
    have hk := hn k (by simp)
    have hc : cstr k = k := cstr_of_not_mem k hk.2
    have hn2 : ∀ x ∈ ks ++ [name], PlainName cSep x ∧ NUL ∉ x :=
      fun x hx => hn x (by rw [List.cons_append]; exact List.mem_cons_of_mem _ hx)
    simp only [List.map_cons] at hres
    obtain ⟨ms0, hj⟩ := resolve_obj root _ _ _ hres
    subst hj
    obtain ⟨child, hf, hr⟩ := resolve_plain ms0 k _ _ hres
    obtain ⟨t, r, hshape⟩ := append_singleton_shape ks name
    have ht : t ≠ [] := (hn2 t (by rw [hshape]; exact List.mem_cons_self _ _)).1.1
    have hch : plainPath cSep (ks ++ [name]) ≠ [] := by
      rw [hshape]
      exact plainPath_ne_nil cSep t r ht
    have hsp : split cSep (plainPath cSep (k :: ks ++ [name]))
        = .ok (k, plainPath cSep (ks ++ [name]), IS_OBJECT) := by
      rw [List.cons_append, hshape, plainPath_cons_cons]
      exact split_plain_cons cSep k _ hk.1
    have hnext := ih child hn2 hr
    obtain ⟨inner, hin⟩ := missing_obj cSep _ _ hnext
    rw [hin] at hnext
    have hrep : replaceAt (.obj ms0) (k :: ks) (.obj rest)
        = .obj (updMember ms0 k (.obj inner)) := by
      simp only [replaceAt, hf, hin]
    rw [hrep]
    exact MissingMember.plain _ inner _ k _ hsp hch
      (by rw [hc]; exact findMember_updMember ms0 k _ child hf) hnext

/-- C19 (counterexample): in an object with two members named a, remove of "a" returns 0
and exist of "a" is still true; in an object with two members named b, remove of "x" moves
the second b in front of the first, so the path "b" reads 2 where it read 1; and with the
name a NUL b, the member of that name is removed and exist of the same path is still true,
because the lookup stops at the NUL. -/
theorem C19_counterexample :
    remove '.' (.obj [("a".toList, .int 1), ("a".toList, .int 2)]) "a".toList
      = .ok (0, .obj [("a".toList, .int 2)]) ∧
    exist '.' (.obj [("a".toList, .int 2)]) "a".toList = .ok true ∧
    get '.' (.obj [("x".toList, .int 0), ("b".toList, .int 1), ("b".toList, .int 2)])
      (.integer .int) "b".toList = .ok (0, .value (.integer .int 1)) ∧
    remove '.' (.obj [("x".toList, .int 0), ("b".toList, .int 1), ("b".toList, .int 2)])
      "x".toList = .ok (0, .obj [("b".toList, .int 2), ("b".toList, .int 1)]) ∧
    get '.' (.obj [("b".toList, .int 2), ("b".toList, .int 1)])
      (.integer .int) "b".toList = .ok (0, .value (.integer .int 2)) ∧
    resolve (.obj [("a".toList, .int 1), (['a', NUL, 'b'], .int 2)])
      [(['a', NUL, 'b'], none)] = some (.int 2) ∧
    remove '.' (.obj [("a".toList, .int 1), (['a', NUL, 'b'], .int 2)]) ['a', NUL, 'b']
      = .ok (0, .obj [("a".toList, .int 1)]) ∧
    exist '.' (.obj [("a".toList, .int 1)]) ['a', NUL, 'b'] = .ok true := by
  decide

/-- C19 (amended): for every document and every path of plain names free of NUL whose
parent object has pairwise distinct member names and holds the terminal member, remove
returns 0 and the document afterwards is the old one with the parent replaced by an object
that has one member less, in which the removed name is absent and every other name holds
the same value as before; exist of the same path is false afterwards. -/
theorem C19_remove_one_member (cSep : Char) (root : Value) (pre : List Str) (name : Str)
    (ms : List (Str × Value)) (c : Value)
    (hn : ∀ k ∈ pre ++ [name], PlainName cSep k ∧ NUL ∉ k)
    (hparent : resolve root (pre.map fun k => (k, none)) = some (.obj ms))
    (hnodup : (ms.map Prod.fst).Nodup)
    (hmember : findMember ms name = some c) :
    ∃ rest,
      remove cSep root (plainPath cSep (pre ++ [name]))
        = .ok (0, replaceAt root pre (.obj rest)) ∧
      (∀ k, findMember rest k = if k = name then none else findMember ms k) ∧
      rest.length + 1 = ms.length ∧
      exist cSep (replaceAt root pre (.obj rest)) (plainPath cSep (pre ++ [name]))
        = .ok false := by
  obtain ⟨rest, hrem, hlook, hlen⟩ := removeMember_spec ms name c hnodup hmember
  have habsent : findMember rest name = none := by
    rw [hlook name]
    simp
  refine ⟨rest, ?_, hlook, hlen, ?_⟩
  · simp only [remove, process_REMOVE_path cSep (.integer .int) name ms rest c hmember hrem
      pre root hn hparent, result_bind_ok, result_pure]
  · simp only [exist, process_missing_same cSep _ _
      (missing_after_replace cSep name ms rest habsent pre root hn hparent) (.integer .int)
      .EXIST, result_bind_ok, result_pure]
    rfl

/-- C19 at the path "a.x" of a document whose object a has the members x, y and z. -/
theorem C19_remove_one_member_witness :
    ∃ rest,
      remove '.' (.obj [("a".toList, .obj [("x".toList, .int 1), ("y".toList, .int 2),
          ("z".toList, .int 3)]), ("k".toList, .int 0)])
          (plainPath '.' (["a".toList] ++ ["x".toList]))
        = .ok (0, replaceAt (.obj [("a".toList, .obj [("x".toList, .int 1),
            ("y".toList, .int 2), ("z".toList, .int 3)]), ("k".toList, .int 0)])
            ["a".toList] (.obj rest)) ∧
      (∀ k, findMember rest k = if k = "x".toList then none
        else findMember [("x".toList, .int 1), ("y".toList, .int 2), ("z".toList, .int 3)] k) ∧
      rest.length + 1
        = [("x".toList, Value.int 1), ("y".toList, .int 2), ("z".toList, .int 3)].length ∧
      exist '.' (replaceAt (.obj [("a".toList, .obj [("x".toList, .int 1),
            ("y".toList, .int 2), ("z".toList, .int 3)]), ("k".toList, .int 0)])
            ["a".toList] (.obj rest))
          (plainPath '.' (["a".toList] ++ ["x".toList])) = .ok false :=
  C19_remove_one_member '.'
    (.obj [("a".toList, .obj [("x".toList, .int 1), ("y".toList, .int 2),
      ("z".toList, .int 3)]), ("k".toList, .int 0)])
    ["a".toList] "x".toList
    [("x".toList, .int 1), ("y".toList, .int 2), ("z".toList, .int 3)] (.int 1)
    (by decide) (by decide) (by decide) (by decide)

/-! ## A path whose head segment has an empty name (C21) -/

theorem set_empty_name (cSep : Char) (j : Value) (v : TValue) (strNode children : Str)
    (i : Nat) (hsp : split cSep strNode = .ok ([], children, i)) :
    set cSep j v strNode = .ok (-1, j) := by
  rw [set_unfold]
  simp only [setStep, hsp, result_bind_ok, List.isEmpty_nil, if_true, result_pure]

/-- C21: for every document and every path whose head segment has an empty name (split
gives the empty node name), set with every scalar and remove return the nonzero status -1
and leave the document unchanged, get with every requested type returns -1 and assigns
nothing, and exist returns false. -/
theorem C21_empty_head_segment (cSep : Char) (doc : Value) (strNode children : Str) (i : Nat)
    (hsp : split cSep strNode = .ok ([], children, i)) (v : TValue) (T : CType) :
    set cSep doc v strNode = .ok (-1, doc) ∧
    get cSep doc T strNode = .ok (-1, .untouched) ∧
    remove cSep doc strNode = .ok (-1, doc) ∧
    exist cSep doc strNode = .ok false := by
  refine ⟨set_empty_name cSep doc v strNode children i hsp, ?_, ?_, ?_⟩
  · simp only [get, process_empty_name cSep doc T strNode children i .GET hsp,
      result_bind_ok, result_pure]
  · simp only [remove, process_empty_name cSep doc (.integer .int) strNode children i
      .REMOVE hsp, result_bind_ok, result_pure]
  · simp only [exist, process_empty_name cSep doc (.integer .int) strNode children i
      .EXIST hsp, result_bind_ok, result_pure]
    rfl

/-- C21 at the empty path and at the path ".b", on the document that holds a = 1. -/
theorem C21_empty_head_segment_witness :
    (set '.' (.obj [("a".toList, .int 1)]) (.integer .int 7) []
        = .ok (-1, .obj [("a".toList, .int 1)]) ∧
      get '.' (.obj [("a".toList, .int 1)]) (.integer .int) [] = .ok (-1, .untouched) ∧
      remove '.' (.obj [("a".toList, .int 1)]) [] = .ok (-1, .obj [("a".toList, .int 1)]) ∧
      exist '.' (.obj [("a".toList, .int 1)]) [] = .ok false) ∧
    (set '.' (.obj [("a".toList, .int 1)]) (.integer .int 7) ".b".toList
        = .ok (-1, .obj [("a".toList, .int 1)]) ∧
      get '.' (.obj [("a".toList, .int 1)]) (.integer .int) ".b".toList
        = .ok (-1, .untouched) ∧
      remove '.' (.obj [("a".toList, .int 1)]) ".b".toList
        = .ok (-1, .obj [("a".toList, .int 1)]) ∧
      exist '.' (.obj [("a".toList, .int 1)]) ".b".toList = .ok false) :=
  ⟨C21_empty_head_segment '.' _ [] [] IS_OBJECT (by decide) _ _,
    C21_empty_head_segment '.' _ ".b".toList "b".toList IS_OBJECT (by decide) _ _⟩

/-! ## The queries along a path that resolves -/

theorem getType_terminal_item (cSep : Char) (ms : List (Str × Value))
    (strNode name : Str) (i : Nat) (xs : List Value) (e0 : Value)
    (hsp : split cSep strNode = .ok (name, [], i)) (hi : i ≠ IS_OBJECT) (hne : name ≠ [])
    (hf : findMember ms (cstr name) = some (.arr xs)) (h32 : i < 4294967296)
    (he : xs.get? i = some e0) :
    getType cSep (.obj ms) strNode = .ok (type e0) := by
  rw [getType_unfold]
  unfold processTypeStep
  rw [hsp]
  simp only [result_bind_ok, List.isEmpty_nil, if_true]
  rw [process_terminal_EXIST cSep ms (.integer .int) strNode name i _ hsp hne hf]
  simp only [result_bind_ok]
  simp only [Value.member, hf, result_pure, result_bind_ok, if_true, hi, if_false,
    Value.elem, toSizeType_of_lt i h32, he]

theorem getType_descend_item (cSep : Char) (ms : List (Str × Value))
    (strNode name children : Str) (i : Nat) (xs : List Value) (e0 after : Value)
    (hsp : split cSep strNode = .ok (name, children, i)) (hi : i ≠ IS_OBJECT)
    (hne : name ≠ []) (hc : children ≠ [])
    (hf : findMember ms (cstr name) = some (.arr xs)) (h32 : i < 4294967296)
    (he : xs.get? i = some e0)
    (hex : process cSep (.obj ms) (.integer .int) strNode .EXIST = .ok (0, .untouched, after)) :
    getType cSep (.obj ms) strNode = getType cSep e0 children := by
  rw [getType_unfold]
  unfold processTypeStep
  rw [hsp]
  simp only [result_bind_ok, isEmpty_false_of_ne_nil name hne,
    isEmpty_false_of_ne_nil children hc, if_false, Bool.false_eq_true, Bool.not_false,
    if_true]
  rw [hex]
  simp only [result_bind_ok]
  simp only [Value.member, hf, result_pure, result_bind_ok, if_true, hi, if_false,
    Value.elem, toSizeType_of_lt i h32, he]

theorem split_segText (cSep : Char) (hs : PlainSep cSep) (name : Str) (index : Option Nat)
    (h : ValidSegment cSep (name, index)) :
    split cSep (segText (name, index)) = .ok (name, [], index.getD IS_OBJECT) :=
  split_pathText cSep hs name index [] h

/-- The member the last segment names in the object that holds it. -/
theorem resolve_single (ms : List (Str × Value)) (name : Str) (index : Option Nat)
    (c : Value) (h : resolve (.obj ms) [(name, index)] = some c) :
    ∃ m, findMember ms name = some m ∧
      ((index = none ∧ m = c) ∨
        ∃ i xs, index = some i ∧ m = .arr xs ∧ xs.get? i = some c) := by
  cases index with
  | none =>
    obtain ⟨child, hf, hr⟩ := resolve_plain ms name [] c h
    have hcc : child = c := by simpa [resolve] using hr
    exact ⟨child, hf, Or.inl ⟨rfl, hcc⟩⟩
  | some i =>
    obtain ⟨xs, item, hf, hg, hr⟩ := resolve_item ms name i [] c h
    have hcc : item = c := by simpa [resolve] using hr
    subst hcc
    exact ⟨_, hf, Or.inr ⟨i, xs, rfl, rfl, hg⟩⟩

theorem process_EXIST_single (cSep : Char) (hs : PlainSep cSep) (ms : List (Str × Value))
    (name : Str) (index : Option Nat) (c : Value) (hv : ValidSegment cSep (name, index))
    (h : resolve (.obj ms) [(name, index)] = some c) (T : CType) :
    process cSep (.obj ms) T (segText (name, index)) .EXIST = .ok (0, .untouched, .obj ms) := by
  obtain ⟨hpn, hnul⟩ := validSegment_name cSep name index hv
  obtain ⟨m, hf, _⟩ := resolve_single ms name index c h
  exact process_terminal_EXIST cSep ms T _ name _ m (split_segText cSep hs name index hv)
    hpn.1 (by rw [cstr_of_not_mem name hnul]; exact hf)

/-- The walk to the object that holds the last segment: along a valid path that resolves,
process, getType and size give what they give for the last segment on that object. -/
theorem resolve_parent (cSep : Char) (hs : PlainSep cSep) (segs : List Segment)
    (hne : segs ≠ []) (hval : ∀ s ∈ segs, ValidSegment cSep s) (root c : Value)
    (hres : resolve root segs = some c) :
    ∃ ms name index, ValidSegment cSep (name, index) ∧
      resolve (.obj ms) [(name, index)] = some c ∧
      (index = none ↔ terminalPlain segs = true) ∧
      (∃ wrap : Value → Value, ∀ T eType,
        process cSep root T (pathText cSep segs) eType
          = (process cSep (.obj ms) T (segText (name, index)) eType >>= fun r =>
              Result.ok (r.1, r.2.1, wrap r.2.2))) ∧
      getType cSep root (pathText cSep segs) = getType cSep (.obj ms) (segText (name, index)) ∧
      size cSep root (pathText cSep segs) = size cSep (.obj ms) (segText (name, index)) := by
  induction segs generalizing root with
  | nil => exact absurd rfl hne
  | cons s rest ih =>
    obtain ⟨name, index⟩ := s
    have hs0 := hval (name, index) (List.mem_cons_self _ _)
    obtain ⟨hpn, hnul⟩ := validSegment_name cSep name index hs0
    have hc : cstr name = name := cstr_of_not_mem name hnul
    have hsp := split_pathText cSep hs name index rest hs0
    obtain ⟨ms, hj⟩ := resolve_obj root _ _ c hres
    subst hj
    cases rest with
    | nil =>
      refine ⟨ms, name, index, hs0, hres, ?_, ⟨id, ?_⟩, rfl, rfl⟩
      · cases index <;> simp [terminalPlain]
      · intro T eType
        have hp : pathText cSep [(name, index)] = segText (name, index) := rfl
        rw [hp]
        cases process cSep (.obj ms) T (segText (name, index)) eType with
        | fault e => rfl
        | ok r => rfl
    | cons t rest =>
      have ht := hval t (by simp)
      have hch : pathText cSep (t :: rest) ≠ [] := pathText_ne_nil cSep t rest ht
      have hv2 : ∀ s ∈ t :: rest, ValidSegment cSep s :=
        fun x hx => hval x (List.mem_cons_of_mem _ hx)
      cases index with
      | none =>
        obtain ⟨child, hf, hr⟩ := resolve_plain ms name _ c hres
        obtain ⟨pm, pn, pi, hpv, hpr, hpt, ⟨wrap, hproc⟩, hty, hsz⟩ := ih (by simp) hv2 child hr
        obtain ⟨inner, hin⟩ := resolve_obj child _ _ c hr
        simp only [Option.getD_none] at hsp
        rw [← hc] at hf
        have hdesc : ∀ T eType, process cSep (.obj ms) T
            (pathText cSep ((name, none) :: t :: rest)) eType
              = (process cSep (.obj pm) T (segText (pn, pi)) eType >>= fun r =>
                  Result.ok (r.1, r.2.1,
                    Value.obj (updMember ms (cstr name) (wrap r.2.2)))) := by
          intro T eType
          rw [process_descend_plain cSep ms T _ name _ eType child hsp hpn.1 hch hf,
            hproc T eType]
          cases process cSep (.obj pm) T (segText (pn, pi)) eType with
          | fault e => rfl
          | ok r => rfl
        have hex := hdesc (.integer .int) .EXIST
        rw [process_EXIST_single cSep hs pm pn pi c hpv hpr] at hex
        refine ⟨pm, pn, pi, hpv, hpr, hpt,
          ⟨fun x => Value.obj (updMember ms (cstr name) (wrap x)), hdesc⟩, ?_, ?_⟩
        · rw [getType_descend_plain cSep ms _ name _ child _ hsp hpn.1 hch hf hex, hty]
        · rw [size_descend_plain cSep ms _ name _ _ child hsp hch hf
            (by rw [hin]; rfl), hsz]
      | some i =>
        have h32 : i < 4294967296 := hs0.2.2
        have hi : i ≠ IS_OBJECT := Nat.ne_of_lt (Nat.lt_trans h32 (by decide))
        obtain ⟨xs, item, hf, hg, hr⟩ := resolve_item ms name i _ c hres
        obtain ⟨pm, pn, pi, hpv, hpr, hpt, ⟨wrap, hproc⟩, hty, hsz⟩ := ih (by simp) hv2 item hr
        simp only [Option.getD_some] at hsp
        rw [← hc] at hf
        have hdesc : ∀ T eType, process cSep (.obj ms) T
            (pathText cSep ((name, some i) :: t :: rest)) eType
              = (process cSep (.obj pm) T (segText (pn, pi)) eType >>= fun r =>
                  Result.ok (r.1, r.2.1,
                    Value.obj (updMember ms (cstr name) (.arr (xs.set i (wrap r.2.2)))))) := by
          intro T eType
          rw [process_descend_item cSep ms T _ name _ i eType xs item hsp hi hpn.1 hch hf
            h32 hg, hproc T eType]
          cases process cSep (.obj pm) T (segText (pn, pi)) eType with
          | fault e => rfl
          | ok r => rfl
        have hex := hdesc (.integer .int) .EXIST
        rw [process_EXIST_single cSep hs pm pn pi c hpv hpr] at hex
        refine ⟨pm, pn, pi, hpv, hpr, hpt,
          ⟨fun x => Value.obj (updMember ms (cstr name) (.arr (xs.set i (wrap x)))), hdesc⟩,
          ?_, ?_⟩
        · rw [getType_descend_item cSep ms _ name _ i xs item _ hsp hi hpn.1 hch hf h32 hg
            hex, hty]
        · rw [size_descend_item cSep ms _ name _ i xs item hsp hch hf h32 hg, hsz]

theorem exist_resolve (cSep : Char) (hs : PlainSep cSep) (segs : List Segment)
    (hne : segs ≠ []) (hval : ∀ s ∈ segs, ValidSegment cSep s) (root c : Value)
    (hres : resolve root segs = some c) :
    exist cSep root (pathText cSep segs) = .ok true := by
  obtain ⟨pm, pn, pi, hpv, hpr, _, ⟨wrap, hproc⟩, _, _⟩ :=
    resolve_parent cSep hs segs hne hval root c hres
  simp only [exist, hproc, process_EXIST_single cSep hs pm pn pi c hpv hpr, result_bind_ok,
    result_pure]
  rfl

theorem empty_resolve (cSep : Char) (hs : PlainSep cSep) (segs : List Segment)
    (hne : segs ≠ []) (hval : ∀ s ∈ segs, ValidSegment cSep s) (root c : Value)
    (hres : resolve root segs = some c) :
    empty cSep root (pathText cSep segs) = .ok (terminalPlain segs && c.IsNull) := by
  obtain ⟨pm, pn, pi, hpv, hpr, hpt, ⟨wrap, hproc⟩, _, _⟩ :=
    resolve_parent cSep hs segs hne hval root c hres
  obtain ⟨hpn, hnul⟩ := validSegment_name cSep pn pi hpv
  obtain ⟨m, hf, hm⟩ := resolve_single pm pn pi c hpr
  rw [← cstr_of_not_mem pn hnul] at hf
  simp only [empty, hproc, process_terminal_EMPTY cSep pm (.integer .int) _ pn _ m
    (split_segText cSep hs pn pi hpv) hpn.1 hf, result_bind_ok, result_pure]
  rcases hm with ⟨hi, hmc⟩ | ⟨i, xs, hi, hmx, _⟩
  · subst hmc
    rw [hpt.1 hi]
    cases m.IsNull <;> rfl
  · subst hmx
    have hfalse : terminalPlain segs = false := by
      cases htp : terminalPlain segs with
      | false => rfl
      | true =>
        have := hpt.2 htp
        rw [hi] at this
        cases this
    rw [hfalse]
    rfl

theorem getType_resolve (cSep : Char) (hs : PlainSep cSep) (segs : List Segment)
    (hne : segs ≠ []) (hval : ∀ s ∈ segs, ValidSegment cSep s) (root c : Value)
    (hres : resolve root segs = some c) :
    getType cSep root (pathText cSep segs) = .ok (type c) := by
  obtain ⟨pm, pn, pi, hpv, hpr, _, _, hty, _⟩ :=
    resolve_parent cSep hs segs hne hval root c hres
  obtain ⟨hpn, hnul⟩ := validSegment_name cSep pn pi hpv
  obtain ⟨m, hf, hm⟩ := resolve_single pm pn pi c hpr
  rw [← cstr_of_not_mem pn hnul] at hf
  have hsp := split_segText cSep hs pn pi hpv
  rw [hty]
  rcases hm with ⟨hi, hmc⟩ | ⟨i, xs, hi, hmx, hg⟩
  · subst hmc
    subst hi
    exact getType_terminal_plain cSep pm _ pn m hsp hpn.1 hf
  · subst hmx
    subst hi
    have h32 : i < 4294967296 := hpv.2.2
    exact getType_terminal_item cSep pm _ pn i xs c hsp
      (Nat.ne_of_lt (Nat.lt_trans h32 (by decide))) hpn.1 hf h32 hg

theorem get_resolve (cSep : Char) (hs : PlainSep cSep) (segs : List Segment)
    (hne : segs ≠ []) (hval : ∀ s ∈ segs, ValidSegment cSep s) (root c : Value)
    (hres : resolve root segs = some c) (T : CType)
    (hca : c.IsArray = false) (hco : c.IsObject = false) :
    get cSep root T (pathText cSep segs) = .ok (element c T) := by
  obtain ⟨pm, pn, pi, hpv, hpr, _, ⟨wrap, hproc⟩, _, _⟩ :=
    resolve_parent cSep hs segs hne hval root c hres
  obtain ⟨hpn, hnul⟩ := validSegment_name cSep pn pi hpv
  obtain ⟨m, hf, hm⟩ := resolve_single pm pn pi c hpr
  rw [← cstr_of_not_mem pn hnul] at hf
  have hsp := split_segText cSep hs pn pi hpv
  rw [get_eq_process, hproc, process_terminal_GET cSep pm T _ pn _ m hsp hpn.1 hf]
  rcases hm with ⟨hi, hmc⟩ | ⟨i, xs, hi, hmx, hg⟩
  · subst hmc
    subst hi
    cases m with
    | arr xs => cases hca
    | obj ms => cases hco
    | _ => rfl
  · subst hmx
    subst hi
    have h32 : i < 4294967296 := hpv.2.2
    simp only [Option.getD_some, getElement_arr_lt T xs i c h32 hg, result_bind_ok]

/-! ## The node check, case by case -/

theorem checkNode_eq (cSep : Char) (cfg : stNodeConfig) (doc : Value) (strNode : Str)
    (vec : CheckRet) :
    checkNode cSep cfg doc strNode vec
      = checkStep cSep cfg.bOptional cfg.bNull cfg.bEmpty cfg.eType cfg.callback
          (cfg.mapNodeItems.map fun items d strPath iRet v =>
            checkNodeItems cSep items d strPath iRet v) doc strNode vec := by
  obtain ⟨o, n, e, t, cb, items⟩ := cfg
  cases items <;> simp only [checkNode] <;> rfl

theorem checkStep_missing (cSep : Char) (o n e : Bool) (t : TYPE) (cb : Option tCallback)
    (items : Option tCheckItems) (doc : Value) (strNode : Str) (vec : CheckRet)
    (hex : exist cSep doc strNode = .ok false) :
    checkStep cSep o n e t cb items doc strNode vec
      = .ok (if o then (0, doc, vec) else (-1, doc, vec ++ [(strNode, .MISSING_NODE)])) := by
  simp only [checkStep, hex, result_bind_ok, Bool.false_eq_true, if_false, result_pure]
  cases o <;> rfl

theorem checkStep_null (cSep : Char) (o n e : Bool) (t : TYPE) (cb : Option tCallback)
    (items : Option tCheckItems) (doc : Value) (strNode : Str) (vec : CheckRet)
    (hex : exist cSep doc strNode = .ok true) (hem : empty cSep doc strNode = .ok true) :
    checkStep cSep o n e t cb items doc strNode vec
      = .ok (if n then (0, doc, vec) else (-1, doc, vec ++ [(strNode, .UNABLE_TO_GET)])) := by
  simp only [checkStep, hex, hem, result_bind_ok, if_true, Bool.not_true, Bool.false_eq_true,
    if_false, result_pure]
  cases n <;> rfl

theorem checkStep_bad_format (cSep : Char) (o n e : Bool) (t : TYPE)
    (cb : Option tCallback) (items : Option tCheckItems) (doc : Value) (strNode : Str)
    (vec : CheckRet) (eNode : TYPE)
    (hex : exist cSep doc strNode = .ok true) (hem : empty cSep doc strNode = .ok false)
    (hty : getType cSep doc strNode = .ok eNode) (hmask : eNode &&& t = 0) :
    checkStep cSep o n e t cb items doc strNode vec
      = .ok (-1, doc, vec ++ [(strNode, .BAD_FORMAT)]) := by
  simp only [checkStep, checkTyped, hex, hem, hty, hmask, result_bind_ok, if_true,
    Bool.not_false, result_pure]
  cases cb <;> rfl

theorem checkStep_other (cSep : Char) (o n e : Bool) (t : TYPE)
    (cb : Option tCallback) (items : Option tCheckItems) (doc : Value) (strNode : Str)
    (vec : CheckRet) (eNode : TYPE)
    (hex : exist cSep doc strNode = .ok true) (hem : empty cSep doc strNode = .ok false)
    (hty : getType cSep doc strNode = .ok eNode) (hmask : eNode &&& t ≠ 0)
    (hs : t ≠ TYPE.STRING) (ha : t ≠ TYPE.ARRAY) (ho : t ≠ TYPE.OBJECT) :
    checkStep cSep o n e t cb items doc strNode vec
      = match cb with
        | some f => f doc strNode vec
        | none => .ok (0, doc, vec) := by
  simp only [checkStep, checkTyped, hex, hem, hty, hmask, hs, ha, ho, result_bind_ok,
    if_true, if_false, Bool.not_false, result_pure]

theorem checkStep_string (cSep : Char) (o n e : Bool)
    (cb : Option tCallback) (items : Option tCheckItems) (doc : Value) (strNode : Str)
    (vec : CheckRet) (eNode : TYPE) (s : Str)
    (hex : exist cSep doc strNode = .ok true) (hem : empty cSep doc strNode = .ok false)
    (hty : getType cSep doc strNode = .ok eNode) (hmask : eNode &&& TYPE.STRING ≠ 0)
    (hget : get cSep doc .string strNode = .ok (0, .value (.string s))) :
    checkStep cSep o n e TYPE.STRING cb items doc strNode vec
      = if s.isEmpty && !e then .ok (-1, doc, vec ++ [(strNode, .BAD_VALUE)])
        else match cb with
          | some f => f doc strNode vec
          | none => .ok (0, doc, vec) := by
  simp only [checkStep, checkTyped, hex, hem, hty, hmask, hget, result_bind_ok, if_true,
    if_false, Bool.not_false, result_pure, decide_True, Bool.true_and]
  cases hse : (s.isEmpty && !e) <;> cases cb <;> simp [result_bind_ok]

theorem checkStep_array_empty (cSep : Char) (o n e : Bool)
    (cb : Option tCallback) (items : Option tCheckItems) (doc : Value) (strNode : Str)
    (vec : CheckRet) (eNode : TYPE)
    (hex : exist cSep doc strNode = .ok true) (hem : empty cSep doc strNode = .ok false)
    (hty : getType cSep doc strNode = .ok eNode) (hmask : eNode &&& TYPE.ARRAY ≠ 0)
    (hsz : size cSep doc strNode = .ok 0) :
    checkStep cSep o n e TYPE.ARRAY cb items doc strNode vec
      = if e then
          match cb with
          | some f => f doc strNode vec
          | none => .ok (0, doc, vec)
        else .ok (-1, doc, vec ++ [(strNode, .EMPTY_ARRAY)]) := by
  have h1 : TYPE.ARRAY ≠ TYPE.STRING := by decide
  simp only [checkStep, checkTyped, checkArrayItems, hex, hem, hty, hmask, hsz, h1,
    result_bind_ok, if_true, if_false, Bool.not_false, result_pure, decide_True,
    Bool.true_and]
  cases e <;> cases cb <;> cases items <;> simp [List.range_zero, List.foldlM] <;> rfl

/-! ## The rules of the node check (C26 to C30) -/

/-- C26: for every document, path and node config, vector on entry included: if exist of
the path is false, the node check appends exactly one error (path, MISSING_NODE) and
returns -1 when bOptional is false, and appends nothing and returns 0 when bOptional is
true.  The outcome is the same whatever callback and map of node items the config has, and
the document is unchanged: no child config is checked and the callback is not invoked. -/
theorem C26_missing_node_rule (cSep : Char) (cfg : stNodeConfig) (doc : Value)
    (strNode : Str) (vec : CheckRet) (hex : exist cSep doc strNode = .ok false) :
    checkNode cSep cfg doc strNode vec
      = .ok (if cfg.bOptional then (0, doc, vec)
          else (-1, doc, vec ++ [(strNode, .MISSING_NODE)])) := by
  rw [checkNode_eq]
  exact checkStep_missing cSep _ _ _ _ _ _ doc strNode vec hex

/-- C26 at the path "missing.node" against an object without the member missing, for a
mandatory config with a callback and a child config. -/
theorem C26_missing_node_rule_witness :
    checkNode '.'
        (.mk false false false TYPE.OBJECT
          (some fun d _ v => .ok (-1, d, v ++ [("called".toList, .OUT_OF_RANGE)]))
          (some [("x".toList, .mk false false false TYPE.INT none none)]))
        (.obj [("present".toList, .int 1)]) "missing.node".toList []
      = .ok (if (stNodeConfig.mk false false false TYPE.OBJECT
            (some fun d _ v => .ok (-1, d, v ++ [("called".toList, .OUT_OF_RANGE)]))
            (some [("x".toList, .mk false false false TYPE.INT none none)])).bOptional
          then (0, .obj [("present".toList, .int 1)], [])
          else (-1, .obj [("present".toList, .int 1)],
            [] ++ [("missing.node".toList, .MISSING_NODE)])) :=
  C26_missing_node_rule '.' _ _ "missing.node".toList [] (by decide)

/-- C27 (defect of the code): the path "arr[0]" exists and addresses Null, but empty looks
at the member arr, not at its element, so the node check goes on to the type test and
appends (path, BAD_FORMAT), when bNull is false (UNABLE_TO_GET is due) and when bNull is
true (nothing is due).  For the plain path "a" that addresses Null the rule holds. -/
theorem C27_null_element_gets_type_test :
    resolve (.obj [("arr".toList, .arr [.null])]) [("arr".toList, some 0)] = some .null ∧
    exist '.' (.obj [("arr".toList, .arr [.null])]) "arr[0]".toList = .ok true ∧
    empty '.' (.obj [("arr".toList, .arr [.null])]) "arr[0]".toList = .ok false ∧
    checkNode '.' (.mk false false false TYPE.INT none none)
        (.obj [("arr".toList, .arr [.null])]) "arr[0]".toList []
      = .ok (-1, .obj [("arr".toList, .arr [.null])], [("arr[0]".toList, .BAD_FORMAT)]) ∧
    checkNode '.' (.mk false true false TYPE.INT none none)
        (.obj [("arr".toList, .arr [.null])]) "arr[0]".toList []
      = .ok (-1, .obj [("arr".toList, .arr [.null])], [("arr[0]".toList, .BAD_FORMAT)]) ∧
    checkNode '.' (.mk false false false TYPE.INT none none)
        (.obj [("a".toList, .null)]) "a".toList []
      = .ok (-1, .obj [("a".toList, .null)], [("a".toList, .UNABLE_TO_GET)]) ∧
    checkNode '.' (.mk false true false TYPE.INT none none)
        (.obj [("a".toList, .null)]) "a".toList []
      = .ok (0, .obj [("a".toList, .null)], []) := by
  refine ⟨by decide, by decide, by decide, by decide, by decide, by decide, by decide⟩

/-- C28: for every document, path and node config, vector on entry included: if exist of
the path is true, empty of the path is false and the type mask getType gives has no bit in
common with eType, the node check appends exactly one error (path, BAD_FORMAT) and returns
-1.  The outcome is the same whatever bEmpty, callback and map of node items the config
has, and the document is unchanged: there is no emptiness check, no child config is
checked and the callback is not invoked. -/
theorem C28_type_mismatch_rule (cSep : Char) (cfg : stNodeConfig) (doc : Value)
    (strNode : Str) (vec : CheckRet) (eNode : TYPE)
    (hex : exist cSep doc strNode = .ok true) (hem : empty cSep doc strNode = .ok false)
    (hty : getType cSep doc strNode = .ok eNode) (hmask : eNode &&& cfg.eType = 0) :
    checkNode cSep cfg doc strNode vec
      = .ok (-1, doc, vec ++ [(strNode, .BAD_FORMAT)]) := by
  rw [checkNode_eq]
  exact checkStep_bad_format cSep _ _ _ _ _ _ doc strNode vec eNode hex hem hty hmask

/-- C28 at the path "items" that addresses a number, for a config that expects an ARRAY
and has a callback and a child config. -/
theorem C28_type_mismatch_rule_witness :
    checkNode '.'
        (.mk false false false TYPE.ARRAY
          (some fun d _ v => .ok (-1, d, v ++ [("called".toList, .OUT_OF_RANGE)]))
          (some [("x".toList, .mk false false false TYPE.INT none none)]))
        (.obj [("items".toList, .int 1)]) "items".toList []
      = .ok (-1, .obj [("items".toList, .int 1)], [] ++ [("items".toList, .BAD_FORMAT)]) :=
  C28_type_mismatch_rule '.' _ _ "items".toList [] TYPE.SINT32 (by decide) (by decide)
    (by decide) (by decide)

/-- C29 (counterexample): the member s is the string of the two characters NUL and x, which
is not empty; the node check with type STRING and bEmpty false appends (s, BAD_VALUE). -/
theorem C29_counterexample :
    resolve (.obj [("s".toList, .str [NUL, 'x'])]) [("s".toList, none)]
      = some (.str [NUL, 'x']) ∧
    checkNode '.' (.mk false false false TYPE.STRING none none)
        (.obj [("s".toList, .str [NUL, 'x'])]) "s".toList []
      = .ok (-1, .obj [("s".toList, .str [NUL, 'x'])], [("s".toList, .BAD_VALUE)]) := by
  decide

/-- C29 (amended): for every document in which a valid path addresses a String and every
config without callback whose type is STRING, the node check appends exactly
(path, BAD_VALUE) and returns -1 if the string is empty up to its first NUL and bEmpty is
false, and appends nothing and returns 0 otherwise. -/
theorem C29_string_emptiness_rule (cSep : Char) (hs : PlainSep cSep) (segs : List Segment)
    (hne : segs ≠ []) (hval : ∀ s ∈ segs, ValidSegment cSep s) (doc : Value) (s : Str)
    (hres : resolve doc segs = some (.str s)) (o n e : Bool)
    (items : Option (List (Str × stNodeConfig))) (vec : CheckRet) :
    checkNode cSep (.mk o n e TYPE.STRING none items) doc (pathText cSep segs) vec
      = .ok (if (cstr s).isEmpty && !e then
            (-1, doc, vec ++ [(pathText cSep segs, .BAD_VALUE)])
          else (0, doc, vec)) := by
  have hex := exist_resolve cSep hs segs hne hval doc _ hres
  have hem := empty_resolve cSep hs segs hne hval doc _ hres
  have hty := getType_resolve cSep hs segs hne hval doc _ hres
  have hget := get_resolve cSep hs segs hne hval doc _ hres .string rfl rfl
  simp only [Value.IsNull, Bool.and_false] at hem
  rw [checkNode_eq]
  simp only [stNodeConfig.bOptional, stNodeConfig.bNull, stNodeConfig.bEmpty,
    stNodeConfig.eType, stNodeConfig.callback]
  have hmask : type (Value.str s) &&& TYPE.STRING ≠ 0 := by
    show TYPE.STRING &&& TYPE.STRING ≠ 0
    decide
  rw [checkStep_string cSep _ _ _ _ _ doc _ vec _ (cstr s) hex hem hty hmask hget]
  cases hse : ((cstr s).isEmpty && !e) <;> simp

/-- C29 at the path "user.name" against the document with user.name = "". -/
theorem C29_string_emptiness_rule_witness :
    checkNode '.' (.mk false false false TYPE.STRING none none)
        (.obj [("user".toList, .obj [("name".toList, .str [])])])
        (pathText '.' [("user".toList, none), ("name".toList, none)]) []
      = .ok (if (cstr ([] : Str)).isEmpty && !false then
            (-1, .obj [("user".toList, .obj [("name".toList, .str [])])],
              [] ++ [(pathText '.' [("user".toList, none), ("name".toList, none)], .BAD_VALUE)])
          else (0, .obj [("user".toList, .obj [("name".toList, .str [])])], [])) :=
  C29_string_emptiness_rule '.' (by decide) [("user".toList, none), ("name".toList, none)]
    (by decide) (by decide) _ [] (by decide) false false false none []

/-- C30 (counterexample): the path "m[0]" addresses an Array with zero elements, but size
counts the elements of the member m, so the node check with bEmpty false appends nothing;
and on the empty Array a, with bEmpty true, the callback of the config is invoked and what
it appends is appended. -/
theorem C30_counterexample :
    resolve (.obj [("m".toList, .arr [.arr []])]) [("m".toList, some 0)] = some (.arr []) ∧
    checkNode '.' (.mk false false false TYPE.ARRAY none none)
        (.obj [("m".toList, .arr [.arr []])]) "m[0]".toList []
      = .ok (0, .obj [("m".toList, .arr [.arr []])], []) ∧
    checkNode '.'
        (.mk false false true TYPE.ARRAY
          (some fun d p v => .ok (-1, d, v ++ [(p, .OUT_OF_RANGE)])) none)
        (.obj [("a".toList, .arr [])]) "a".toList []
      = .ok (-1, .obj [("a".toList, .arr [])], [("a".toList, .OUT_OF_RANGE)]) := by
  refine ⟨by decide, by decide, by decide⟩

/-- C30 (amended): for every document in which a valid path whose terminal segment carries
no subscript addresses an Array with zero elements, and every config whose type is ARRAY:
when bEmpty is false the node check appends exactly (path, EMPTY_ARRAY) and returns -1,
whatever callback and map of node items the config has; when bEmpty is true the check
itself appends nothing, no child config is checked, and the outcome is that of the
callback called with the path on the unchanged document and vector, or status 0 when
there is no callback. -/
theorem C30_empty_array_rule (cSep : Char) (hs : PlainSep cSep) (segs : List Segment)
    (hne : segs ≠ []) (hval : ∀ s ∈ segs, ValidSegment cSep s)
    (hplain : terminalPlain segs = true) (doc : Value)
    (hres : resolve doc segs = some (.arr [])) (o n e : Bool) (cb : Option tCallback)
    (items : Option (List (Str × stNodeConfig))) (vec : CheckRet) :
    checkNode cSep (.mk o n e TYPE.ARRAY cb items) doc (pathText cSep segs) vec
      = if e then
          match cb with
          | some f => f doc (pathText cSep segs) vec
          | none => .ok (0, doc, vec)
        else .ok (-1, doc, vec ++ [(pathText cSep segs, .EMPTY_ARRAY)]) := by
  have hex := exist_resolve cSep hs segs hne hval doc _ hres
  have hem := empty_resolve cSep hs segs hne hval doc _ hres
  have hty := getType_resolve cSep hs segs hne hval doc _ hres
  have hsz := size_resolve cSep hs segs hne hval hplain doc _ hres
  simp only [Value.IsNull, Bool.and_false] at hem
  have hmask : type (Value.arr []) &&& TYPE.ARRAY ≠ 0 := by decide
  rw [checkNode_eq]
  simp only [stNodeConfig.bOptional, stNodeConfig.bNull, stNodeConfig.bEmpty,
    stNodeConfig.eType, stNodeConfig.callback]
  exact checkStep_array_empty cSep _ _ _ _ _ doc _ vec _ hex hem hty hmask hsz

/-- C30 at the path "cfg.items" that addresses an empty Array, with bEmpty false, a
callback and a child config. -/
theorem C30_empty_array_rule_witness :
    checkNode '.'
        (.mk false false false TYPE.ARRAY
          (some fun d p v => .ok (-1, d, v ++ [(p, .OUT_OF_RANGE)]))
          (some [("id".toList, .mk false false false TYPE.INT none none)]))
        (.obj [("cfg".toList, .obj [("items".toList, .arr [])])])
        (pathText '.' [("cfg".toList, none), ("items".toList, none)]) []
      = if false then
          match (some fun d p v => .ok (-1, d, v ++ [(p, .OUT_OF_RANGE)]) : Option tCallback) with
          | some f => f (.obj [("cfg".toList, .obj [("items".toList, .arr [])])])
              (pathText '.' [("cfg".toList, none), ("items".toList, none)]) []
          | none => .ok (0, .obj [("cfg".toList, .obj [("items".toList, .arr [])])], [])
        else .ok (-1, .obj [("cfg".toList, .obj [("items".toList, .arr [])])],
          [] ++ [(pathText '.' [("cfg".toList, none), ("items".toList, none)], .EMPTY_ARRAY)]) :=
  C30_empty_array_rule '.' (by decide) [("cfg".toList, none), ("items".toList, none)]
    (by decide) (by decide) (by decide) _ (by decide) false false false _ _ []

/-! ## Type masks of integer nodes (C22, C23) -/

theorem type_int_32bit (n : Int) (hlo : -2147483648 ≤ n) (hhi : n ≤ 4294967295) :
    type (.int n) = (if n ≤ 2147483647 then TYPE.SINT32 else TYPE.UINT32) := by
  unfold type
  by_cases h : n ≤ 2147483647
  · have h1 : IsInt n = true := by simp [IsInt, hlo, h]
    simp [h1, h]
  · have h1 : IsInt n = false := by simp [IsInt]; omega
    have h2 : IsUint n = true := by simp [IsUint, hhi]; omega
    simp [h1, h2, h]

/-- C23: for every document in which a valid path addresses an integer node whose value n
satisfies -2^31 <= n <= 2^32 - 1, getType of the path gives a mask that has a bit in common
with INT32, and the node check with a config of type INT32 appends no error of its own: its
outcome is that of the callback called on the unchanged document and vector, or status 0
with the vector unchanged when there is no callback. -/
theorem C23_int32_category (cSep : Char) (hs : PlainSep cSep) (segs : List Segment)
    (hne : segs ≠ []) (hval : ∀ s ∈ segs, ValidSegment cSep s) (doc : Value) (n : Int)
    (hres : resolve doc segs = some (.int n))
    (hlo : -2147483648 ≤ n) (hhi : n ≤ 4294967295) :
    (∃ t, getType cSep doc (pathText cSep segs) = .ok t ∧ t &&& TYPE.INT32 ≠ 0) ∧
    ∀ (o nl e : Bool) (cb : Option tCallback) (items : Option (List (Str × stNodeConfig)))
      (vec : CheckRet),
      checkNode cSep (.mk o nl e TYPE.INT32 cb items) doc (pathText cSep segs) vec
        = match cb with
          | some f => f doc (pathText cSep segs) vec
          | none => .ok (0, doc, vec) := by
  have hex := exist_resolve cSep hs segs hne hval doc _ hres
  have hem := empty_resolve cSep hs segs hne hval doc _ hres
  have hty := getType_resolve cSep hs segs hne hval doc _ hres
  simp only [Value.IsNull, Bool.and_false] at hem
  have hmask : type (.int n) &&& TYPE.INT32 ≠ 0 := by
    rw [type_int_32bit n hlo hhi]
    split_ifs <;> decide
  refine ⟨⟨_, hty, hmask⟩, ?_⟩
  intro o nl e cb items vec
  rw [checkNode_eq]
  simp only [stNodeConfig.bOptional, stNodeConfig.bNull, stNodeConfig.bEmpty,
    stNodeConfig.eType, stNodeConfig.callback]
  exact checkStep_other cSep _ _ _ _ _ _ doc _ vec _ hex hem hty hmask (by decide)
    (by decide) (by decide)

/-- C23 at the paths "a.n" with n = -5 and "a.list[0]" with the element 3000000000. -/
theorem C23_int32_category_witness :
    ((∃ t, getType '.' (.obj [("a".toList, .obj [("n".toList, .int (-5))])])
        (pathText '.' [("a".toList, none), ("n".toList, none)]) = .ok t ∧
        t &&& TYPE.INT32 ≠ 0) ∧
      ∀ (o nl e : Bool) (cb : Option tCallback)
        (items : Option (List (Str × stNodeConfig))) (vec : CheckRet),
        checkNode '.' (.mk o nl e TYPE.INT32 cb items)
            (.obj [("a".toList, .obj [("n".toList, .int (-5))])])
            (pathText '.' [("a".toList, none), ("n".toList, none)]) vec
          = match cb with
            | some f => f (.obj [("a".toList, .obj [("n".toList, .int (-5))])])
                (pathText '.' [("a".toList, none), ("n".toList, none)]) vec
            | none => .ok (0, .obj [("a".toList, .obj [("n".toList, .int (-5))])], vec)) ∧
    ((∃ t, getType '.' (.obj [("a".toList, .obj [("list".toList, .arr [.int 3000000000])])])
        (pathText '.' [("a".toList, none), ("list".toList, some 0)]) = .ok t ∧
        t &&& TYPE.INT32 ≠ 0) ∧
      ∀ (o nl e : Bool) (cb : Option tCallback)
        (items : Option (List (Str × stNodeConfig))) (vec : CheckRet),
        checkNode '.' (.mk o nl e TYPE.INT32 cb items)
            (.obj [("a".toList, .obj [("list".toList, .arr [.int 3000000000])])])
            (pathText '.' [("a".toList, none), ("list".toList, some 0)]) vec
          = match cb with
            | some f => f (.obj [("a".toList, .obj [("list".toList, .arr [.int 3000000000])])])
                (pathText '.' [("a".toList, none), ("list".toList, some 0)]) vec
            | none =>
              .ok (0, .obj [("a".toList, .obj [("list".toList, .arr [.int 3000000000])])],
                vec)) :=
  ⟨C23_int32_category '.' (by decide) [("a".toList, none), ("n".toList, none)] (by decide)
      (by decide) _ (-5) (by decide) (by decide) (by decide),
    C23_int32_category '.' (by decide) [("a".toList, none), ("list".toList, some 0)]
      (by decide) (by decide) _ 3000000000 (by decide) (by decide) (by decide)⟩

/-! ## The node a successful write leaves at its path -/

theorem resolve_nil (j : Value) : resolve j [] = some j := by
  cases j <;> simp [resolve]

theorem resolve_plain_intro (ms : List (Str × Value)) (name : Str) (rest : List Segment)
    (c x : Value) (hf : findMember ms name = some c) (hr : resolve c rest = some x) :
    resolve (.obj ms) ((name, none) :: rest) = some x := by
  simp only [resolve, hf, hr]

theorem resolve_item_intro (ms : List (Str × Value)) (name : Str) (i : Nat)
    (rest : List Segment) (xs : List Value) (item x : Value)
    (hf : findMember ms name = some (.arr xs)) (hg : xs.get? i = some item)
    (hr : resolve item rest = some x) :
    resolve (.obj ms) ((name, some i) :: rest) = some x := by
  simp only [resolve, hf, hg, hr]

theorem set_resolves_terminal (cSep : Char) (hs : PlainSep cSep) (name : Str)
    (index : Option Nat) (hval : ValidSegment cSep (name, index)) (v : TValue)
    (j after : Value)
    (hset : set cSep j v (pathText cSep [(name, index)]) = .ok (0, after))
    (hin : inBounds after [(name, index)] = true) :
    resolve after [(name, index)] = some (stored v) := by
  have hsp := split_pathText cSep hs name index [] hval
  obtain ⟨hpn, hnul⟩ := validSegment_name cSep name index hval
  have hc : cstr name = name := cstr_of_not_mem name hnul
  have hpe : pathText cSep ([] : List Segment) = [] := rfl
  rw [hpe] at hsp
  obtain ⟨ms, hj⟩ := set_ok_zero_object cSep j v _ after hset
  subst hj
  cases index with
  | none =>
    have hp : pathText cSep [(name, (none : Option Nat))] = name := rfl
    rw [hp] at hset hsp
    rw [set_plain_terminal cSep ms name v hpn, hc] at hset
    have hja := ok_zero_inj _ _ hset
    subst hja
    cases hf : findMember ms name with
    | none =>
      simp only [hf]
      exact resolve_plain_intro _ name [] _ _ (findMember_append_new ms name _ hf)
        (resolve_nil _)
    | some c =>
      simp only [hf]
      exact resolve_plain_intro _ name [] _ _ (findMember_updMember ms name _ c hf)
        (resolve_nil _)
  | some i =>
    have h32 : i < 4294967296 := hval.2.2
    have hio : i < IS_OBJECT := Nat.lt_trans h32 (by decide)
    have hi : i ≠ IS_OBJECT := Nat.ne_of_lt hio
    have hp : pathText cSep [(name, some i)] = indexed name i := rfl
    simp only [Option.getD_some] at hsp
    rw [hp] at hset hsp
    cases ms with
    | nil =>
      rw [set_item_empty_terminal cSep v _ name i hsp hi hpn.1] at hset
      cases hset
    | cons m ms =>
      cases hf : findMember (m :: ms) name with
      | none =>
        rw [set_indexed_absent cSep (m :: ms) name i v hs hpn hio (by simp)
          (by rw [hc]; exact hf)] at hset
        have hja := ok_zero_inj _ _ hset
        subst hja
        have hfa := findMember_append_new (m :: ms) name (.arr [stored v]) hf
        have hb := (inBounds_item _ name i [] [stored v] hin hfa).1
        have hi0 : i = 0 := by simpa using hb
        subst hi0
        exact resolve_item_intro _ name 0 [] _ _ _ hfa rfl (resolve_nil _)
      | some c =>
        cases hca : c.IsArray with
        | false =>
          rw [set_item_not_array cSep (m :: ms) v _ name [] i c hsp hi hpn.1
            (by rw [hc]; exact hf) hca] at hset
          cases hset
        | true =>
          obtain ⟨xs, hcx⟩ := exists_arr_of_IsArray c hca
          subst hcx
          rcases Nat.lt_or_ge i xs.length with hlt | hge
          · rw [set_indexed_overwrite cSep (m :: ms) name i v xs hs hpn
              (by rw [hc]; exact hf) hlt h32, hc] at hset
            have hja := ok_zero_inj _ _ hset
            subst hja
            have hfa := findMember_updMember (m :: ms) name (.arr (xs.set i (stored v))) _ hf
            exact resolve_item_intro _ name i [] _ _ _ hfa (get?_set_self xs i _ hlt)
              (resolve_nil _)
          · rw [set_indexed_append cSep (m :: ms) name i v xs hs hpn hio
              (by rw [hc]; exact hf) hge, hc] at hset
            have hja := ok_zero_inj _ _ hset
            subst hja
            have hfa := findMember_updMember (m :: ms) name (.arr (xs ++ [stored v])) _ hf
            have hb := (inBounds_item _ name i [] _ hin hfa).1
            have hil : i = xs.length := by
              simp only [List.length_append, List.length_singleton] at hb
              omega
            subst hil
            exact resolve_item_intro _ name _ [] _ _ _ hfa (get?_append_new xs _)
              (resolve_nil _)

theorem set_resolves_descend (cSep : Char) (hs : PlainSep cSep) (name : Str)
    (index : Option Nat) (t : Segment) (rest : List Segment)
    (hval : ValidSegment cSep (name, index)) (hvt : ValidSegment cSep t) (v : TValue)
    (ih : ∀ j after, set cSep j v (pathText cSep (t :: rest)) = .ok (0, after) →
      inBounds after (t :: rest) = true →
      resolve after (t :: rest) = some (stored v))
    (j after : Value)
    (hset : set cSep j v (pathText cSep ((name, index) :: t :: rest)) = .ok (0, after))
    (hin : inBounds after ((name, index) :: t :: rest) = true) :
    resolve after ((name, index) :: t :: rest) = some (stored v) := by
  have hsp := split_pathText cSep hs name index (t :: rest) hval
  obtain ⟨hpn, hnul⟩ := validSegment_name cSep name index hval
  have hc : cstr name = name := cstr_of_not_mem name hnul
  have hch : pathText cSep (t :: rest) ≠ [] := pathText_ne_nil cSep t rest hvt
  obtain ⟨ms, hj⟩ := set_ok_zero_object cSep j v _ after hset
  subst hj
  cases index with
  | none =>
    simp only [Option.getD_none] at hsp
    cases hf : findMember ms name with
    | none =>
      have hstep : ∃ c, set cSep (.obj []) v (pathText cSep (t :: rest)) = .ok (0, c) ∧
          after = .obj (ms ++ [(name, c)]) := by
        cases ms with
        | nil =>
          rw [set_descend_empty cSep v _ name _ IS_OBJECT hsp hpn.1 hch] at hset
          obtain ⟨c, h1, h2⟩ := bind_ok_inv _
            (fun c => Value.obj [(name, if IS_OBJECT = IS_OBJECT then c else .arr [c])]) _ hset
          rw [if_pos rfl] at h2
          exact ⟨c, h1, h2⟩
        | cons m ms =>
          rw [set_descend_absent cSep (m :: ms) v _ name _ IS_OBJECT hsp hpn.1 hch (by simp)
            (by rw [hc]; exact hf)] at hset
          obtain ⟨c, h1, h2⟩ := bind_ok_inv _
            (fun c => Value.obj
              (m :: ms ++ [(name, if IS_OBJECT = IS_OBJECT then c else .arr [c])])) _ hset
          rw [if_pos rfl] at h2
          exact ⟨c, h1, h2⟩
      obtain ⟨c, h1, h2⟩ := hstep
      subst h2
      have hfa := findMember_append_new ms name c hf
      exact resolve_plain_intro _ name _ c _ hfa (ih _ c h1 (inBounds_plain _ name _ c hin hfa))
    | some c0 =>
      rw [set_descend_plain cSep ms v _ name _ c0 hsp hpn.1 hch (by rw [hc]; exact hf)] at hset
      cases hco : c0.IsObject with
      | false =>
        rw [hco] at hset
        simp only [Bool.false_eq_true, if_false, Result.ok.injEq, Prod.mk.injEq] at hset
        exact absurd hset.1 (by decide)
      | true =>
        rw [hco, if_pos rfl] at hset
        obtain ⟨c, h1, h2⟩ := bind_ok_inv _
          (fun c => Value.obj (updMember ms (cstr name) c)) _ hset
        rw [hc] at h2
        subst h2
        have hfa := findMember_updMember ms name c c0 hf
        exact resolve_plain_intro _ name _ c _ hfa
          (ih _ c h1 (inBounds_plain _ name _ c hin hfa))
  | some i =>
    have h32 : i < 4294967296 := hval.2.2
    have hio : i < IS_OBJECT := Nat.lt_trans h32 (by decide)
    have hi : i ≠ IS_OBJECT := Nat.ne_of_lt hio
    simp only [Option.getD_some] at hsp
    cases hf : findMember ms name with
    | none =>
      have hstep : ∃ c, set cSep (.obj []) v (pathText cSep (t :: rest)) = .ok (0, c) ∧
          after = .obj (ms ++ [(name, .arr [c])]) := by
        cases ms with
        | nil =>
          rw [set_descend_empty cSep v _ name _ i hsp hpn.1 hch] at hset
          obtain ⟨c, h1, h2⟩ := bind_ok_inv _
            (fun c => Value.obj [(name, if i = IS_OBJECT then c else .arr [c])]) _ hset
          rw [if_neg hi] at h2
          exact ⟨c, h1, h2⟩
        | cons m ms =>
          rw [set_descend_absent cSep (m :: ms) v _ name _ i hsp hpn.1 hch (by simp)
            (by rw [hc]; exact hf)] at hset
          obtain ⟨c, h1, h2⟩ := bind_ok_inv _
            (fun c => Value.obj
              (m :: ms ++ [(name, if i = IS_OBJECT then c else .arr [c])])) _ hset
          rw [if_neg hi] at h2
          exact ⟨c, h1, h2⟩
      obtain ⟨c, h1, h2⟩ := hstep
      subst h2
      have hfa := findMember_append_new ms name (.arr [c]) hf
      obtain ⟨hb, hnext⟩ := inBounds_item _ name i _ [c] hin hfa
      have hi0 : i = 0 := by simpa using hb
      subst hi0
      exact resolve_item_intro _ name 0 _ [c] c _ hfa rfl (ih _ c h1 (hnext c rfl))
    | some c0 =>
      cases hca : c0.IsArray with
      | false =>
        rw [set_item_not_array cSep ms v _ name _ i c0 hsp hi hpn.1
          (by rw [hc]; exact hf) hca] at hset
        cases hset
      | true =>
        obtain ⟨xs, hcx⟩ := exists_arr_of_IsArray c0 hca
        subst hcx
        rcases Nat.lt_or_ge i xs.length with hlt | hge
        · have hget : xs.get? i = some (xs.get ⟨i, hlt⟩) := List.get?_eq_get hlt
          rw [set_descend_item_lt cSep ms v _ name _ i xs _ hsp hi hpn.1 hch
            (by rw [hc]; exact hf) h32 hget] at hset
          cases heo : (xs.get ⟨i, hlt⟩).IsObject with
          | false =>
            rw [heo] at hset
            simp only [Bool.false_eq_true, if_false, Result.ok.injEq, Prod.mk.injEq] at hset
            exact absurd hset.1 (by decide)
          | true =>
            rw [heo, if_pos rfl] at hset
            obtain ⟨c, h1, h2⟩ := bind_ok_inv _
              (fun c => Value.obj (updMember ms (cstr name) (.arr (xs.set i c)))) _ hset
            rw [hc] at h2
            subst h2
            have hfa := findMember_updMember ms name (.arr (xs.set i c)) _ hf
            obtain ⟨_, hnext⟩ := inBounds_item _ name i _ _ hin hfa
            have hgs := get?_set_self xs i c hlt
            exact resolve_item_intro _ name i _ _ c _ hfa hgs (ih _ c h1 (hnext c hgs))
        · rw [set_descend_item_ge cSep ms v _ name _ i xs hsp hi hpn.1 hch
            (by rw [hc]; exact hf) hge] at hset
          obtain ⟨c, h1, h2⟩ := bind_ok_inv _
            (fun c => Value.obj (updMember ms (cstr name) (.arr (xs ++ [c])))) _ hset
          rw [hc] at h2
          subst h2
          have hfa := findMember_updMember ms name (.arr (xs ++ [c])) _ hf
          obtain ⟨hb, hnext⟩ := inBounds_item _ name i _ _ hin hfa
          have hil : i = xs.length := by
            simp only [List.length_append, List.length_singleton] at hb
            omega
          subst hil
          have hgs := get?_append_new xs c
          exact resolve_item_intro _ name _ _ _ c _ hfa hgs (ih _ c h1 (hnext c hgs))

/-- A write that returns 0 leaves the stored value at its path, provided every subscript of
the path is below the size of its array afterwards. -/
theorem set_resolves (cSep : Char) (hs : PlainSep cSep) (v : TValue)
    (segs : List Segment) (hne : segs ≠ []) (hval : ∀ s ∈ segs, ValidSegment cSep s)
    (j after : Value) (hset : set cSep j v (pathText cSep segs) = .ok (0, after))
    (hin : inBounds after segs = true) :
    resolve after segs = some (stored v) := by
  induction segs generalizing j after with
  | nil => exact absurd rfl hne
  | cons s rest ih =>
    obtain ⟨name, index⟩ := s
    have hs0 := hval (name, index) (List.mem_cons_self _ _)
    cases rest with
    | nil => exact set_resolves_terminal cSep hs name index hs0 v j after hset hin
    | cons t rest =>
      have ht := hval t (by simp)
      exact set_resolves_descend cSep hs name index t rest hs0 ht v
        (fun j2 a2 h1 h2 =>
          ih (by simp) (fun x hx => hval x (List.mem_cons_of_mem _ hx)) j2 a2 h1 h2)
        j after hset hin

/-- C22 (counterexample): the node written with set(uint32_t 5, "n") on the empty root has
the type mask SINT32, which has no bit in common with UINT32, and the node check with a
config of type UINT32 appends (n, BAD_FORMAT). -/
theorem C22_counterexample :
    set '.' (.obj []) (.integer .uint32 5) "n".toList = .ok (0, .obj [("n".toList, .int 5)]) ∧
    getType '.' (.obj [("n".toList, .int 5)]) "n".toList = .ok TYPE.SINT32 ∧
    TYPE.SINT32 &&& TYPE.UINT32 = 0 ∧
    checkNode '.' (.mk false false false TYPE.UINT32 none none)
        (.obj [("n".toList, .int 5)]) "n".toList []
      = .ok (-1, .obj [("n".toList, .int 5)], [("n".toList, .BAD_FORMAT)]) := by
  refine ⟨by decide, by decide, by decide, by decide⟩

/-- C22 (amended): for every uint32_t value u and every valid path, if set(u, path) returns
0 and every subscript of the path is below the size of its array afterwards, then the mask
t that getType gives for the path has a bit in common with INT and with INT32 and none
with STRING, and it has a bit in common with UINT32 exactly when u >= 2^31.  So the node
check appends no error of its own for a config of type INT or INT32 (its outcome is that
of the callback, or status 0 with the vector unchanged), appends (path, BAD_FORMAT) for a
config of type STRING, and for a config of type UINT32 appends none when u >= 2^31 and
(path, BAD_FORMAT) when u < 2^31. -/
theorem C22_uint32_type_mask (cSep : Char) (hs : PlainSep cSep) (segs : List Segment)
    (hne : segs ≠ []) (hval : ∀ s ∈ segs, ValidSegment cSep s) (root after : Value)
    (u : Int) (hlo : 0 ≤ u) (hhi : u ≤ 4294967295)
    (hset : set cSep root (.integer .uint32 u) (pathText cSep segs) = .ok (0, after))
    (hin : inBounds after segs = true) :
    (∃ t, getType cSep after (pathText cSep segs) = .ok t ∧
      t &&& TYPE.INT ≠ 0 ∧ t &&& TYPE.INT32 ≠ 0 ∧ t &&& TYPE.STRING = 0 ∧
      (t &&& TYPE.UINT32 ≠ 0 ↔ 2147483648 ≤ u)) ∧
    ∀ (o nl e : Bool) (cb : Option tCallback) (items : Option (List (Str × stNodeConfig)))
      (vec : CheckRet),
      (checkNode cSep (.mk o nl e TYPE.INT cb items) after (pathText cSep segs) vec
        = match cb with
          | some f => f after (pathText cSep segs) vec
          | none => .ok (0, after, vec)) ∧
      (checkNode cSep (.mk o nl e TYPE.INT32 cb items) after (pathText cSep segs) vec
        = match cb with
          | some f => f after (pathText cSep segs) vec
          | none => .ok (0, after, vec)) ∧
      (checkNode cSep (.mk o nl e TYPE.STRING cb items) after (pathText cSep segs) vec
        = .ok (-1, after, vec ++ [(pathText cSep segs, .BAD_FORMAT)])) ∧
      (checkNode cSep (.mk o nl e TYPE.UINT32 cb items) after (pathText cSep segs) vec
        = if 2147483648 ≤ u then
            match cb with
            | some f => f after (pathText cSep segs) vec
            | none => .ok (0, after, vec)
          else .ok (-1, after, vec ++ [(pathText cSep segs, .BAD_FORMAT)])) := by
  have hres : resolve after segs = some (.int u) :=
    set_resolves cSep hs (.integer .uint32 u) segs hne hval root after hset hin
  have hex := exist_resolve cSep hs segs hne hval after _ hres
  have hem := empty_resolve cSep hs segs hne hval after _ hres
  have hty := getType_resolve cSep hs segs hne hval after _ hres
  simp only [Value.IsNull, Bool.and_false] at hem
  have htype := type_int_32bit u (by omega) hhi
  rw [htype] at hty
  by_cases hbig : 2147483648 ≤ u
  · have hsmall : ¬ u ≤ 2147483647 := by omega
    simp only [hsmall, if_false] at hty
    refine ⟨⟨_, hty, by decide, by decide, by decide, ?_⟩, ?_⟩
    · exact ⟨fun _ => hbig, fun _ => by decide⟩
    · intro o nl e cb items vec
      simp only [checkNode_eq, stNodeConfig.bOptional, stNodeConfig.bNull,
        stNodeConfig.bEmpty, stNodeConfig.eType, stNodeConfig.callback, hbig, if_true]
      exact ⟨checkStep_other cSep _ _ _ _ _ _ after _ vec _ hex hem hty (by decide)
          (by decide) (by decide) (by decide),
        checkStep_other cSep _ _ _ _ _ _ after _ vec _ hex hem hty (by decide)
          (by decide) (by decide) (by decide),
        checkStep_bad_format cSep _ _ _ _ _ _ after _ vec _ hex hem hty (by decide),
        checkStep_other cSep _ _ _ _ _ _ after _ vec _ hex hem hty (by decide)
          (by decide) (by decide) (by decide)⟩
  · have hsmall : u ≤ 2147483647 := by omega
    simp only [hsmall, if_true] at hty
    refine ⟨⟨_, hty, by decide, by decide, by decide, ?_⟩, ?_⟩
    · exact ⟨fun h => absurd (by decide) h, fun h => absurd h hbig⟩
    · intro o nl e cb items vec
      simp only [checkNode_eq, stNodeConfig.bOptional, stNodeConfig.bNull,
        stNodeConfig.bEmpty, stNodeConfig.eType, stNodeConfig.callback, hbig, if_false]
      exact ⟨checkStep_other cSep _ _ _ _ _ _ after _ vec _ hex hem hty (by decide)
          (by decide) (by decide) (by decide),
        checkStep_other cSep _ _ _ _ _ _ after _ vec _ hex hem hty (by decide)
          (by decide) (by decide) (by decide),
        checkStep_bad_format cSep _ _ _ _ _ _ after _ vec _ hex hem hty (by decide),
        checkStep_bad_format cSep _ _ _ _ _ _ after _ vec _ hex hem hty (by decide)⟩

/-- C22 at the path "cfg.n" written on the empty root with u = 3000000000. -/
theorem C22_uint32_type_mask_witness :
    (∃ t, getType '.' (.obj [("cfg".toList, .obj [("n".toList, .int 3000000000)])])
        (pathText '.' [("cfg".toList, none), ("n".toList, none)]) = .ok t ∧
      t &&& TYPE.INT ≠ 0 ∧ t &&& TYPE.INT32 ≠ 0 ∧ t &&& TYPE.STRING = 0 ∧
      (t &&& TYPE.UINT32 ≠ 0 ↔ (2147483648 : Int) ≤ 3000000000)) ∧
    checkNode '.' (.mk false false false TYPE.STRING none none)
        (.obj [("cfg".toList, .obj [("n".toList, .int 3000000000)])])
        (pathText '.' [("cfg".toList, none), ("n".toList, none)]) []
      = .ok (-1, .obj [("cfg".toList, .obj [("n".toList, .int 3000000000)])],
          [] ++ [(pathText '.' [("cfg".toList, none), ("n".toList, none)], .BAD_FORMAT)]) :=
  ⟨(C22_uint32_type_mask '.' (by decide) [("cfg".toList, none), ("n".toList, none)]
      (by decide) (by decide) (.obj []) _ 3000000000 (by decide) (by decide) (by decide)
      (by decide)).1,
    ((C22_uint32_type_mask '.' (by decide) [("cfg".toList, none), ("n".toList, none)]
      (by decide) (by decide) (.obj []) _ 3000000000 (by decide) (by decide) (by decide)
      (by decide)).2 false false false none none []).2.2.1⟩

/-! ## The status of check and the error vector (C24) -/

theorem bind_eq_ok {α β : Type} (x : Result α) (f : α → Result β) (b : β)
    (h : (x >>= f) = .ok b) : ∃ a, x = .ok a ∧ f a = .ok b := by
  cases x with
  | fault e => cases h
  | ok a => exact ⟨a, rfl, h⟩

theorem foldlM_preserves {σ α : Type} (f : σ → α → Result σ) (P : σ → Prop)
    (hf : ∀ st x st', P st → f st x = .ok st' → P st') (xs : List α) (init r : σ)
    (hinit : P init) (h : xs.foldlM f init = .ok r) : P r := by
  induction xs generalizing init with
  | nil =>
    simp only [List.foldlM_nil, result_pure, Result.ok.injEq] at h
    rw [← h]
    exact hinit
  | cons x xs ih =>
    rw [List.foldlM_cons] at h
    obtain ⟨st', h1, h2⟩ := bind_eq_ok _ _ _ h
    exact ih st' (hf init x st' hinit h1) h2

theorem append_singleton_ne_nil {α : Type} (v : List α) (x : α) : v ++ [x] ≠ [] := by
  simp

theorem checkArrayItems_inv (cSep : Char) (g : tCheckItems)
    (hg : ∀ d p i v r, (i ≠ 0 → v ≠ []) → g d p i v = .ok r → r.1 ≠ 0 → r.2.2 ≠ [])
    (strNode : Str) (uiSize : Nat) (doc : Value) (vec : CheckRet)
    (r : Int × Str × Value × CheckRet)
    (h : checkArrayItems cSep g strNode uiSize doc vec = .ok r) :
    r.1 ≠ 0 → r.2.2.2 ≠ [] := by
  unfold checkArrayItems at h
  refine foldlM_preserves _ (fun st => st.1 ≠ 0 → st.2.2.2 ≠ []) ?_ _ _ r
    (fun h0 => absurd rfl h0) h
  intro st x st' hst hstep
  obtain ⟨eItem, _, h2⟩ := bind_eq_ok _ _ _ hstep
  by_cases hobj : eItem = TYPE.OBJECT
  · simp only [hobj, ne_eq, not_true_eq_false, if_false] at h2
    obtain ⟨r', h3, h4⟩ := bind_eq_ok _ _ _ h2
    simp only [result_pure, Result.ok.injEq] at h4
    rw [← h4]
    exact hg _ _ _ _ r' hst h3
  · simp only [ne_eq, hobj, not_false_eq_true, if_true, result_pure, Result.ok.injEq] at h2
    rw [← h2]
    intro _
    exact append_singleton_ne_nil _ _

theorem checkTyped_inv (cSep : Char) (bEmpty : Bool) (eType : TYPE)
    (checkItems : Option tCheckItems)
    (hitems : ∀ g, checkItems = some g →
      ∀ d p i v r, (i ≠ 0 → v ≠ []) → g d p i v = .ok r → r.1 ≠ 0 → r.2.2 ≠ [])
    (eNode : TYPE) (doc : Value) (strNode : Str) (vec : CheckRet)
    (r : Int × Str × Value × CheckRet)
    (h : checkTyped cSep bEmpty eType checkItems eNode doc strNode vec = .ok r) :
    r.1 ≠ 0 → r.2.2.2 ≠ [] := by
  unfold checkTyped at h
  split_ifs at h with h1 h2 h3 h4
  · simp only [result_pure, Result.ok.injEq] at h
    rw [← h]
    intro _
    exact append_singleton_ne_nil _ _
  · obtain ⟨a, _, hb⟩ := bind_eq_ok _ _ _ h
    obtain ⟨iGet, out⟩ := a
    simp only at hb
    split_ifs at hb
    · simp only [result_pure, Result.ok.injEq] at hb
      rw [← hb]
      intro _
      exact append_singleton_ne_nil _ _
    · simp only [result_pure, Result.ok.injEq] at hb
      rw [← hb]
      intro h0
      exact absurd rfl h0
  · obtain ⟨uiSize, _, hb⟩ := bind_eq_ok _ _ _ h
    split_ifs at hb
    · simp only [result_pure, Result.ok.injEq] at hb
      rw [← hb]
      intro _
      exact append_singleton_ne_nil _ _
    · cases hci : checkItems with
      | none =>
        simp only [hci, result_pure, Result.ok.injEq] at hb
        rw [← hb]
        intro h0
        exact absurd rfl h0
      | some g =>
        simp only [hci] at hb
        exact checkArrayItems_inv cSep g (hitems g hci) strNode uiSize doc vec r hb
  · cases hci : checkItems with
    | none =>
      simp only [hci, result_pure, Result.ok.injEq] at h
      rw [← h]
      intro h0
      exact absurd rfl h0
    | some g =>
      simp only [hci] at h
      obtain ⟨r', h5, h6⟩ := bind_eq_ok _ _ _ h
      simp only [result_pure, Result.ok.injEq] at h6
      rw [← h6]
      exact hitems g hci _ _ _ _ r' (fun h0 => absurd rfl h0) h5
  · simp only [result_pure, Result.ok.injEq] at h
    rw [← h]
    intro h0
    exact absurd rfl h0

theorem checkStep_inv (cSep : Char) (o n e : Bool) (t : TYPE) (cb : Option tCallback)
    (checkItems : Option tCheckItems)
    (hcb : ∀ f, cb = some f → f.Reports)
    (hitems : ∀ g, checkItems = some g →
      ∀ d p i v r, (i ≠ 0 → v ≠ []) → g d p i v = .ok r → r.1 ≠ 0 → r.2.2 ≠ [])
    (doc : Value) (strNode : Str) (vec : CheckRet) (r : Int × Value × CheckRet)
    (h : checkStep cSep o n e t cb checkItems doc strNode vec = .ok r) :
    r.1 ≠ 0 → r.2.2 ≠ [] := by
  unfold checkStep at h
  obtain ⟨bExist, _, h1⟩ := bind_eq_ok _ _ _ h
  cases bExist with
  | false =>
    simp only [Bool.false_eq_true, if_false] at h1
    split_ifs at h1
    · simp only [result_pure, Result.ok.injEq] at h1
      rw [← h1]
      intro _
      exact append_singleton_ne_nil _ _
    · simp only [result_pure, Result.ok.injEq] at h1
      rw [← h1]
      intro h0
      exact absurd rfl h0
  | true =>
    simp only [if_true] at h1
    obtain ⟨bIsNull, _, h2⟩ := bind_eq_ok _ _ _ h1
    cases bIsNull with
    | true =>
      simp only [Bool.not_true, Bool.false_eq_true, if_false] at h2
      split_ifs at h2
      · simp only [result_pure, Result.ok.injEq] at h2
        rw [← h2]
        intro _
        exact append_singleton_ne_nil _ _
      · simp only [result_pure, Result.ok.injEq] at h2
        rw [← h2]
        intro h0
        exact absurd rfl h0
    | false =>
      simp only [Bool.not_false, if_true] at h2
      obtain ⟨eNode, _, h3⟩ := bind_eq_ok _ _ _ h2
      obtain ⟨st, h4, h5⟩ := bind_eq_ok _ _ _ h3
      have hst := checkTyped_inv cSep e t checkItems hitems eNode doc strNode vec st h4
      obtain ⟨iRet, strPath, d, v⟩ := st
      simp only at h5 hst
      cases hc : cb with
      | none =>
        simp only [hc, result_pure, Result.ok.injEq] at h5
        rw [← h5]
        exact hst
      | some f =>
        simp only [hc] at h5
        by_cases hi : iRet = 0
        · simp only [hi, if_true] at h5
          obtain ⟨r1, r2, r3⟩ := r
          exact hcb f hc d strPath v r1 r2 r3 h5
        · simp only [hi, if_false, result_pure, Result.ok.injEq] at h5
          rw [← h5]
          exact hst

mutual
theorem checkNode_inv (cSep : Char) : ∀ (cfg : stNodeConfig), cfg.CallbacksReport →
    ∀ (doc : Value) (strNode : Str) (vec : CheckRet) (r : Int × Value × CheckRet),
      checkNode cSep cfg doc strNode vec = .ok r → r.1 ≠ 0 → r.2.2 ≠ []
  | .mk o n e t cb none, hrep, doc, strNode, vec, r, h => by
    simp only [stNodeConfig.CallbacksReport] at hrep
    simp only [checkNode] at h
    exact checkStep_inv cSep o n e t cb none hrep (fun g hg => by cases hg) doc strNode vec
      r h
  | .mk o n e t cb (some items), hrep, doc, strNode, vec, r, h => by
    simp only [stNodeConfig.CallbacksReport] at hrep
    simp only [checkNode] at h
    refine checkStep_inv cSep o n e t cb _ hrep.1 ?_ doc strNode vec r h
    intro g hg d p i v r' hiv hr'
    simp only [Option.some.injEq] at hg
    subst hg
    exact checkNodeItems_inv cSep items hrep.2 d p i v r' hiv hr'
theorem checkNodeItems_inv (cSep : Char) : ∀ (items : List (Str × stNodeConfig)),
    ItemsCallbacksReport items →
    ∀ (doc : Value) (strPath : Str) (iRet : Int) (vec : CheckRet)
      (r : Int × Value × CheckRet),
      (iRet ≠ 0 → vec ≠ []) → checkNodeItems cSep items doc strPath iRet vec = .ok r →
      r.1 ≠ 0 → r.2.2 ≠ []
  | [], _, doc, strPath, iRet, vec, r, hiv, h => by
    simp only [checkNodeItems, result_pure, Result.ok.injEq] at h
    rw [← h]
    exact hiv
  | (k, cfg) :: rest, hrep, doc, strPath, iRet, vec, r, _, h => by
    simp only [ItemsCallbacksReport] at hrep
    simp only [checkNodeItems] at h
    obtain ⟨r1, h1, h2⟩ := bind_eq_ok _ _ _ h
    exact checkNodeItems_inv cSep rest hrep.2 r1.2.1 strPath r1.1 r1.2.2 r
      (checkNode_inv cSep cfg hrep.1 doc _ vec r1 h1) h2
end

/-- C24 (counterexample): the callback of the only schema entry returns -1 and appends
nothing; check returns -1 and the vector it leaves is empty. -/
theorem C24_counterexample :
    check (fun _ => some (.obj [("a".toList, .int 1)])) '.' .null "text".toList
        [("a".toList, .mk false false false TYPE.INT (some fun d _ v => .ok (-1, d, v)) none)]
        []
      = .ok (-1, .obj [("a".toList, .int 1)], []) := by
  decide

/-- C24 (amended): for every non-empty source text that parses and every schema in which
each callback, whenever it returns a nonzero status, leaves a vector that is not empty (a
schema without callbacks in particular): if check returns, the status it returns is 0 if
and only if the error sequence it leaves is empty. -/
theorem C24_check_status (Parse : Str → Option Value) (cSep : Char) (doc0 parsed : Value)
    (strConfig : Str) (mapNodes : List (Str × stNodeConfig)) (vec0 : CheckRet)
    (hne : strConfig ≠ []) (hparse : Parse (cstr strConfig) = some parsed)
    (hrep : ∀ entry ∈ mapNodes, entry.2.CallbacksReport)
    (iRet : Int) (doc : Value) (vec : CheckRet)
    (h : check Parse cSep doc0 strConfig mapNodes vec0 = .ok (iRet, doc, vec)) :
    iRet = 0 ↔ vec = [] := by
  have hemp : strConfig.isEmpty = false := isEmpty_false_of_ne_nil strConfig hne
  simp only [check, hemp, Bool.false_eq_true, if_false, hparse] at h
  obtain ⟨r, h1, h2⟩ := bind_eq_ok _ _ _ h
  have hinv : r.1 ≠ 0 → r.2.2 ≠ [] := by
    have key : ∀ (xs : List (Str × stNodeConfig)), (∀ entry ∈ xs, entry.2.CallbacksReport) →
        ∀ (init r : Int × Value × CheckRet), (init.1 ≠ 0 → init.2.2 ≠ []) →
          xs.foldlM (fun (st : Int × Value × CheckRet) (pairMapNodes : Str × stNodeConfig) =>
            checkNode cSep pairMapNodes.2 st.2.1 pairMapNodes.1 st.2.2) init = .ok r →
          r.1 ≠ 0 → r.2.2 ≠ [] := by
      intro xs
      induction xs with
      | nil =>
        intro _ init r hinit hf
        simp only [List.foldlM_nil, result_pure, Result.ok.injEq] at hf
        rw [← hf]
        exact hinit
      | cons x xs ih =>
        intro hx init r _ hf
        rw [List.foldlM_cons] at hf
        obtain ⟨st', h3, h4⟩ := bind_eq_ok _ _ _ hf
        exact ih (fun entry he => hx entry (List.mem_cons_of_mem _ he)) st' r
          (checkNode_inv cSep x.2 (hx x (List.mem_cons_self _ _)) _ _ _ st' h3) h4
    exact key mapNodes hrep _ r (fun h0 => absurd rfl h0) h1
  simp only [result_pure, Result.ok.injEq, Prod.mk.injEq] at h2
  obtain ⟨hi, _, hv⟩ := h2
  subst hv
  cases hve : r.2.2 with
  | nil =>
    simp only [hve, List.isEmpty_nil, if_true] at hi
    constructor
    · intro _
      rfl
    · intro _
      by_contra hc
      rw [← hi] at hc
      exact hinv hc hve
  | cons a b =>
    simp only [hve, List.isEmpty_cons, Bool.false_eq_true, if_false] at hi
    constructor
    · intro h0
      rw [← hi] at h0
      exact absurd h0 (by decide)
    · intro h0
      cases h0

/-- C24 at a schema of two entries, the first with a callback that appends an error and
returns -1, the second with an empty string that must not be empty. -/
theorem C24_check_status_witness :
    check (fun _ => some (.obj [("a".toList, .int 1), ("b".toList, .str [])])) '.' .null
        "text".toList
        [("a".toList, .mk false false false TYPE.INT
            (some fun d p v => .ok (-1, d, v ++ [(p, .OUT_OF_RANGE)])) none),
          ("b".toList, .mk false false false TYPE.STRING none none)] []
      = .ok (-2, .obj [("a".toList, .int 1), ("b".toList, .str [])],
          [("a".toList, .OUT_OF_RANGE), ("b".toList, .BAD_VALUE)]) ∧
    ((-2 : Int) = 0 ↔
      ([("a".toList, .OUT_OF_RANGE), ("b".toList, .BAD_VALUE)] : CheckRet) = []) :=
  ⟨by decide,
    C24_check_status (fun _ => some (.obj [("a".toList, .int 1), ("b".toList, .str [])])) '.'
      .null _ "text".toList
      [("a".toList, .mk false false false TYPE.INT
          (some fun d p v => .ok (-1, d, v ++ [(p, .OUT_OF_RANGE)])) none),
        ("b".toList, .mk false false false TYPE.STRING none none)] []
      (by decide) rfl
      (by
        intro entry he
        simp only [List.mem_cons, List.mem_singleton, List.not_mem_nil, or_false] at he
        rcases he with rfl | rfl
        · simp only [stNodeConfig.CallbacksReport]
          intro f hf d p v r d' v' h _
          simp only [Option.some.injEq] at hf
          subst hf
          simp only [Result.ok.injEq, Prod.mk.injEq] at h
          rw [← h.2.2]
          exact append_singleton_ne_nil _ _
        · simp only [stNodeConfig.CallbacksReport]
          intro f hf
          cases hf)
      (-2) (.obj [("a".toList, .int 1), ("b".toList, .str [])])
      [("a".toList, .OUT_OF_RANGE), ("b".toList, .BAD_VALUE)] (by decide)⟩

/-! ## The error vector of a schema without callbacks (C25) -/

theorem result_bind_assoc {α β γ : Type} (x : Result α) (f : α → Result β)
    (g : β → Result γ) : ((x >>= f) >>= g) = (x >>= fun a => f a >>= g) := by
  cases x <;> rfl

theorem foldlM_frame {α : Type} (doc : Value)
    (F : Int × Str × Value × CheckRet → α → Result (Int × Str × Value × CheckRet))
    (hF : ∀ i sp v x, F (i, sp, doc, v) x
      = (F (i, sp, doc, []) x >>= fun r => Result.ok (r.1, r.2.1, doc, v ++ r.2.2.2)))
    (xs : List α) (i : Int) (sp : Str) (v : CheckRet) :
    xs.foldlM F (i, sp, doc, v)
      = (xs.foldlM F (i, sp, doc, []) >>= fun r =>
          Result.ok (r.1, r.2.1, doc, v ++ r.2.2.2)) := by
  induction xs generalizing i sp v with
  | nil => simp only [List.foldlM_nil, result_pure, result_bind_ok, List.append_nil]
  | cons x xs ih =>
    rw [List.foldlM_cons, List.foldlM_cons, hF i sp v x]
    have h0 := hF i sp [] x
    cases hfx : F (i, sp, doc, []) x with
    | fault e => rfl
    | ok r1 =>
      obtain ⟨i1, sp1, d1, e1⟩ := r1
      rw [hfx] at h0
      simp only [result_bind_ok, List.nil_append, Result.ok.injEq, Prod.mk.injEq, true_and]
        at h0
      have hd : d1 = doc := h0.1
      subst hd
      simp only [result_bind_ok]
      rw [ih i1 sp1 (v ++ e1), ih i1 sp1 e1]
      cases xs.foldlM F (i1, sp1, d1, []) with
      | fault e => rfl
      | ok r2 => simp only [result_bind_ok, List.append_assoc]

theorem checkArrayItems_frame (cSep : Char) (g : tCheckItems)
    (hg : ∀ d p i v, g d p i v = (g d p i [] >>= fun r => Result.ok (r.1, d, v ++ r.2.2)))
    (strNode : Str) (uiSize : Nat) (doc : Value) (vec : CheckRet) :
    checkArrayItems cSep g strNode uiSize doc vec
      = (checkArrayItems cSep g strNode uiSize doc [] >>= fun r =>
          Result.ok (r.1, r.2.1, doc, vec ++ r.2.2.2)) := by
  unfold checkArrayItems
  apply foldlM_frame
  intro i sp v x
  simp only
  cases getType cSep doc (strNode ++ '[' :: (decimal x ++ [']'])) with
  | fault e => rfl
  | ok eItem =>
    simp only [result_bind_ok]
    by_cases hobj : eItem = TYPE.OBJECT
    · simp only [hobj, ne_eq, not_true_eq_false, if_false]
      rw [hg doc _ i v]
      cases g doc (strNode ++ '[' :: (decimal x ++ [']'])) i [] with
      | fault e => rfl
      | ok r => simp only [result_bind_ok, result_pure]
    · simp only [ne_eq, hobj, not_false_eq_true, if_true, result_pure, result_bind_ok,
        List.nil_append]

theorem checkTyped_frame (cSep : Char) (bEmpty : Bool) (eType : TYPE)
    (checkItems : Option tCheckItems)
    (hitems : ∀ g, checkItems = some g →
      ∀ d p i v, g d p i v = (g d p i [] >>= fun r => Result.ok (r.1, d, v ++ r.2.2)))
    (eNode : TYPE) (doc : Value) (strNode : Str) (vec : CheckRet) :
    checkTyped cSep bEmpty eType checkItems eNode doc strNode vec
      = (checkTyped cSep bEmpty eType checkItems eNode doc strNode [] >>= fun r =>
          Result.ok (r.1, r.2.1, doc, vec ++ r.2.2.2)) := by
  unfold checkTyped
  split_ifs with h1 h2 h3 h4
  · simp only [result_pure, result_bind_ok, List.nil_append]
  · cases get cSep doc .string strNode with
    | fault e => rfl
    | ok a =>
      obtain ⟨iGet, out⟩ := a
      simp only [result_bind_ok]
      split_ifs <;> simp only [result_pure, result_bind_ok, List.nil_append, List.append_nil]
  · cases size cSep doc strNode with
    | fault e => rfl
    | ok uiSize =>
      simp only [result_bind_ok]
      split_ifs
      · simp only [result_pure, result_bind_ok, List.nil_append]
      · cases hci : checkItems with
        | none => simp only [result_pure, result_bind_ok, List.append_nil]
        | some g =>
          simp only
          exact checkArrayItems_frame cSep g (hitems g hci) strNode uiSize doc vec
  · cases hci : checkItems with
    | none => simp only [result_pure, result_bind_ok, List.append_nil]
    | some g =>
      simp only
      rw [hitems g hci doc strNode 0 vec]
      cases g doc strNode 0 [] with
      | fault e => rfl
      | ok r => simp only [result_bind_ok, result_pure]
  · simp only [result_pure, result_bind_ok, List.append_nil]

theorem checkStep_frame (cSep : Char) (o n e : Bool) (t : TYPE)
    (checkItems : Option tCheckItems)
    (hitems : ∀ g, checkItems = some g →
      ∀ d p i v, g d p i v = (g d p i [] >>= fun r => Result.ok (r.1, d, v ++ r.2.2)))
    (doc : Value) (strNode : Str) (vec : CheckRet) :
    checkStep cSep o n e t none checkItems doc strNode vec
      = (checkStep cSep o n e t none checkItems doc strNode [] >>= fun r =>
          Result.ok (r.1, doc, vec ++ r.2.2)) := by
  unfold checkStep
  cases exist cSep doc strNode with
  | fault e => rfl
  | ok bExist =>
    simp only [result_bind_ok]
    cases bExist with
    | false =>
      simp only [Bool.false_eq_true, if_false]
      split_ifs <;> simp only [result_pure, result_bind_ok, List.nil_append, List.append_nil]
    | true =>
      simp only [if_true]
      cases empty cSep doc strNode with
      | fault e => rfl
      | ok bIsNull =>
        simp only [result_bind_ok]
        cases bIsNull with
        | true =>
          simp only [Bool.not_true, Bool.false_eq_true, if_false]
          split_ifs <;>
            simp only [result_pure, result_bind_ok, List.nil_append, List.append_nil]
        | false =>
          simp only [Bool.not_false, if_true]
          cases getType cSep doc strNode with
          | fault e => rfl
          | ok eNode =>
            simp only [result_bind_ok]
            rw [checkTyped_frame cSep e t checkItems hitems eNode doc strNode vec]
            cases checkTyped cSep e t checkItems eNode doc strNode [] with
            | fault e => rfl
            | ok r => simp only [result_bind_ok, result_pure]

mutual
theorem checkNode_frame (cSep : Char) : ∀ (cfg : stNodeConfig), cfg.callbackFree = true →
    ∀ (doc : Value) (strNode : Str) (vec : CheckRet),
      checkNode cSep cfg doc strNode vec
        = (checkNode cSep cfg doc strNode [] >>= fun r =>
            Result.ok (r.1, doc, vec ++ r.2.2))
  | .mk o n e t cb none, hfree, doc, strNode, vec => by
    simp only [stNodeConfig.callbackFree, Option.isNone_iff_eq_none] at hfree
    subst hfree
    simp only [checkNode]
    exact checkStep_frame cSep o n e t none (fun g hg => by cases hg) doc strNode vec
  | .mk o n e t cb (some items), hfree, doc, strNode, vec => by
    simp only [stNodeConfig.callbackFree, Bool.and_eq_true, Option.isNone_iff_eq_none]
      at hfree
    obtain ⟨hcb, hit⟩ := hfree
    subst hcb
    simp only [checkNode]
    refine checkStep_frame cSep o n e t _ ?_ doc strNode vec
    intro g hg d p i v
    simp only [Option.some.injEq] at hg
    subst hg
    exact checkNodeItems_frame cSep items hit d p i v
theorem checkNodeItems_frame (cSep : Char) : ∀ (items : List (Str × stNodeConfig)),
    callbackFreeItems items = true →
    ∀ (doc : Value) (strPath : Str) (iRet : Int) (vec : CheckRet),
      checkNodeItems cSep items doc strPath iRet vec
        = (checkNodeItems cSep items doc strPath iRet [] >>= fun r =>
            Result.ok (r.1, doc, vec ++ r.2.2))
  | [], _, doc, strPath, iRet, vec => by
    simp only [checkNodeItems, result_pure, result_bind_ok, List.append_nil]
  | (k, cfg) :: rest, hfree, doc, strPath, iRet, vec => by
    simp only [callbackFreeItems, Bool.and_eq_true] at hfree
    simp only [checkNodeItems]
    rw [checkNode_frame cSep cfg hfree.1 doc _ vec]
    have h0 := checkNode_frame cSep cfg hfree.1 doc (strPath ++ '.' :: k) []
    cases hc : checkNode cSep cfg doc (strPath ++ '.' :: k) [] with
    | fault e => rfl
    | ok r1 =>
      obtain ⟨i1, d1, e1⟩ := r1
      rw [hc] at h0
      simp only [result_bind_ok, List.nil_append, Result.ok.injEq, Prod.mk.injEq, true_and]
        at h0
      have hd : d1 = doc := h0.1
      subst hd
      simp only [result_bind_ok]
      rw [checkNodeItems_frame cSep rest hfree.2 d1 strPath i1 (vec ++ e1),
        checkNodeItems_frame cSep rest hfree.2 d1 strPath i1 e1]
      cases checkNodeItems cSep rest d1 strPath i1 [] with
      | fault e => rfl
      | ok r2 => simp only [result_bind_ok, List.append_assoc]
end

theorem check_fold_callbackFree (cSep : Char) (doc : Value)
    (xs : List (Str × stNodeConfig)) (hfree : ∀ entry ∈ xs, entry.2.callbackFree = true)
    (i : Int) (v : CheckRet) :
    ∃ status : CheckRet → Int,
      xs.foldlM (fun (st : Int × Value × CheckRet) (pairMapNodes : Str × stNodeConfig) =>
          checkNode cSep pairMapNodes.2 st.2.1 pairMapNodes.1 st.2.2) (i, doc, v)
        = (concatErrors cSep doc xs >>= fun es => Result.ok (status es, doc, v ++ es)) := by
  induction xs generalizing i v with
  | nil =>
    refine ⟨fun _ => i, ?_⟩
    simp only [List.foldlM_nil, concatErrors, result_pure, result_bind_ok, List.append_nil]
  | cons x xs ih =>
    have hx := hfree x (List.mem_cons_self _ _)
    have hxs : ∀ entry ∈ xs, entry.2.callbackFree = true :=
      fun entry he => hfree entry (List.mem_cons_of_mem _ he)
    have h0 := checkNode_frame cSep x.2 hx doc x.1 []
    cases hc : checkNode cSep x.2 doc x.1 [] with
    | fault e =>
      refine ⟨fun _ => 0, ?_⟩
      rw [List.foldlM_cons]
      simp only [checkNode_frame cSep x.2 hx doc x.1 v, hc, concatErrors, nodeErrors,
        result_bind_fault]
    | ok r1 =>
      obtain ⟨i1, d1, e1⟩ := r1
      rw [hc] at h0
      simp only [result_bind_ok, List.nil_append, Result.ok.injEq, Prod.mk.injEq, true_and]
        at h0
      have hd : d1 = doc := h0.1
      subst hd
      obtain ⟨status, hst⟩ := ih hxs i1 (v ++ e1)
      refine ⟨fun es => status (es.drop e1.length), ?_⟩
      rw [List.foldlM_cons]
      simp only [checkNode_frame cSep x.2 hx d1 x.1 v, hc, result_bind_ok, hst, concatErrors,
        nodeErrors, result_pure]
      cases concatErrors cSep d1 xs with
      | fault e => rfl
      | ok es =>
        simp only [result_bind_ok, List.drop_left, List.append_assoc]

/-- C25: for every non-empty source text that parses and every schema without callbacks,
check leaves the parsed document unchanged and the error sequence it returns is the
concatenation, in the order of the schema entries, of the error sequences the node check
produces for each entry on the parsed document; check fails to return exactly when one of
these node checks does.  No entry is skipped after an error and no error is dropped. -/
theorem C25_check_accumulates (Parse : Str → Option Value) (cSep : Char)
    (doc0 parsed : Value) (strConfig : Str) (mapNodes : List (Str × stNodeConfig))
    (vec0 : CheckRet) (hne : strConfig ≠ []) (hparse : Parse (cstr strConfig) = some parsed)
    (hfree : ∀ entry ∈ mapNodes, entry.2.callbackFree = true) :
    (check Parse cSep doc0 strConfig mapNodes vec0 >>= fun r => Result.ok (r.2.1, r.2.2))
      = (concatErrors cSep parsed mapNodes >>= fun es => Result.ok (parsed, es)) := by
  have hemp : strConfig.isEmpty = false := isEmpty_false_of_ne_nil strConfig hne
  obtain ⟨status, hst⟩ := check_fold_callbackFree cSep parsed mapNodes hfree 0 []
  simp only [check, hemp, Bool.false_eq_true, if_false, hparse, hst]
  cases concatErrors cSep parsed mapNodes with
  | fault e => rfl
  | ok es => simp only [result_bind_ok, result_pure, List.nil_append]

/-- C25 at a schema of three entries, of which the first and the third give an error. -/
theorem C25_check_accumulates_witness :
    (check (fun _ => some (.obj [("a".toList, .str []), ("b".toList, .int 1)])) '.' .null
        "text".toList
        [("a".toList, .mk false false false TYPE.STRING none none),
          ("b".toList, .mk false false false TYPE.INT none none),
          ("c".toList, .mk false false false TYPE.INT none none)]
        [("stale".toList, .NO_ERROR)] >>= fun r => Result.ok (r.2.1, r.2.2))
      = (concatErrors '.' (.obj [("a".toList, .str []), ("b".toList, .int 1)])
          [("a".toList, .mk false false false TYPE.STRING none none),
            ("b".toList, .mk false false false TYPE.INT none none),
            ("c".toList, .mk false false false TYPE.INT none none)] >>= fun es =>
          Result.ok (Value.obj [("a".toList, .str []), ("b".toList, .int 1)], es)) ∧
    concatErrors '.' (.obj [("a".toList, .str []), ("b".toList, .int 1)])
        [("a".toList, .mk false false false TYPE.STRING none none),
          ("b".toList, .mk false false false TYPE.INT none none),
          ("c".toList, .mk false false false TYPE.INT none none)]
      = .ok [("a".toList, .BAD_VALUE), ("c".toList, .MISSING_NODE)] :=
  ⟨C25_check_accumulates (fun _ => some (.obj [("a".toList, .str []), ("b".toList, .int 1)]))
      '.' .null _ "text".toList _ _ (by decide) rfl (by decide),
    by decide⟩

/-! ## The callback of a node and the paths of its children (C32, C34, C35) -/

/-- C32 (defect of the code): the Object o has the member b and no member a; the check of
the child a appends (o.a, MISSING_NODE), the check of the child b then sets the status back
to 0, and the callback of o is invoked (it appends (o, NO_ERROR) here) although an error
was appended below the node.  Likewise for an Array whose first element is not an Object
and whose second element passes.  When the failing child is the last one the callback is
not invoked. -/
theorem C32_callback_after_child_error :
    checkNode '.'
        (.mk false false false TYPE.OBJECT
          (some fun d p v => .ok (0, d, v ++ [(p, .NO_ERROR)]))
          (some [("a".toList, .mk false false false TYPE.INT none none),
            ("b".toList, .mk false false false TYPE.INT none none)]))
        (.obj [("o".toList, .obj [("b".toList, .int 1)])]) "o".toList []
      = .ok (0, .obj [("o".toList, .obj [("b".toList, .int 1)])],
          [("o.a".toList, .MISSING_NODE), ("o".toList, .NO_ERROR)]) ∧
    checkNode '.'
        (.mk false false false TYPE.ARRAY
          (some fun d _ v => .ok (0, d, v ++ [("called".toList, .NO_ERROR)]))
          (some [("id".toList, .mk false false false TYPE.INT none none)]))
        (.obj [("items".toList, .arr [.int 7, .obj [("id".toList, .int 1)]])])
        "items".toList []
      = .ok (0, .obj [("items".toList, .arr [.int 7, .obj [("id".toList, .int 1)]])],
          [("items[0]".toList, .BAD_FORMAT), ("called".toList, .NO_ERROR)]) ∧
    checkNode '.'
        (.mk false false false TYPE.OBJECT
          (some fun d p v => .ok (0, d, v ++ [(p, .NO_ERROR)]))
          (some [("a".toList, .mk false false false TYPE.INT none none),
            ("b".toList, .mk false false false TYPE.INT none none)]))
        (.obj [("o".toList, .obj [("a".toList, .int 1)])]) "o".toList []
      = .ok (-1, .obj [("o".toList, .obj [("a".toList, .int 1)])],
          [("o.b".toList, .MISSING_NODE)]) := by
  refine ⟨by decide, by decide, by decide⟩

/-- C34 (defect of the code): for the Array node checked at "items", with a map of node
items and two elements, the callback receives the path "items[1]" of the last element:
the loop over the items assigns each element path to strPath, the variable handed to the
callback.  Without a map of node items, and for an Object node, it receives "items"
and "o". -/
theorem C34_callback_gets_last_element_path :
    checkNode '.'
        (.mk false false false TYPE.ARRAY
          (some fun d p v => .ok (0, d, v ++ [(p, .NO_ERROR)]))
          (some [("id".toList, .mk false false false TYPE.INT none none)]))
        (.obj [("items".toList,
          .arr [.obj [("id".toList, .int 1)], .obj [("id".toList, .int 2)]])])
        "items".toList []
      = .ok (0, .obj [("items".toList,
            .arr [.obj [("id".toList, .int 1)], .obj [("id".toList, .int 2)]])],
          [("items[1]".toList, .NO_ERROR)]) ∧
    checkNode '.'
        (.mk false false false TYPE.ARRAY
          (some fun d p v => .ok (0, d, v ++ [(p, .NO_ERROR)])) none)
        (.obj [("items".toList,
          .arr [.obj [("id".toList, .int 1)], .obj [("id".toList, .int 2)]])])
        "items".toList []
      = .ok (0, .obj [("items".toList,
            .arr [.obj [("id".toList, .int 1)], .obj [("id".toList, .int 2)]])],
          [("items".toList, .NO_ERROR)]) ∧
    checkNode '.'
        (.mk false false false TYPE.OBJECT
          (some fun d p v => .ok (0, d, v ++ [(p, .NO_ERROR)]))
          (some [("id".toList, .mk false false false TYPE.INT none none)]))
        (.obj [("o".toList, .obj [("id".toList, .int 1)])]) "o".toList []
      = .ok (0, .obj [("o".toList, .obj [("id".toList, .int 1)])],
          [("o".toList, .NO_ERROR)]) := by
  refine ⟨by decide, by decide, by decide⟩

/-- C35 (defect of the code): on an instance whose path separator is '/', the Object at
"cfg/o" has the member x, yet the check of the child x reports (cfg/o.x, MISSING_NODE):
the child path is formed with the character '.', not with the separator of the instance.
With the separator '.' the same schema gives no error. -/
theorem C35_child_path_joined_with_dot :
    exist '/' (.obj [("cfg".toList, .obj [("o".toList, .obj [("x".toList, .int 1)])])])
        "cfg/o/x".toList = .ok true ∧
    checkNode '/'
        (.mk false false false TYPE.OBJECT none
          (some [("x".toList, .mk false false false TYPE.INT none none)]))
        (.obj [("cfg".toList, .obj [("o".toList, .obj [("x".toList, .int 1)])])])
        "cfg/o".toList []
      = .ok (-1, .obj [("cfg".toList, .obj [("o".toList, .obj [("x".toList, .int 1)])])],
          [("cfg/o.x".toList, .MISSING_NODE)]) ∧
    checkNode '.'
        (.mk false false false TYPE.OBJECT none
          (some [("x".toList, .mk false false false TYPE.INT none none)]))
        (.obj [("cfg".toList, .obj [("o".toList, .obj [("x".toList, .int 1)])])])
        "cfg.o".toList []
      = .ok (0, .obj [("cfg".toList, .obj [("o".toList, .obj [("x".toList, .int 1)])])],
          []) := by
  refine ⟨by decide, by decide, by decide⟩

/-! ## Determinism of check (C33) -/

/-- C33: for every source text and every schema, a schema without callbacks in particular,
the status code and the error sequence of check are the same whatever document the
instance held before the call and whatever the vector held on entry; they are functions
of the source text and the schema alone. -/
theorem C33_check_deterministic (Parse : Str → Option Value) (cSep : Char)
    (strConfig : Str) (mapNodes : List (Str × stNodeConfig))
    (doc0 doc1 : Value) (vec0 vec1 : CheckRet) :
    (check Parse cSep doc0 strConfig mapNodes vec0 >>= fun r => Result.ok (r.1, r.2.2))
      = (check Parse cSep doc1 strConfig mapNodes vec1 >>= fun r =>
          Result.ok (r.1, r.2.2)) := by
  unfold check
  cases strConfig.isEmpty with
  | true => rfl
  | false =>
    simp only [Bool.false_eq_true, if_false]
    cases Parse (cstr strConfig) with
    | none => rfl
    | some parsed => rfl

/-! ## Vectors (C39) -/

/-- C39 (defect of the code): on the empty root of a fresh instance, set of the vector
[1, 2] at "name" does not return 0: the first item is written at "name[0]", where the
terminal branch for an empty object pushes into the object instead of the new array, and
PushBack fails its precondition.  On a root that holds another member the vector is
written as the Array [1, 2], size is 2 and get yields 1 and 2 in this order. -/
theorem C39_vector_on_empty_root :
    setVector '.' (.obj []) [.integer .int 1, .integer .int 2] "name".toList
      = .fault .assertion ∧
    setVector '.' (.obj [("x".toList, .int 0)]) [.integer .int 1, .integer .int 2]
        "name".toList
      = .ok (0, .obj [("x".toList, .int 0), ("name".toList, .arr [.int 1, .int 2])]) ∧
    size '.' (.obj [("x".toList, .int 0), ("name".toList, .arr [.int 1, .int 2])])
        "name".toList = .ok 2 ∧
    getVector '.' (.obj [("x".toList, .int 0), ("name".toList, .arr [.int 1, .int 2])])
        (.integer .int) [] "name".toList
      = .ok (0, [.value (.integer .int 1), .value (.integer .int 2)]) := by
  refine ⟨by decide, by decide, by decide, by decide⟩

/-! ## The default node config (C40) -/

/-- C40: for every document in which a valid path addresses a value that is not Null, and
every config whose type is UKNOWN (0), vector on entry included, the node check appends
exactly one error (path, BAD_FORMAT) and returns -1, whatever the kind of the node and
whatever the other fields of the config are; the document is unchanged. -/
theorem C40_default_config_rejects (cSep : Char) (hs : PlainSep cSep) (segs : List Segment)
    (hne : segs ≠ []) (hval : ∀ s ∈ segs, ValidSegment cSep s) (doc c : Value)
    (hres : resolve doc segs = some c) (hnull : c.IsNull = false)
    (o n e : Bool) (cb : Option tCallback) (items : Option (List (Str × stNodeConfig)))
    (vec : CheckRet) :
    checkNode cSep (.mk o n e TYPE.UKNOWN cb items) doc (pathText cSep segs) vec
      = .ok (-1, doc, vec ++ [(pathText cSep segs, .BAD_FORMAT)]) := by
  have hex := exist_resolve cSep hs segs hne hval doc _ hres
  have hem := empty_resolve cSep hs segs hne hval doc _ hres
  have hty := getType_resolve cSep hs segs hne hval doc _ hres
  simp only [hnull, Bool.and_false] at hem
  rw [checkNode_eq]
  simp only [stNodeConfig.bOptional, stNodeConfig.bNull, stNodeConfig.bEmpty,
    stNodeConfig.eType, stNodeConfig.callback]
  exact checkStep_bad_format cSep _ _ _ _ _ _ doc _ vec _ hex hem hty
    (Nat.and_zero (type c))

/-- C40 at the path "cfg.list[1]" that addresses a string, for a config with a callback
and a child config. -/
theorem C40_default_config_rejects_witness :
    checkNode '.'
        (.mk true true true TYPE.UKNOWN
          (some fun d p v => .ok (0, d, v ++ [(p, .NO_ERROR)]))
          (some [("x".toList, .mk false false false TYPE.INT none none)]))
        (.obj [("cfg".toList, .obj [("list".toList, .arr [.int 1, .str "s".toList])])])
        (pathText '.' [("cfg".toList, none), ("list".toList, some 1)]) []
      = .ok (-1, .obj [("cfg".toList, .obj [("list".toList, .arr [.int 1, .str "s".toList])])],
          [] ++ [(pathText '.' [("cfg".toList, none), ("list".toList, some 1)],
            .BAD_FORMAT)]) :=
  C40_default_config_rejects '.' (by decide)
    [("cfg".toList, none), ("list".toList, some 1)] (by decide) (by decide) _
    (.str "s".toList) (by decide) (by decide) true true true _ _ []

/-! ## The classification of integer nodes (C37) -/

/-- The flags of the enumeration TYPE that are not combined masks. -/
theorem type_single_flag (c : Value) :
    type c ∈ [TYPE.UKNOWN, TYPE.OBJECT, TYPE.ARRAY, TYPE.SINT32, TYPE.SINT64, TYPE.UINT32,
      TYPE.UINT64, TYPE.FLOAT, TYPE.DOUBLE, TYPE.BOOL, TYPE.STRING] := by
  cases c with
  | int n =>
    unfold type
    simp only
    split_ifs <;> simp
  | real d =>
    unfold type
    simp only
    split_ifs <;> simp
  | _ => simp [type]

theorem processTypeFuel_single_flag (cSep : Char) (fuel : Nat) (j : Value) (strNode : Str)
    (t : TYPE) (h : processTypeFuel cSep fuel j strNode = .ok t) :
    t ∈ [TYPE.UKNOWN, TYPE.OBJECT, TYPE.ARRAY, TYPE.SINT32, TYPE.SINT64, TYPE.UINT32,
      TYPE.UINT64, TYPE.FLOAT, TYPE.DOUBLE, TYPE.BOOL, TYPE.STRING] := by
  induction fuel generalizing j strNode with
  | zero => cases h
  | succ fuel ih =>
    have hu : t = TYPE.UKNOWN → t ∈ [TYPE.UKNOWN, TYPE.OBJECT, TYPE.ARRAY, TYPE.SINT32,
        TYPE.SINT64, TYPE.UINT32, TYPE.UINT64, TYPE.FLOAT, TYPE.DOUBLE, TYPE.BOOL,
        TYPE.STRING] := by
      intro ht
      rw [ht]
      simp
    simp only [processTypeFuel, processTypeStep] at h
    obtain ⟨a, _, h1⟩ := bind_eq_ok _ _ _ h
    obtain ⟨name, children, i⟩ := a
    simp only at h1
    have hterm : ∀ (x : Result (Int × Assigned × Value)),
        (x >>= fun r =>
          if r.1 = 0 then
            if i = IS_OBJECT then do
              let childObject ← j.member (cstr name)
              pure (type childObject)
            else do
              let arrObject ← j.member (cstr name)
              let childObject ← arrObject.elem i
              pure (type childObject)
          else pure TYPE.UKNOWN) = Result.ok t →
        t ∈ [TYPE.UKNOWN, TYPE.OBJECT, TYPE.ARRAY, TYPE.SINT32, TYPE.SINT64, TYPE.UINT32,
          TYPE.UINT64, TYPE.FLOAT, TYPE.DOUBLE, TYPE.BOOL, TYPE.STRING] := by
      intro x hx
      obtain ⟨b, _, h2⟩ := bind_eq_ok _ _ _ hx
      by_cases hz : b.1 = 0
      · simp only [hz, if_true] at h2
        by_cases hi : i = IS_OBJECT
        · simp only [hi, if_true] at h2
          obtain ⟨c, _, h3⟩ := bind_eq_ok _ _ _ h2
          simp only [result_pure, Result.ok.injEq] at h3
          rw [← h3]
          exact type_single_flag c
        · simp only [hi, if_false] at h2
          obtain ⟨m, _, h3⟩ := bind_eq_ok _ _ _ h2
          obtain ⟨c, _, h4⟩ := bind_eq_ok _ _ _ h3
          simp only [result_pure, Result.ok.injEq] at h4
          rw [← h4]
          exact type_single_flag c
      · simp only [hz, if_false, result_pure, Result.ok.injEq] at h2
        exact hu h2.symm
    have hdesc : ∀ (x : Result (Int × Assigned × Value)),
        (x >>= fun r =>
          if r.1 = 0 then
            if i = IS_OBJECT then do
              let childObject ← j.member (cstr name)
              processTypeFuel cSep fuel childObject children
            else do
              let arrObject ← j.member (cstr name)
              let childObject ← arrObject.elem i
              processTypeFuel cSep fuel childObject children
          else pure TYPE.UKNOWN) = Result.ok t →
        t ∈ [TYPE.UKNOWN, TYPE.OBJECT, TYPE.ARRAY, TYPE.SINT32, TYPE.SINT64, TYPE.UINT32,
          TYPE.UINT64, TYPE.FLOAT, TYPE.DOUBLE, TYPE.BOOL, TYPE.STRING] := by
      intro x hx
      obtain ⟨b, _, h2⟩ := bind_eq_ok _ _ _ hx
      by_cases hz : b.1 = 0
      · simp only [hz, if_true] at h2
        by_cases hi : i = IS_OBJECT
        · simp only [hi, if_true] at h2
          obtain ⟨c, _, h3⟩ := bind_eq_ok _ _ _ h2
          exact ih c children h3
        · simp only [hi, if_false] at h2
          obtain ⟨m, _, h3⟩ := bind_eq_ok _ _ _ h2
          obtain ⟨c, _, h4⟩ := bind_eq_ok _ _ _ h3
          exact ih c children h4
      · simp only [hz, if_false, result_pure, Result.ok.injEq] at h2
        exact hu h2.symm
    by_cases hch : children.isEmpty = true
    · simp only [hch, if_true] at h1
      exact hterm _ h1
    · simp only [hch, if_false] at h1
      by_cases hne : name.isEmpty = true
      · simp only [hne, Bool.not_true, Bool.false_eq_true, if_false, result_pure,
          Result.ok.injEq] at h1
        exact hu h1.symm
      · simp only [hne, Bool.not_false, Bool.not_eq_true, if_true] at h1
        exact hdesc _ h1

theorem type_int_64bit (n : Int) (hlo : -9223372036854775808 ≤ n)
    (hhi : n ≤ 18446744073709551615) :
    type (.int n)
      = (if -2147483648 ≤ n ∧ n ≤ 2147483647 then TYPE.SINT32
        else if 2147483648 ≤ n ∧ n ≤ 4294967295 then TYPE.UINT32
        else if n ≤ 9223372036854775807 then TYPE.SINT64
        else TYPE.UINT64) := by
  unfold type
  simp only
  by_cases h1 : -2147483648 ≤ n ∧ n ≤ 2147483647
  · have e1 : IsInt n = true := decide_eq_true h1
    rw [if_pos h1]
    simp only [e1, if_true]
  · have e1 : IsInt n = false := decide_eq_false h1
    rw [if_neg h1]
    by_cases h2 : 2147483648 ≤ n ∧ n ≤ 4294967295
    · have e2 : IsUint n = true := decide_eq_true ⟨by omega, h2.2⟩
      rw [if_pos h2]
      simp only [e1, e2, if_true, if_false, Bool.false_eq_true]
    · have e2 : IsUint n = false := decide_eq_false (by omega)
      rw [if_neg h2]
      by_cases h4 : n ≤ 9223372036854775807
      · have e3 : IsInt64 n = true := decide_eq_true ⟨hlo, h4⟩
        rw [if_pos h4]
        simp only [e1, e2, e3, if_true, if_false, Bool.false_eq_true]
      · have e3 : IsInt64 n = false := decide_eq_false (by omega)
        have e4 : IsUint64 n = true := decide_eq_true ⟨by omega, hhi⟩
        rw [if_neg h4]
        simp only [e1, e2, e3, e4, if_true, if_false, Bool.false_eq_true]

/-- C37: for every document in which a valid path addresses an integer node with a value n
of the 64-bit ranges (-2^63 <= n <= 2^64 - 1), getType gives exactly one of the four
integer flags, fixed by n alone: SINT32 iff -2^31 <= n <= 2^31 - 1, UINT32 iff
2^31 <= n <= 2^32 - 1, SINT64 iff n < -2^31 or 2^32 <= n <= 2^63 - 1, and UINT64 iff
2^63 <= n <= 2^64 - 1.  And for every document and every path, whatever getType returns
is UKNOWN or a single flag, never a combined mask. -/
theorem C37_integer_partition (cSep : Char) (hs : PlainSep cSep) (segs : List Segment)
    (hne : segs ≠ []) (hval : ∀ s ∈ segs, ValidSegment cSep s) (doc : Value) (n : Int)
    (hres : resolve doc segs = some (.int n))
    (hlo : -9223372036854775808 ≤ n) (hhi : n ≤ 18446744073709551615) :
    (∃ t, getType cSep doc (pathText cSep segs) = .ok t ∧
      (t = TYPE.SINT32 ∨ t = TYPE.UINT32 ∨ t = TYPE.SINT64 ∨ t = TYPE.UINT64) ∧
      (t = TYPE.SINT32 ↔ -2147483648 ≤ n ∧ n ≤ 2147483647) ∧
      (t = TYPE.UINT32 ↔ 2147483648 ≤ n ∧ n ≤ 4294967295) ∧
      (t = TYPE.SINT64 ↔ n < -2147483648 ∨ (4294967296 ≤ n ∧ n ≤ 9223372036854775807)) ∧
      (t = TYPE.UINT64 ↔ 9223372036854775808 ≤ n ∧ n ≤ 18446744073709551615)) ∧
    (∀ (anyDoc : Value) (strNode : Str) (t : TYPE),
      getType cSep anyDoc strNode = .ok t →
      t ∈ [TYPE.UKNOWN, TYPE.OBJECT, TYPE.ARRAY, TYPE.SINT32, TYPE.SINT64, TYPE.UINT32,
        TYPE.UINT64, TYPE.FLOAT, TYPE.DOUBLE, TYPE.BOOL, TYPE.STRING]) := by
  refine ⟨?_, fun anyDoc strNode t h => processTypeFuel_single_flag cSep _ anyDoc strNode t h⟩
  have hty := getType_resolve cSep hs segs hne hval doc _ hres
  rw [type_int_64bit n hlo hhi] at hty
  by_cases h1 : -2147483648 ≤ n ∧ n ≤ 2147483647
  · rw [if_pos h1] at hty
    refine ⟨_, hty, Or.inl rfl, ?_, ?_, ?_, ?_⟩ <;> constructor <;> intro h <;>
      first
      | exact absurd h (by decide)
      | rfl
      | omega
  · rw [if_neg h1] at hty
    by_cases h2 : 2147483648 ≤ n ∧ n ≤ 4294967295
    · rw [if_pos h2] at hty
      refine ⟨_, hty, Or.inr (Or.inl rfl), ?_, ?_, ?_, ?_⟩ <;> constructor <;> intro h <;>
        first
        | exact absurd h (by decide)
        | rfl
        | omega
    · rw [if_neg h2] at hty
      by_cases h4 : n ≤ 9223372036854775807
      · rw [if_pos h4] at hty
        refine ⟨_, hty, Or.inr (Or.inr (Or.inl rfl)), ?_, ?_, ?_, ?_⟩ <;> constructor <;>
          intro h <;>
          first
          | exact absurd h (by decide)
          | rfl
          | omega
      · rw [if_neg h4] at hty
        refine ⟨_, hty, Or.inr (Or.inr (Or.inr rfl)), ?_, ?_, ?_, ?_⟩ <;> constructor <;>
          intro h <;>
          first
          | exact absurd h (by decide)
          | rfl
          | omega

/-- C37 at the path "a.n" with n = 5000000000, which is classified SINT64. -/
theorem C37_integer_partition_witness :
    ∃ t, getType '.' (.obj [("a".toList, .obj [("n".toList, .int 5000000000)])])
        (pathText '.' [("a".toList, none), ("n".toList, none)]) = .ok t ∧
      (t = TYPE.SINT32 ∨ t = TYPE.UINT32 ∨ t = TYPE.SINT64 ∨ t = TYPE.UINT64) ∧
      (t = TYPE.SINT32 ↔ (-2147483648 : Int) ≤ 5000000000 ∧ (5000000000 : Int) ≤ 2147483647) ∧
      (t = TYPE.UINT32 ↔ (2147483648 : Int) ≤ 5000000000 ∧ (5000000000 : Int) ≤ 4294967295) ∧
      (t = TYPE.SINT64 ↔ (5000000000 : Int) < -2147483648 ∨
        ((4294967296 : Int) ≤ 5000000000 ∧ (5000000000 : Int) ≤ 9223372036854775807)) ∧
      (t = TYPE.UINT64 ↔ (9223372036854775808 : Int) ≤ 5000000000 ∧
        (5000000000 : Int) ≤ 18446744073709551615) :=
  (C37_integer_partition '.' (by decide) [("a".toList, none), ("n".toList, none)]
    (by decide) (by decide) _ 5000000000 (by decide) (by decide) (by decide)).1

/-! ## Auto-vivification of an array member (C36) -/

/-- C36 (counterexample): with the index 18446744073709551615, the value of IS_OBJECT, the
write at "name[i].f" creates the member name as an Object, not as an Array; and a string
with an embedded NUL is stored up to the NUL, so the read does not yield it. -/
theorem C36_counterexample :
    set '.' (.obj [("x".toList, .int 1)]) (.integer .int 5)
        (indexed "name".toList 18446744073709551615 ++ '.' :: "f".toList)
      = .ok (0, .obj [("x".toList, .int 1),
          ("name".toList, .obj [("f".toList, .int 5)])]) ∧
    set '.' (.obj []) (.string ['a', NUL, 'b']) "name[0].f".toList
      = .ok (0, .obj [("name".toList, .arr [.obj [("f".toList, .str ['a'])]])]) ∧
    get '.' (.obj [("name".toList, .arr [.obj [("f".toList, .str ['a'])]])]) .string
        "name[0].f".toList
      = .ok (0, .value (.string ['a'])) := by
  refine ⟨by decide, by decide, by decide⟩

/-- C36 (amended): for every root object, the empty one included, that has no member under
`name`, every index i other than 2^64 - 1, every field name f and every scalar v (names not
empty and free of NUL, of the separator and of '['), the write at "name[i].f" returns 0 and
appends the member `name` holding the Array of the one Object with the one member f = v (a
string v stored up to its first NUL), whatever the value of i; and for a supported scalar,
get at "name[0].f" then returns 0 and yields v. -/
theorem C36_array_auto_vivification (cSep : Char) (hs : PlainSep cSep)
    (ms : List (Str × Value)) (name f : Str) (i : Nat) (v : TValue)
    (hn : PlainName cSep name) (hnul : NUL ∉ name) (hf : PlainName cSep f)
    (hfnul : NUL ∉ f) (hi : i < IS_OBJECT) (habs : findMember ms name = none) :
    set cSep (.obj ms) v (indexed name i ++ cSep :: f)
      = .ok (0, .obj (ms ++ [(name, .arr [.obj [(f, stored v)]])])) ∧
    (v.Supported →
      get cSep (.obj (ms ++ [(name, .arr [.obj [(f, stored v)]])])) v.ctype
          (indexed name 0 ++ cSep :: f)
        = .ok (0, .value v)) := by
  have hc : cstr name = name := cstr_of_not_mem name hnul
  have hcf : cstr f = f := cstr_of_not_mem f hfnul
  have hsp := split_indexed_cons cSep name f i hs hn (Nat.le_of_lt hi)
  have hine : i ≠ IS_OBJECT := Nat.ne_of_lt hi
  have hinner : set cSep (.obj []) v f = .ok (0, .obj [(f, stored v)]) := by
    rw [set_plain_terminal cSep [] f v hf]
    rfl
  constructor
  · cases ms with
    | nil =>
      rw [set_descend_empty cSep v _ name f i hsp hn.1 hf.1, hinner]
      simp only [result_bind_ok, hine, if_false, List.nil_append]
    | cons m ms =>
      rw [set_descend_absent cSep (m :: ms) v _ name f i hsp hn.1 hf.1 (by simp)
        (by rw [hc]; exact habs), hinner]
      simp only [result_bind_ok, hine, if_false]
  · intro hv
    have hfa : findMember (ms ++ [(name, .arr [.obj [(f, stored v)]])]) (cstr name)
        = some (.arr [.obj [(f, stored v)]]) := by
      rw [hc]
      exact findMember_append_new ms name _ habs
    have hff : findMember [(f, stored v)] (cstr f) = some (stored v) := by
      rw [hcf]
      simp [findMember]
    rw [get_descend_item cSep _ v.ctype _ name f 0 [.obj [(f, stored v)]] _
        (split_indexed_cons cSep name f 0 hs hn (by decide)) (by decide) hn.1 hf.1 hfa
        (by decide) rfl,
      get_terminal cSep [(f, stored v)] v.ctype f f IS_OBJECT (stored v)
        (split_plain cSep f hf) hf.1 hff]
    exact getElement_stored v _ hv

/-- C36 at the path "name[7].f" on the empty root. -/
theorem C36_array_auto_vivification_witness :
    set '.' (.obj []) (.integer .int 5) (indexed "name".toList 7 ++ '.' :: "f".toList)
      = .ok (0, .obj ([] ++ [("name".toList, .arr [.obj [("f".toList, .int 5)]])])) ∧
    get '.' (.obj ([] ++ [("name".toList, .arr [.obj [("f".toList, .int 5)]])]))
        (.integer .int) (indexed "name".toList 0 ++ '.' :: "f".toList)
      = .ok (0, .value (.integer .int 5)) :=
  ⟨(C36_array_auto_vivification '.' (by decide) [] "name".toList "f".toList 7
      (.integer .int 5) (by decide) (by decide) (by decide) (by decide) (by decide)
      (by decide)).1,
    (C36_array_auto_vivification '.' (by decide) [] "name".toList "f".toList 7
      (.integer .int 5) (by decide) (by decide) (by decide) (by decide) (by decide)
      (by decide)).2 (by decide)⟩

/-! ## The members a write leaves alone (C38) -/

theorem findMember_updMember_ne (ms : List (Str × Value)) (k0 k : Str) (x : Value)
    (h : k ≠ k0) : findMember (updMember ms k0 x) k = findMember ms k := by
  induction ms with
  | nil => rfl
  | cons m ms ih =>
    obtain ⟨k', v'⟩ := m
    by_cases hk : k' = k0
    · subst hk
      simp [updMember, findMember, Ne.symm h]
    · by_cases hk2 : k' = k
      · subst hk2
        simp [updMember, findMember, hk]
      · simp [updMember, findMember, hk, hk2, ih]

theorem findMember_append_ne (ms : List (Str × Value)) (k0 k : Str) (x : Value)
    (h : k ≠ k0) : findMember (ms ++ [(k0, x)]) k = findMember ms k := by
  rw [findMember_append]
  cases findMember ms k <;> simp [findMember, Ne.symm h]

theorem set_shape (cSep : Char) (ms : List (Str × Value)) (v : TValue) (strNode : Str)
    (name children : Str) (i : Nat) (hsp : split cSep strNode = .ok (name, children, i))
    (code : Int) (after : Value) (h : set cSep (.obj ms) v strNode = .ok (code, after)) :
    after = .obj ms ∨ (∃ x, after = .obj (ms ++ [(name, x)])) ∨
      ∃ x, after = .obj (updMember ms (cstr name) x) := by
  rw [set_unfold] at h
  by_cases hne : name.isEmpty = true
  · simp only [setStep, hsp, result_bind_ok, hne, if_true, result_pure, Result.ok.injEq,
      Prod.mk.injEq] at h
    exact Or.inl h.2.symm
  · have fin : ∀ (c0 : Int) (X : Value), Result.ok (c0, X) = Result.ok (code, after) →
        (X = .obj ms ∨ (∃ x, X = .obj (ms ++ [(name, x)])) ∨
          ∃ x, X = .obj (updMember ms (cstr name) x)) →
        (after = .obj ms ∨ (∃ x, after = .obj (ms ++ [(name, x)])) ∨
          ∃ x, after = .obj (updMember ms (cstr name) x)) := by
      intro c0 X hX hshape
      simp only [Result.ok.injEq, Prod.mk.injEq] at hX
      rw [← hX.2]
      exact hshape
    cases ms with
    | nil =>
      cases hch : children.isEmpty <;> by_cases hi : i = IS_OBJECT <;>
        simp only [setStep, hsp, result_bind_ok, hne, hch, hi, if_true, if_false,
          Bool.false_eq_true, Value.ObjectEmpty, Value.IsNull, Value.HasMember,
          Value.AddMember, Value.setMember, Value.member, Value.PushBack, Bool.or_false,
          Bool.or_true, Bool.true_or, castData_SET, castData_ADD_obj, castData_PUSHBACK_obj,
          castData_PUSHBACK_arr, result_bind_fault, result_pure, List.isEmpty_nil] at h
      all_goals
        repeat' first
          | (obtain ⟨r, -, h⟩ := bind_eq_ok _ _ _ h; try dsimp only at h)
          | (split at h)
      all_goals first
        | exact fin _ _ h (Or.inl rfl)
        | exact fin _ _ h (Or.inr (Or.inl ⟨_, rfl⟩))
        | exact fin _ _ h (Or.inr (Or.inr ⟨_, rfl⟩))
        | cases h
    | cons m rest =>
      cases hch : children.isEmpty <;>
        cases hfm : findMember (m :: rest) (cstr name) <;> by_cases hi : i = IS_OBJECT <;>
        simp only [setStep, hsp, result_bind_ok, hne, hch, hfm, hi, if_true, if_false,
          Bool.false_eq_true, Value.ObjectEmpty, Value.IsNull, Value.HasMember,
          Value.AddMember, Value.setMember, Value.member, Value.PushBack, Bool.or_false,
          Bool.or_true, Bool.true_or, castData_SET, castData_ADD_obj, castData_PUSHBACK_obj,
          castData_PUSHBACK_arr, result_bind_fault, result_pure, Option.isSome_none,
          Option.isSome_some, List.isEmpty_cons] at h
      all_goals
        repeat' first
          | (obtain ⟨r, -, h⟩ := bind_eq_ok _ _ _ h; try dsimp only at h)
          | (split at h)
      all_goals first
        | exact fin _ _ h (Or.inl rfl)
        | exact fin _ _ h (Or.inr (Or.inl ⟨_, rfl⟩))
        | exact fin _ _ h (Or.inr (Or.inr ⟨_, rfl⟩))

theorem process_congr_member (cSep : Char) (ms ms' : List (Str × Value)) (T : CType)
    (q qname qch : Str) (qi : Nat) (eType : stProcess.TYPE)
    (hsq : split cSep q = .ok (qname, qch, qi))
    (hfm : findMember ms' (cstr qname) = findMember ms (cstr qname))
    (hrem : eType ≠ .REMOVE) :
    (process cSep (.obj ms') T q eType >>= fun r => Result.ok (r.1, r.2.1))
      = (process cSep (.obj ms) T q eType >>= fun r => Result.ok (r.1, r.2.1)) := by
  cases hf : findMember ms (cstr qname) with
  | none =>
    rw [process_terminal_absent cSep ms T q qname qch qi eType hsq hf,
      process_terminal_absent cSep ms' T q qname qch qi eType hsq (by rw [hfm]; exact hf)]
    rfl
  | some c =>
    have hf' : findMember ms' (cstr qname) = some c := by rw [hfm]; exact hf
    by_cases hne : qname = []
    · subst hne
      rw [process_empty_name cSep _ T q qch qi eType hsq,
        process_empty_name cSep _ T q qch qi eType hsq]
      rfl
    · rw [process_unfold, process_unfold]
      cases hch : qch.isEmpty <;> by_cases hi : qi = IS_OBJECT <;> cases eType <;>
        first
        | exact absurd rfl hrem
        | simp only [processStep, hsq, result_bind_ok, isEmpty_false_of_ne_nil qname hne, hch,
            hi, ne_nil_of_findMember ms _ _ hf, ne_nil_of_findMember ms' _ _ hf',
            Value.ObjectEmpty, Value.IsNull, Value.HasMember, Value.member, hf, hf',
            result_pure, if_true, if_false, Bool.or_false, Option.isSome_some,
            Bool.false_eq_true, result_bind_assoc, Value.setMember]

theorem bind_congr_fst {α β γ : Type} (x y : Result (Int × α × β))
    (h : (x >>= fun r => Result.ok (r.1, r.2.1)) = (y >>= fun r => Result.ok (r.1, r.2.1)))
    (f g : Int × α × β → Result γ) (hfg : ∀ a b, a.1 = b.1 → f a = g b) :
    (x >>= f) = (y >>= g) := by
  cases x with
  | fault e =>
    cases y with
    | fault e' => cases h; rfl
    | ok b => cases h
  | ok a =>
    cases y with
    | fault e' => cases h
    | ok b =>
      have h2 : (Result.ok (a.1, a.2.1) : Result (Int × α)) = Result.ok (b.1, b.2.1) := h
      injection h2 with h3
      have h1 := congrArg Prod.fst h3
      exact hfg a b h1

theorem bind_fst_congr {α β γ : Type} (x y : Result (Int × α × β))
    (h : (x >>= fun r => Result.ok (r.1, r.2.1)) = (y >>= fun r => Result.ok (r.1, r.2.1)))
    (F : Int → Result γ) :
    (x >>= fun r => F r.1) = (y >>= fun r => F r.1) :=
  bind_congr_fst x y h _ _ (fun a b hab => by simp only [hab])

theorem exist_congr_member (cSep : Char) (ms ms' : List (Str × Value))
    (q qname qch : Str) (qi : Nat) (hsq : split cSep q = .ok (qname, qch, qi))
    (hfm : findMember ms' (cstr qname) = findMember ms (cstr qname)) :
    exist cSep (.obj ms') q = exist cSep (.obj ms) q :=
  bind_fst_congr _ _
    (process_congr_member cSep ms ms' (.integer .int) q qname qch qi .EXIST hsq hfm
      (by decide)) (fun i => Result.ok (decide (i = 0)))

theorem empty_congr_member (cSep : Char) (ms ms' : List (Str × Value))
    (q qname qch : Str) (qi : Nat) (hsq : split cSep q = .ok (qname, qch, qi))
    (hfm : findMember ms' (cstr qname) = findMember ms (cstr qname)) :
    empty cSep (.obj ms') q = empty cSep (.obj ms) q :=
  bind_fst_congr _ _
    (process_congr_member cSep ms ms' (.integer .int) q qname qch qi .EMPTY hsq hfm
      (by decide)) (fun i => Result.ok (decide (i ≠ 0)))

theorem get_congr_member (cSep : Char) (ms ms' : List (Str × Value)) (T : CType)
    (q qname qch : Str) (qi : Nat) (hsq : split cSep q = .ok (qname, qch, qi))
    (hfm : findMember ms' (cstr qname) = findMember ms (cstr qname)) :
    get cSep (.obj ms') T q = get cSep (.obj ms) T q := by
  rw [get_eq_process, get_eq_process]
  exact process_congr_member cSep ms ms' T q qname qch qi .GET hsq hfm (by decide)

theorem size_congr_member (cSep : Char) (ms ms' : List (Str × Value))
    (q qname qch : Str) (qi : Nat) (hsq : split cSep q = .ok (qname, qch, qi))
    (hfm : findMember ms' (cstr qname) = findMember ms (cstr qname)) :
    size cSep (.obj ms') q = size cSep (.obj ms) q := by
  cases hf : findMember ms (cstr qname) with
  | none =>
    rw [size_absent cSep ms q qname qch qi hsq hf,
      size_absent cSep ms' q qname qch qi hsq (by rw [hfm]; exact hf)]
  | some c =>
    have hf' : findMember ms' (cstr qname) = some c := by rw [hfm]; exact hf
    rw [size_unfold, size_unfold]
    unfold sizeStep
    rw [hsq]
    simp only [result_bind_ok, Value.ObjectEmpty, Value.IsNull, Value.HasMember, Value.member,
      hf, hf', ne_nil_of_findMember ms _ _ hf, ne_nil_of_findMember ms' _ _ hf']

theorem getType_congr_member (cSep : Char) (ms ms' : List (Str × Value))
    (q qname qch : Str) (qi : Nat) (hsq : split cSep q = .ok (qname, qch, qi))
    (hfm : findMember ms' (cstr qname) = findMember ms (cstr qname)) :
    getType cSep (.obj ms') q = getType cSep (.obj ms) q := by
  have key := process_congr_member cSep ms ms' (.integer .int) q qname qch qi .EXIST hsq hfm
    (by decide)
  rw [getType_unfold, getType_unfold]
  unfold processTypeStep
  rw [hsq]
  simp only [result_bind_ok, Value.member, hfm]
  cases hch : qch.isEmpty <;> cases hne : qname.isEmpty <;>
    simp only [if_true, if_false, Bool.false_eq_true, Bool.not_true, Bool.not_false] <;>
    first
    | rfl
    | (apply bind_congr_fst _ _ key
       intro a b hab
       simp only [hab])

/-- C38 (counterexample): the first segment names "a\0x" and "a" differ, yet the write at
"a\0x" looks the member up by the name cut at its NUL and so replaces the member "a": the
read at "a" yields 1 before the write and 5 after it. -/
theorem C38_counterexample :
    split '.' ['a', NUL, 'x'] = .ok (['a', NUL, 'x'], [], IS_OBJECT) ∧
    split '.' "a".toList = .ok ("a".toList, [], IS_OBJECT) ∧
    ['a', NUL, 'x'] ≠ "a".toList ∧
    set '.' (.obj [("a".toList, .int 1)]) (.integer .int 5) ['a', NUL, 'x']
      = .ok (0, .obj [("a".toList, .int 5)]) ∧
    get '.' (.obj [("a".toList, .int 1)]) (.integer .int) "a".toList
      = .ok (0, .value (.integer .int 1)) ∧
    get '.' (.obj [("a".toList, .int 5)]) (.integer .int) "a".toList
      = .ok (0, .value (.integer .int 5)) := by
  refine ⟨by decide, by decide, by decide, by decide, by decide, by decide⟩

/-- C38 (amended): for every root object, every path p and scalar v, and every path q whose
first segment name, cut at its first NUL character, differs from the first segment name of p
both whole and cut at its first NUL character, the results of get (for every requested
type), exist, empty, size and getType at q are the same after set(v, p) as before it,
whatever the status set returns. -/
theorem C38_set_leaves_siblings (cSep : Char) (ms : List (Str × Value)) (v : TValue)
    (p pname pch q qname qch : Str) (pi qi : Nat)
    (hp : split cSep p = .ok (pname, pch, pi)) (hq : split cSep q = .ok (qname, qch, qi))
    (h1 : cstr qname ≠ cstr pname) (h2 : cstr qname ≠ pname)
    (code : Int) (after : Value) (hset : set cSep (.obj ms) v p = .ok (code, after)) :
    (∀ T, get cSep after T q = get cSep (.obj ms) T q) ∧
    exist cSep after q = exist cSep (.obj ms) q ∧
    empty cSep after q = empty cSep (.obj ms) q ∧
    size cSep after q = size cSep (.obj ms) q ∧
    getType cSep after q = getType cSep (.obj ms) q := by
  have hshape : ∃ ms', after = .obj ms' ∧
      findMember ms' (cstr qname) = findMember ms (cstr qname) := by
    rcases set_shape cSep ms v p pname pch pi hp code after hset with h | ⟨x, h⟩ | ⟨x, h⟩
    · exact ⟨ms, h, rfl⟩
    · exact ⟨_, h, findMember_append_ne ms pname (cstr qname) x h2⟩
    · exact ⟨_, h, findMember_updMember_ne ms (cstr pname) (cstr qname) x h1⟩
  obtain ⟨ms', rfl, hfm⟩ := hshape
  exact ⟨fun T => get_congr_member cSep ms ms' T q qname qch qi hq hfm,
    exist_congr_member cSep ms ms' q qname qch qi hq hfm,
    empty_congr_member cSep ms ms' q qname qch qi hq hfm,
    size_congr_member cSep ms ms' q qname qch qi hq hfm,
    getType_congr_member cSep ms ms' q qname qch qi hq hfm⟩

/-- C38 (witness): on the root {"a": {"x": 1}, "b": [7]} the write of 5 at "a.x" leaves the
results at "b[0]" as they were. -/
theorem C38_set_leaves_siblings_witness :
    split '.' "a.x".toList = .ok ("a".toList, "x".toList, IS_OBJECT) ∧
    split '.' "b[0]".toList = .ok ("b".toList, [], 0) ∧
    set '.' (.obj [("a".toList, .obj [("x".toList, .int 1)]), ("b".toList, .arr [.int 7])])
        (.integer .int 5) "a.x".toList
      = .ok (0, .obj [("a".toList, .obj [("x".toList, .int 5)]),
          ("b".toList, .arr [.int 7])]) ∧
    ((∀ T, get '.' (.obj [("a".toList, .obj [("x".toList, .int 5)]),
          ("b".toList, .arr [.int 7])]) T "b[0]".toList
        = get '.' (.obj [("a".toList, .obj [("x".toList, .int 1)]),
          ("b".toList, .arr [.int 7])]) T "b[0]".toList) ∧
      exist '.' (.obj [("a".toList, .obj [("x".toList, .int 5)]),
          ("b".toList, .arr [.int 7])]) "b[0]".toList
        = exist '.' (.obj [("a".toList, .obj [("x".toList, .int 1)]),
          ("b".toList, .arr [.int 7])]) "b[0]".toList ∧
      empty '.' (.obj [("a".toList, .obj [("x".toList, .int 5)]),
          ("b".toList, .arr [.int 7])]) "b[0]".toList
        = empty '.' (.obj [("a".toList, .obj [("x".toList, .int 1)]),
          ("b".toList, .arr [.int 7])]) "b[0]".toList ∧
      size '.' (.obj [("a".toList, .obj [("x".toList, .int 5)]),
          ("b".toList, .arr [.int 7])]) "b[0]".toList
        = size '.' (.obj [("a".toList, .obj [("x".toList, .int 1)]),
          ("b".toList, .arr [.int 7])]) "b[0]".toList ∧
      getType '.' (.obj [("a".toList, .obj [("x".toList, .int 5)]),
          ("b".toList, .arr [.int 7])]) "b[0]".toList
        = getType '.' (.obj [("a".toList, .obj [("x".toList, .int 1)]),
          ("b".toList, .arr [.int 7])]) "b[0]".toList) :=
  ⟨by decide, by decide, by decide,
    C38_set_leaves_siblings '.' _ (.integer .int 5) "a.x".toList "a".toList "x".toList
      "b[0]".toList "b".toList [] IS_OBJECT 0 (by decide) (by decide) (by decide) (by decide)
      0 _ (by decide)⟩

/-! ## The schema of the elements of an array (C31) -/

theorem type_eq_OBJECT_iff (x : Value) : type x = TYPE.OBJECT ↔ ∃ ms, x = .obj ms := by
  cases x with
  | obj ms => exact ⟨fun _ => ⟨ms, rfl⟩, fun _ => rfl⟩
  | arr xs => exact ⟨fun h => absurd h (show TYPE.ARRAY ≠ TYPE.OBJECT by decide),
      fun ⟨_, h⟩ => by cases h⟩
  | bool b => exact ⟨fun h => absurd h (show TYPE.BOOL ≠ TYPE.OBJECT by decide),
      fun ⟨_, h⟩ => by cases h⟩
  | str s => exact ⟨fun h => absurd h (show TYPE.STRING ≠ TYPE.OBJECT by decide),
      fun ⟨_, h⟩ => by cases h⟩
  | null => exact ⟨fun h => absurd h (show TYPE.UKNOWN ≠ TYPE.OBJECT by decide),
      fun ⟨_, h⟩ => by cases h⟩
  | int n =>
    refine ⟨fun h => ?_, fun ⟨_, h⟩ => by cases h⟩
    exfalso
    unfold type at h
    simp only at h
    split_ifs at h <;> exact absurd h (by decide)
  | real d =>
    refine ⟨fun h => ?_, fun ⟨_, h⟩ => by cases h⟩
    exfalso
    unfold type at h
    simp only at h
    split_ifs at h <;> exact absurd h (by decide)

theorem terminalPlain_append : ∀ (segs : List Segment), segs ≠ [] →
    terminalPlain segs = true → ∃ pre name, segs = pre ++ [(name, none)]
  | [], hne, _ => absurd rfl hne
  | [(name, index)], _, h => by
    cases index with
    | none => exact ⟨[], name, rfl⟩
    | some i => simp [terminalPlain] at h
  | s :: t :: rest, _, h => by
    have h1 : terminalPlain (t :: rest) = true := by simpa [terminalPlain] using h
    obtain ⟨pre, name, hp⟩ := terminalPlain_append (t :: rest) (by simp) h1
    exact ⟨s :: pre, name, by rw [hp]; rfl⟩

theorem pathText_subscript (cSep : Char) (name : Str) (i : Nat) :
    ∀ pre : List Segment,
      pathText cSep (pre ++ [(name, some i)])
        = pathText cSep (pre ++ [(name, none)]) ++ '[' :: (decimal i ++ [']'])
  | [] => by simp [pathText, segText, indexed]
  | [s] => by simp [pathText, segText, indexed]
  | s :: t :: rest => by
    have ih := pathText_subscript cSep name i (t :: rest)
    have e1 : ∀ z : Segment, pathText cSep (s :: t :: rest ++ [z])
        = segText s ++ cSep :: pathText cSep (t :: rest ++ [z]) := fun _ => rfl
    rw [e1, e1, ih, List.append_assoc]
    rfl

theorem resolve_subscript (name : Str) (i : Nat) (xs : List Value) (x : Value)
    (hx : xs.get? i = some x) :
    ∀ (pre : List Segment) (root : Value),
      resolve root (pre ++ [(name, none)]) = some (.arr xs) →
      resolve root (pre ++ [(name, some i)]) = some x
  | [], root, h => by
    obtain ⟨ms, rfl⟩ := resolve_obj root _ _ _ h
    obtain ⟨child, hf, hr⟩ := resolve_plain ms name [] _ h
    rw [resolve_nil] at hr
    injection hr with hr
    subst hr
    exact resolve_item_intro ms name i [] xs x x hf hx (resolve_nil x)
  | (n, none) :: rest, root, h => by
    obtain ⟨ms, rfl⟩ := resolve_obj root _ _ _ h
    obtain ⟨child, hf, hr⟩ := resolve_plain ms n _ _ h
    exact resolve_plain_intro ms n _ child x hf
      (resolve_subscript name i xs x hx rest child hr)
  | (n, some k) :: rest, root, h => by
    obtain ⟨ms, rfl⟩ := resolve_obj root _ _ _ h
    obtain ⟨ys, item, hf, hg, hr⟩ := resolve_item ms n k _ _ h
    exact resolve_item_intro ms n k _ ys item x hf hg
      (resolve_subscript name i xs x hx rest item hr)

theorem checkNodeItems_concat (cSep : Char) (doc : Value) (sp : Str)
    (items : List (Str × stNodeConfig)) (hfree : callbackFreeItems items = true)
    (i : Int) (v : CheckRet) :
    ∃ status : CheckRet → Int,
      checkNodeItems cSep items doc sp i v
        = (itemErrors cSep doc sp items >>= fun es => Result.ok (status es, doc, v ++ es)) := by
  induction items generalizing i v with
  | nil =>
    refine ⟨fun _ => i, ?_⟩
    simp only [checkNodeItems, itemErrors, List.map_nil, concatErrors, result_pure,
      result_bind_ok, List.append_nil]
  | cons x xs ih =>
    obtain ⟨k, cfg⟩ := x
    simp only [callbackFreeItems, Bool.and_eq_true] at hfree
    have h0 := checkNode_frame cSep cfg hfree.1 doc (sp ++ '.' :: k) []
    cases hc : checkNode cSep cfg doc (sp ++ '.' :: k) [] with
    | fault e =>
      refine ⟨fun _ => 0, ?_⟩
      simp only [checkNodeItems, checkNode_frame cSep cfg hfree.1 doc (sp ++ '.' :: k) v, hc,
        itemErrors, List.map_cons, concatErrors, nodeErrors, result_bind_fault]
    | ok r1 =>
      obtain ⟨i1, d1, e1⟩ := r1
      rw [hc] at h0
      simp only [result_bind_ok, List.nil_append, Result.ok.injEq, Prod.mk.injEq, true_and]
        at h0
      have hd : d1 = doc := h0.1
      subst hd
      obtain ⟨status, hst⟩ := ih hfree.2 i1 (v ++ e1)
      refine ⟨fun es => status (es.drop e1.length), ?_⟩
      simp only [checkNodeItems, checkNode_frame cSep cfg hfree.1 d1 (sp ++ '.' :: k) v, hc,
        result_bind_ok, hst, itemErrors, List.map_cons, concatErrors, nodeErrors, result_pure]
      cases concatErrors cSep d1
          (xs.map fun entry => (sp ++ '.' :: entry.1, entry.2)) with
      | fault e => rfl
      | ok es =>
        simp only [result_bind_ok, List.drop_left, List.append_assoc]

theorem checkArrayItems_loop (cSep : Char) (doc : Value) (strNode : Str)
    (items : List (Str × stNodeConfig)) (hfree : callbackFreeItems items = true)
    (F : Int × Str × Value × CheckRet → Nat → Result (Int × Str × Value × CheckRet))
    (hF : ∀ (i : Int) (sp : Str) (v : CheckRet) (uiCnt : Nat),
      F (i, sp, doc, v) uiCnt
        = (getType cSep doc (strNode ++ '[' :: (decimal uiCnt ++ [']'])) >>= fun eItem =>
            if eItem ≠ TYPE.OBJECT then
              Result.ok (-1, strNode ++ '[' :: (decimal uiCnt ++ [']']), doc,
                v ++ [(strNode ++ '[' :: (decimal uiCnt ++ [']']), CHECK_ERROR.BAD_FORMAT)])
            else
              checkNodeItems cSep items doc (strNode ++ '[' :: (decimal uiCnt ++ [']'])) i v
                >>= fun r =>
                  Result.ok (r.1, strNode ++ '[' :: (decimal uiCnt ++ [']']), r.2.1, r.2.2))) :
    ∀ (ys : List Value) (k : Nat),
      (∀ j y, ys.get? j = some y →
        getType cSep doc (strNode ++ '[' :: (decimal (k + j) ++ [']'])) = .ok (type y)) →
      ∀ (i0 : Int) (sp0 : Str) (vec : CheckRet),
        ((List.range' k ys.length).foldlM F (i0, sp0, doc, vec) >>= fun r =>
            Result.ok (r.2.2.1, r.2.2.2))
          = (arrayErrors cSep doc strNode items ys k >>= fun es =>
              Result.ok (doc, vec ++ es))
  | [], k, _, i0, sp0, vec => by
    simp only [List.length_nil, List.range'_zero, List.foldlM_nil, arrayErrors, result_pure,
      result_bind_ok, List.append_nil]
  | y :: ys, k, hty, i0, sp0, vec => by
    have hy := hty 0 y rfl
    rw [Nat.add_zero] at hy
    have hrest : ∀ j y', ys.get? j = some y' →
        getType cSep doc (strNode ++ '[' :: (decimal (k + 1 + j) ++ [']']))
          = .ok (type y') := by
      intro j y' hj
      have := hty (j + 1) y' hj
      rwa [show k + (j + 1) = k + 1 + j by omega] at this
    have ih := checkArrayItems_loop cSep doc strNode items hfree F hF ys (k + 1) hrest
    rw [List.length_cons, List.range'_succ, List.foldlM_cons, hF]
    simp only [hy, result_bind_ok]
    by_cases hobj : type y = TYPE.OBJECT
    · obtain ⟨ms, rfl⟩ := (type_eq_OBJECT_iff y).1 hobj
      obtain ⟨status, hst⟩ := checkNodeItems_concat cSep doc
        (strNode ++ '[' :: (decimal k ++ [']'])) items hfree i0 vec
      simp only [hobj, ne_eq, not_true_eq_false, if_false, hst, result_bind_assoc,
        result_bind_ok, result_pure, arrayErrors, ih]
      cases itemErrors cSep doc (strNode ++ '[' :: (decimal k ++ [']'])) items with
      | fault e => rfl
      | ok es =>
        simp only [result_bind_ok]
        cases arrayErrors cSep doc strNode items ys (k + 1) with
        | fault e => rfl
        | ok es2 => simp only [result_bind_ok, List.append_assoc]
    · have hnot : ∀ ms, y ≠ .obj ms := fun ms h => hobj ((type_eq_OBJECT_iff y).2 ⟨ms, h⟩)
      simp only [hobj, ne_eq, not_false_eq_true, if_true, result_pure, result_bind_ok, ih]
      have harr : arrayErrors cSep doc strNode items (y :: ys) k
          = (arrayErrors cSep doc strNode items ys (k + 1) >>= fun b =>
              Result.ok ((strNode ++ '[' :: (decimal k ++ [']']), CHECK_ERROR.BAD_FORMAT)
                :: b)) := by
        cases y with
        | obj ms => exact absurd rfl (hnot ms)
        | _ => rfl
      rw [harr]
      cases arrayErrors cSep doc strNode items ys (k + 1) with
      | fault e => rfl
      | ok es2 => simp only [result_bind_ok, List.append_assoc, List.singleton_append]

theorem checkArrayItems_errors (cSep : Char) (doc : Value) (strNode : Str)
    (items : List (Str × stNodeConfig)) (hfree : callbackFreeItems items = true)
    (xs : List Value)
    (hty : ∀ j y, xs.get? j = some y →
      getType cSep doc (strNode ++ '[' :: (decimal (0 + j) ++ [']'])) = .ok (type y))
    (vec : CheckRet) :
    (checkArrayItems cSep (fun d strPath iRet v => checkNodeItems cSep items d strPath iRet v)
        strNode xs.length doc vec >>= fun r => Result.ok (r.2.2.1, r.2.2.2))
      = (arrayErrors cSep doc strNode items xs 0 >>= fun es => Result.ok (doc, vec ++ es)) := by
  unfold checkArrayItems
  rw [List.range_eq_range']
  exact checkArrayItems_loop cSep doc strNode items hfree _ (fun _ _ _ _ => rfl) xs 0 hty 0
    strNode vec

/-- C31 (counterexample): a config of type ARRAY with a children map and a callback: on
{"items": [{"id": 1}]} with the child id of type INT the elements give no error, and the
node check appends the error of the callback. -/
theorem C31_counterexample :
    arrayErrors '.' (.obj [("items".toList, .arr [.obj [("id".toList, .int 1)]])])
        "items".toList [("id".toList, .mk false false false TYPE.INT none none)]
        [.obj [("id".toList, .int 1)]] 0
      = .ok [] ∧
    checkNode '.'
        (.mk false false false TYPE.ARRAY
          (some fun d _ v => .ok (-1, d, v ++ [("callback".toList, .BAD_VALUE)]))
          (some [("id".toList, .mk false false false TYPE.INT none none)]))
        (.obj [("items".toList, .arr [.obj [("id".toList, .int 1)]])]) "items".toList []
      = .ok (-1, .obj [("items".toList, .arr [.obj [("id".toList, .int 1)]])],
          [("callback".toList, .BAD_VALUE)]) := by
  refine ⟨by decide, by decide⟩

/-- C31 (amended): for every document in which a valid path whose terminal segment carries
no subscript addresses a non-empty Array of n elements (at most 2^32, the capacity of a
RapidJSON array), and every config of type ARRAY without a callback whose children map
holds no callback at any depth: the node check leaves the document unchanged and the errors
it appends are the concatenation for i = 0..n-1, in increasing i, of [(path[i], BAD_FORMAT)]
when element i is not an Object, and otherwise of the node-check errors of path[i].field
for each (field, fieldConfig) of the children in key order; the check fails to return
exactly when one of these node checks does.  A bad element does not stop the check of the
later elements. -/
theorem C31_array_elements_schema (cSep : Char) (hs : PlainSep cSep) (segs : List Segment)
    (hne : segs ≠ []) (hval : ∀ s ∈ segs, ValidSegment cSep s)
    (hplain : terminalPlain segs = true) (doc : Value) (xs : List Value)
    (hres : resolve doc segs = some (.arr xs)) (hxs : xs ≠ [])
    (hlen : xs.length ≤ 4294967296) (o n e : Bool)
    (items : List (Str × stNodeConfig)) (hfree : callbackFreeItems items = true)
    (vec : CheckRet) :
    (checkNode cSep (.mk o n e TYPE.ARRAY none (some items)) doc (pathText cSep segs) vec
        >>= fun r => Result.ok (r.2.1, r.2.2))
      = (arrayErrors cSep doc (pathText cSep segs) items xs 0 >>= fun es =>
          Result.ok (doc, vec ++ es)) := by
  have hex := exist_resolve cSep hs segs hne hval doc _ hres
  have hem := empty_resolve cSep hs segs hne hval doc _ hres
  have hty := getType_resolve cSep hs segs hne hval doc _ hres
  have hsz := size_resolve cSep hs segs hne hval hplain doc _ hres
  simp only [Value.IsNull, Bool.and_false] at hem
  simp only [elementCount] at hsz
  have hty2 : getType cSep doc (pathText cSep segs) = .ok TYPE.ARRAY := hty
  have hitems : ∀ j y, xs.get? j = some y →
      getType cSep doc (pathText cSep segs ++ '[' :: (decimal (0 + j) ++ [']']))
        = .ok (type y) := by
    intro j y hj
    obtain ⟨pre, name, rfl⟩ := terminalPlain_append segs hne hplain
    have hjlt : j < xs.length := by
      rcases Nat.lt_or_ge j xs.length with h | h
      · exact h
      · rw [List.get?_eq_none.2 h] at hj
        cases hj
    have hname : ValidSegment cSep (name, none) :=
      hval _ (List.mem_append_right _ (List.mem_singleton_self _))
    rw [Nat.zero_add, ← pathText_subscript]
    refine getType_resolve cSep hs (pre ++ [(name, some j)]) (by simp) ?_ doc y
      (resolve_subscript name j xs y hj pre doc hres)
    intro s hmem
    rcases List.mem_append.1 hmem with h | h
    · exact hval s (List.mem_append_left _ h)
    · rw [List.mem_singleton.1 h]
      exact ⟨hname.1, hname.2, by omega⟩
  have hloop := checkArrayItems_errors cSep doc (pathText cSep segs) items hfree xs hitems vec
  have hlen0 : decide (xs.length = 0) = false := by
    cases xs with
    | nil => exact absurd rfl hxs
    | cons x rest => rfl
  have h1 : TYPE.ARRAY ≠ TYPE.STRING := by decide
  have h2 : TYPE.ARRAY &&& TYPE.ARRAY ≠ 0 := by decide
  rw [checkNode_eq]
  simp only [stNodeConfig.bOptional, stNodeConfig.bNull, stNodeConfig.bEmpty,
    stNodeConfig.eType, stNodeConfig.callback, stNodeConfig.mapNodeItems, Option.map_some']
  cases hca : checkArrayItems cSep
      (fun d strPath iRet v => checkNodeItems cSep items d strPath iRet v)
      (pathText cSep segs) xs.length doc vec with
  | fault err =>
    rw [hca] at hloop
    simp only [checkStep, checkTyped, hex, hem, hty2, hsz, h1, h2, hca, result_bind_ok,
      result_bind_fault, if_true, if_false, Bool.not_false, result_pure, decide_True,
      decide_False, Bool.true_and, Bool.false_and, Bool.false_eq_true, hlen0,
      beq_iff_eq, decide_eq_true_eq]
    exact hloop
  | ok r =>
    obtain ⟨i1, sp1, d1, v1⟩ := r
    rw [hca] at hloop
    simp only [checkStep, checkTyped, hex, hem, hty2, hsz, h1, h2, hca, result_bind_ok,
      result_bind_fault, if_true, if_false, Bool.not_false, result_pure, decide_True,
      decide_False, Bool.true_and, Bool.false_and, Bool.false_eq_true, hlen0,
      beq_iff_eq, decide_eq_true_eq]
    exact hloop

/-- C31 (witness): on {"items": [{"id": 1}, {"id": "x"}]} with the child id of type INT the
node check of "items" appends exactly ("items[1].id", BAD_FORMAT). -/
theorem C31_array_elements_schema_witness :
    resolve (.obj [("items".toList, .arr [.obj [("id".toList, .int 1)],
        .obj [("id".toList, .str "x".toList)]])]) [("items".toList, none)]
      = some (.arr [.obj [("id".toList, .int 1)], .obj [("id".toList, .str "x".toList)]]) ∧
    arrayErrors '.' (.obj [("items".toList, .arr [.obj [("id".toList, .int 1)],
        .obj [("id".toList, .str "x".toList)]])]) "items".toList
        [("id".toList, .mk false false false TYPE.INT none none)]
        [.obj [("id".toList, .int 1)], .obj [("id".toList, .str "x".toList)]] 0
      = .ok [("items[1].id".toList, .BAD_FORMAT)] ∧
    (checkNode '.'
        (.mk false false false TYPE.ARRAY none
          (some [("id".toList, .mk false false false TYPE.INT none none)]))
        (.obj [("items".toList, .arr [.obj [("id".toList, .int 1)],
          .obj [("id".toList, .str "x".toList)]])]) "items".toList []
        >>= fun r => Result.ok (r.2.1, r.2.2))
      = (arrayErrors '.' (.obj [("items".toList, .arr [.obj [("id".toList, .int 1)],
            .obj [("id".toList, .str "x".toList)]])]) "items".toList
          [("id".toList, .mk false false false TYPE.INT none none)]
          [.obj [("id".toList, .int 1)], .obj [("id".toList, .str "x".toList)]] 0
          >>= fun es => Result.ok (.obj [("items".toList, .arr [.obj [("id".toList, .int 1)],
            .obj [("id".toList, .str "x".toList)]])], [] ++ es)) :=
  ⟨by decide, by decide,
    C31_array_elements_schema '.' (by decide) [("items".toList, none)] (by decide)
      (by decide) (by decide) _ _ (by decide) (by decide) (by decide) false false false
      [("id".toList, .mk false false false TYPE.INT none none)] (by decide) []⟩

end rapidjson

end utilities
